import Mathlib

/-!
# Verification of the FMC voxel-game server against its specification

This file gives a shallow embedding, in Lean 4, of the parts of the FMC
server (and its client movement plugin) that the specification's claims
talk about, together with theorems settling each claim.

Conventions of the embedding:
* Rust `f32`/`f64` arithmetic is modelled over `ℚ`, with `WithTop ℚ` where
  the code relies on `f32::INFINITY` as an absorbing cost.  Transcendental
  primitives (`powf`) are abstracted as function parameters.
* Machine integers (`u32`, `usize`) are modelled as `ℕ` with explicit
  sentinel constants (`u32MAX`) where the code uses `u32::MAX`; the code
  paths verified here never overflow.
* Stateful systems become explicit state-passing functions; event loops
  become folds over event lists; `Instant` timestamps become rationals.
* Fallible or panicking code returns `Option`/`Except`.
* Loops whose termination is part of what is being verified are given an
  explicit fuel parameter; "the code halts" is rendered as
  "some fuel suffices".
-/

set_option maxHeartbeats 1000000

namespace FMC

/-! ## Basic vector types -/

/-- A 3-vector of rationals (stand-in for glam `Vec3`/`DVec3`). -/
structure Vec3 where
  x : ℚ
  y : ℚ
  z : ℚ
deriving DecidableEq, Repr

/-- A 3-vector of integers (stand-in for glam `IVec3` / `BlockPosition`). -/
structure IVec3 where
  x : ℤ
  y : ℤ
  z : ℤ
deriving DecidableEq, Repr

namespace Vec3

def add (a b : Vec3) : Vec3 := ⟨a.x + b.x, a.y + b.y, a.z + b.z⟩

def sub (a b : Vec3) : Vec3 := ⟨a.x - b.x, a.y - b.y, a.z - b.z⟩

def mul (a b : Vec3) : Vec3 := ⟨a.x * b.x, a.y * b.y, a.z * b.z⟩

def smul (q : ℚ) (a : Vec3) : Vec3 := ⟨q * a.x, q * a.y, q * a.z⟩

def zero : Vec3 := ⟨0, 0, 0⟩

def splat (q : ℚ) : Vec3 := ⟨q, q, q⟩

/-- Component-wise `max` (glam `Vec3::max`). -/
def maxv (a b : Vec3) : Vec3 := ⟨max a.x b.x, max a.y b.y, max a.z b.z⟩

/-- Component-wise `min` (glam `Vec3::min`). -/
def minv (a b : Vec3) : Vec3 := ⟨min a.x b.x, min a.y b.y, min a.z b.z⟩

def absv (a : Vec3) : Vec3 := ⟨|a.x|, |a.y|, |a.z|⟩

def neg (a : Vec3) : Vec3 := ⟨-a.x, -a.y, -a.z⟩

/-- glam `Vec3::floor` followed by `as_ivec3`. -/
def floor (a : Vec3) : IVec3 := ⟨⌊a.x⌋, ⌊a.y⌋, ⌊a.z⌋⟩

end Vec3

namespace IVec3

def add (a b : IVec3) : IVec3 := ⟨a.x + b.x, a.y + b.y, a.z + b.z⟩

def offsetY (a : IVec3) (d : ℤ) : IVec3 := ⟨a.x, a.y + d, a.z⟩

def asVec3 (a : IVec3) : Vec3 := ⟨(a.x : ℚ), (a.y : ℚ), (a.z : ℚ)⟩

/-- `IVec3::distance_squared`, an integer. -/
def distSq (a b : IVec3) : ℤ :=
  (a.x - b.x) ^ 2 + (a.y - b.y) ^ 2 + (a.z - b.z) ^ 2

end IVec3

/-! ## Item stacks

Modelled from the spec: `ItemStack` lives in the external `fmc` crate, not in
this repository's sources.  The spec describes it as `{ item_id, size,
capacity }` with `size ≤ capacity`, "empty iff `size == 0`", `take(n)`
removing `min(n, size)` items, and empty stacks collapsing to a canonical
empty form (`item = None`). -/

structure ItemStack where
  itemId : Option ℕ
  size : ℕ
  capacity : ℕ
deriving DecidableEq, Repr

instance : Inhabited ItemStack := ⟨⟨none, 0, 0⟩⟩

namespace ItemStack

/-- `ItemStack::is_empty` — the spec: empty iff `size == 0`. -/
def is_empty (s : ItemStack) : Bool := s.size == 0

/-- `ItemStack::item`, returning the stack's item id when present. -/
def item (s : ItemStack) : Option ℕ := s.itemId

/-- `ItemStack::size`. -/
def sizeOf (s : ItemStack) : ℕ := s.size

/-- Modelled from the spec: `take(n)` removes `min(n, size)` items and
returns them as a new stack; an emptied stack collapses to the canonical
empty stack.  Result is `(remaining, taken)`. -/
def take (s : ItemStack) (n : ℕ) : ItemStack × ItemStack :=
  let t := min n s.size
  let rem := s.size - t
  (⟨if rem = 0 then none else s.itemId, rem, s.capacity⟩, ⟨s.itemId, t, s.capacity⟩)

/-- A stack is canonical when its item id is present exactly when it is
non-empty.  The `fmc` crate maintains this invariant ("collapses empty to
canonical empty"). -/
def Canonical (s : ItemStack) : Prop := s.itemId = none ↔ s.size = 0

instance (s : ItemStack) : Decidable s.Canonical := by
  unfold Canonical; infer_instance

end ItemStack

/-! ## Shaped recipe patterns — `src/items/crafting/shaped.rs` -/

/-- `Pattern.inner : Vec<Vec<Option<ItemId>>>`. -/
abbrev Pattern := List (List (Option ℕ))

/-- Cell `(i, j)` of a flat grid with row length `gs`
(`grid.chunks(gs)` indexing). -/
def cellAt (g : List ItemStack) (gs i j : ℕ) : ItemStack :=
  (g.get? (i * gs + j)).getD default

/-- The coordinates of the non-empty cells of the grid, in the row-major
order the source's double loop visits them. -/
def nonEmptyCells (gs : ℕ) (g : List ItemStack) : List (ℕ × ℕ) :=
  (List.range gs).flatMap fun i =>
    (List.range gs).filterMap fun j =>
      if (cellAt g gs i j).is_empty then none else some (i, j)

/-- The `(max_row, max_col, min_row, min_col)` bounding-box fold of
`impl From<&[ItemStack]> for Pattern` (initial state `(0, 0, gs, gs)`,
each non-empty cell raising the maxima and lowering the minima). -/
def patternBounds (gs : ℕ) (g : List ItemStack) : ℕ × ℕ × ℕ × ℕ :=
  (nonEmptyCells gs g).foldl
    (fun b ij => (max b.1 ij.1, max b.2.1 ij.2, min b.2.2.1 ij.1, min b.2.2.2 ij.2))
    (0, 0, gs, gs)

/-- Row `i` of the flat grid, i.e. element `i` of `grid.chunks(gs)`. -/
def gridRow (g : List ItemStack) (gs i : ℕ) : List ItemStack :=
  (g.drop (i * gs)).take gs

/-- `impl From<&[ItemStack]> for Pattern`: crop the grid to the bounding
box of its non-empty cells, keeping only the item ids.  The source asserts
that the grid is square (`grid_size.pow(2) == grid.len()`, with
`grid_size = sqrt(len)`) and panics otherwise; the panic is modelled as
`none`.  (`(len as f32).sqrt() as usize` agrees with `Nat.sqrt` on all
grid sizes that occur.) -/
def Pattern.fromGrid (g : List ItemStack) : Option Pattern :=
  let gs := Nat.sqrt g.length
  if gs ^ 2 = g.length then
    let b := patternBounds gs g
    let rows := ((List.range gs).map (gridRow g gs)).take (b.1 + 1) |>.drop b.2.2.1
    some (rows.map fun row => ((row.take (b.2.1 + 1)).drop b.2.2.2).map ItemStack.item)
  else
    none

/-- Laying a pattern back out as a grid of item stacks: `Some id` becomes a
stack of one such item, `None` an empty slot.  (Used to state the
idempotence claim; the source itself never re-normalizes a pattern.) -/
def Pattern.layout (p : Pattern) : List ItemStack :=
  p.flatten.map fun c =>
    match c with
    | some id => ⟨some id, 1, 1⟩
    | none => default

/-! ## Shaped recipes — `Recipe::craft`, `Recipe::get_craftable_amount` -/

/-- `u32::MAX`. -/
def u32MAX : ℕ := 2 ^ 32 - 1

/-- `Recipe` from `shaped.rs`: per-cell required amounts plus the output
stack. -/
structure Recipe where
  required_amount : List (List ℕ)
  output : ItemStack
deriving DecidableEq, Repr

namespace Recipe

/-- The positive entries of the flattened `required_amount` grid
(`self.required_amount.iter().flatten().filter(|&x| *x > 0)`). -/
def positiveRequired (r : Recipe) : List ℕ :=
  r.required_amount.flatten.filter fun x => 0 < x

/-- `Recipe::get_craftable_amount`: zip the non-empty input stacks with the
positive required amounts, take the minimum of `size / required` (`u32::MAX`
when there are no pairs), and multiply by the output stack's size. -/
def get_craftable_amount (r : Recipe) (input : List ItemStack) : ℕ :=
  let pairs := (input.filter fun s => !s.is_empty).zip r.positiveRequired
  let m := pairs.foldl (fun acc p => if p.1.size / p.2 < acc then p.1.size / p.2 else acc) u32MAX
  if m < u32MAX then m * r.output.size else 0

/-- The slot-update loop of `Recipe::craft`: each non-empty stack, in
order, has `required * amount` taken from it, pairing non-empty stacks
with the positive required amounts (`zip` truncates when either side runs
out). -/
def craftTake : List ItemStack → List ℕ → ℕ → List ItemStack
  | [], _, _ => []
  | s :: rest, reqs, amount =>
    if s.is_empty then s :: craftTake rest reqs amount
    else
      match reqs with
      | [] => s :: rest
      | req :: reqrest => (s.take (req * amount)).1 :: craftTake rest reqrest amount

/-- `Recipe::craft`.  Returns the produced stack (if any) together with the
updated input slots.  (In Rust `amount / output.size()` panics when the
output size is zero; all recipes have positive output size, and the
theorems below carry that hypothesis.) -/
def craft (r : Recipe) (input : List ItemStack) (amount : ℕ) : Option ItemStack × List ItemStack :=
  let amount := min (amount / r.output.size) (r.get_craftable_amount input / r.output.size)
  if amount = 0 then
    (none, input)
  else
    (some { r.output with size := amount * r.output.size },
     craftTake input r.positiveRequired amount)

end Recipe

end FMC

/-! ## List helper lemmas -/

lemma foldl_min_le_init (l : List ℕ) (a : ℕ) : l.foldl min a ≤ a := by
  induction l generalizing a with
  | nil => simp
  | cons x t ih => exact le_trans (ih (min a x)) (min_le_left a x)

lemma foldl_min_le (l : List ℕ) (a : ℕ) {x : ℕ} (hx : x ∈ l) : l.foldl min a ≤ x := by
  induction l generalizing a with
  | nil => cases hx
  | cons y t ih =>
    rcases List.mem_cons.mp hx with h | h
    · subst h
      exact le_trans (foldl_min_le_init t (min a x)) (min_le_right a x)
    · exact ih (min a y) h

lemma foldl_min_eq_or_mem (l : List ℕ) (a : ℕ) : l.foldl min a = a ∨ l.foldl min a ∈ l := by
  induction l generalizing a with
  | nil => left; rfl
  | cons x t ih =>
    rcases ih (min a x) with h | h
    · rcases le_total a x with hax | hax
      · left; rw [List.foldl_cons, h, min_eq_left hax]
      · right; rw [List.foldl_cons, h, min_eq_right hax]; exact List.mem_cons_self x t
    · right; exact List.mem_cons_of_mem x h

lemma le_foldl_max_init (l : List ℕ) (a : ℕ) : a ≤ l.foldl max a := by
  induction l generalizing a with
  | nil => simp
  | cons x t ih => exact le_trans (le_max_left a x) (ih (max a x))

lemma le_foldl_max (l : List ℕ) (a : ℕ) {x : ℕ} (hx : x ∈ l) : x ≤ l.foldl max a := by
  induction l generalizing a with
  | nil => cases hx
  | cons y t ih =>
    rcases List.mem_cons.mp hx with h | h
    · subst h
      exact le_trans (le_max_right a x) (le_foldl_max_init t (max a x))
    · exact ih (max a y) h

lemma foldl_max_eq_or_mem (l : List ℕ) (a : ℕ) : l.foldl max a = a ∨ l.foldl max a ∈ l := by
  induction l generalizing a with
  | nil => left; rfl
  | cons x t ih =>
    rcases ih (max a x) with h | h
    · rcases le_total x a with hax | hax
      · left; rw [List.foldl_cons, h, max_eq_left hax]
      · right; rw [List.foldl_cons, h, max_eq_right hax]; exact List.mem_cons_self x t
    · right; exact List.mem_cons_of_mem x h

lemma foldl_if_lt_eq_min {α : Type} (f : α → ℕ) (l : List α) (a : ℕ) :
    l.foldl (fun acc x => if f x < acc then f x else acc) a = (l.map f).foldl min a := by
  induction l generalizing a with
  | nil => rfl
  | cons x t ih =>
    have : (if f x < a then f x else a) = min a (f x) := by
      rcases lt_or_ge (f x) a with h | h
      · rw [if_pos h, min_eq_right h.le]
      · rw [if_neg (not_lt.mpr h), min_eq_left h]
    simp only [List.foldl_cons, List.map_cons, this, ih]

lemma filter_get_countP (P : FMC.ItemStack → Bool) :
    ∀ (l : List FMC.ItemStack) (i : ℕ) (s : FMC.ItemStack),
      l.get? i = some s → P s = true →
      (l.filter P).get? ((l.take i).countP P) = some s := by
  intro l
  induction l with
  | nil => intro i s h _; simp at h
  | cons x t ih =>
    intro i s h hP
    cases i with
    | zero =>
      simp only [List.get?_cons_zero, Option.some.injEq] at h
      subst h
      simp [List.filter_cons, hP]
    | succ n =>
      simp only [List.get?_cons_succ] at h
      by_cases hx : P x = true
      · simpa [List.filter_cons, hx, List.countP_cons] using ih n s h hP
      · simpa [List.filter_cons, hx, List.countP_cons] using ih n s h hP

namespace FMC

namespace Recipe

lemma craftTake_cons (s : ItemStack) (rest : List ItemStack) (reqs : List ℕ) (amount : ℕ) :
    craftTake (s :: rest) reqs amount =
      if s.is_empty then s :: craftTake rest reqs amount
      else
        match reqs with
        | [] => s :: rest
        | req :: reqrest => (s.take (req * amount)).1 :: craftTake rest reqrest amount := rfl

lemma craftTake_get? (m : ℕ) :
    ∀ (l : List ItemStack) (reqs : List ℕ) (i : ℕ),
      (craftTake l reqs m).get? i =
        match l.get? i with
        | none => none
        | some s =>
          if s.is_empty then some s
          else
            match reqs.get? ((l.take i).countP fun t => !t.is_empty) with
            | some req => some ((s.take (req * m)).1)
            | none => some s := by
  intro l
  induction l with
  | nil => intro reqs i; simp [craftTake]
  | cons x t ih =>
    intro reqs i
    by_cases hx : x.is_empty = true
    · rw [craftTake_cons, if_pos hx]
      cases i with
      | zero => simp [hx]
      | succ n =>
        have := ih reqs n
        simpa [List.countP_cons, hx] using this
    · rw [craftTake_cons, if_neg hx]
      cases reqs with
      | nil =>
        cases i with
        | zero => simp [hx]
        | succ n =>
          simp only [List.get?_cons_succ]
          cases ht : t.get? n with
          | none => simp
          | some s => by_cases hs : s.is_empty = true <;> simp [hs]
      | cons req rr =>
        cases i with
        | zero => simp [hx]
        | succ n =>
          have := ih rr n
          simpa [List.countP_cons, hx] using this

lemma take_fst_size (s : ItemStack) (n : ℕ) : ((s.take n).1).size = s.size - n := by
  unfold ItemStack.take
  simp only
  omega

end Recipe

end FMC

namespace FMC

namespace Recipe

lemma get_craftable_eq (r : Recipe) (input : List ItemStack) :
    r.get_craftable_amount input =
      if (((input.filter fun s => !s.is_empty).zip r.positiveRequired).map
            fun p => p.1.size / p.2).foldl min u32MAX < u32MAX then
        ((((input.filter fun s => !s.is_empty).zip r.positiveRequired).map
            fun p => p.1.size / p.2).foldl min u32MAX) * r.output.size
      else 0 := by
  simp only [get_craftable_amount]
  rw [foldl_if_lt_eq_min (fun p : ItemStack × ℕ => p.1.size / p.2)]

end Recipe

/-- C1 counterexample grid and recipe: a single-slot grid holding three of
item 5, matched by a recipe requiring one of item 5 per craft with an
output stack of size 4. -/
def cexRecipeC1 : Recipe := { required_amount := [[1]], output := ⟨some 7, 4, 64⟩ }

def cexInputC1 : List ItemStack := [⟨some 5, 3, 64⟩]

/-- Witness recipe for the amended C1 theorem: two of item 4 make one of
item 9. -/
def wRecipeC1 : Recipe := { required_amount := [[2]], output := ⟨some 9, 1, 10⟩ }

def wInputC1 : List ItemStack := [⟨some 4, 5, 10⟩]

/-- C1 (counterexample): with `out_size = 4` and a matching single-slot
grid holding 3 items, `get_craftable_amount` returns `k = 12`, but
`craft(input, k·out_size)` returns a stack of size `12`, not `k·out_size =
48`, and reduces the slot by `3`, not by `required · k = 12`.  So the
claim's accounting fails whenever the output stack size exceeds 1. -/
theorem C1_counterexample :
    Pattern.fromGrid cexInputC1 = some [[some 5]] ∧
    cexRecipeC1.get_craftable_amount cexInputC1 = 12 ∧
    ((cexRecipeC1.craft cexInputC1 (12 * cexRecipeC1.output.size)).1.map ItemStack.sizeOf
       = some 12 ∧ (12 : ℕ) ≠ 12 * cexRecipeC1.output.size) ∧
    ((cexRecipeC1.craft cexInputC1 (12 * cexRecipeC1.output.size)).2.map ItemStack.sizeOf
       = [0] ∧ (3 : ℕ) - 0 = 3 ∧ (3 : ℕ) ≠ 1 * 12) := by
  decide

/-- C1 (amended): if `get_craftable_amount(input) = k > 0` then
`craft(input, k·out_size)` crafts `k / out_size` units: it returns
`Some` stack of size `k` (not `k·out_size`), and reduces each non-empty
input slot by exactly `required · (k / out_size)` (not `required · k`),
pairing the non-empty slots in order with the positive required amounts.
Empty slots are untouched. -/
theorem C1_theorem (r : Recipe) (input : List ItemStack) (k : ℕ)
    (hout : 0 < r.output.size)
    (halign : r.positiveRequired.length = (input.filter fun s => !s.is_empty).length)
    (hk : r.get_craftable_amount input = k) (hk0 : 0 < k) :
    (r.craft input (k * r.output.size)).1 = some { r.output with size := k } ∧
    ∀ i s, input.get? i = some s →
      (s.is_empty = true → (r.craft input (k * r.output.size)).2.get? i = some s) ∧
      (s.is_empty = false → ∃ req,
        r.positiveRequired.get? ((input.take i).countP fun t => !t.is_empty) = some req ∧
        req * (k / r.output.size) ≤ s.size ∧
        ((r.craft input (k * r.output.size)).2.get? i).map ItemStack.sizeOf
          = some (s.size - req * (k / r.output.size))) := by
  classical
  set o := r.output.size with ho
  set m := (((input.filter fun s => !s.is_empty).zip r.positiveRequired).map
      fun p => p.1.size / p.2).foldl min u32MAX with hmdef
  rw [Recipe.get_craftable_eq] at hk
  by_cases hmlt : m < u32MAX
  · rw [if_pos hmlt] at hk
    -- k = m * o
    have hmk : m * o = k := hk
    have hm0 : 0 < m := by
      rcases Nat.eq_zero_or_pos m with h | h
      · rw [h, zero_mul] at hmk; omega
      · exact h
    have hko : k / o = m := by rw [← hmk, Nat.mul_div_cancel _ hout]
    have hmlek : m ≤ k := by
      rw [← hmk]; exact Nat.le_mul_of_pos_right m hout
    have hcraft : r.craft input (k * o) =
        (some { r.output with size := k }, Recipe.craftTake input r.positiveRequired m) := by
      simp only [Recipe.craft]
      rw [Recipe.get_craftable_eq, ← hmdef, if_pos hmlt, hmk]
      rw [Nat.mul_div_cancel _ hout, hko, min_eq_right hmlek,
        if_neg (by omega : ¬ (m = 0)), hmk]
    rw [hcraft]
    refine ⟨rfl, ?_⟩
    intro i s hs
    constructor
    · intro hemp
      rw [Recipe.craftTake_get? m input r.positiveRequired i, hs]
      simp [hemp]
    · intro hemp
      -- locate the paired required amount
      have hPs : (fun t : ItemStack => !t.is_empty) s = true := by simp [hemp]
      have hfil := filter_get_countP (fun t : ItemStack => !t.is_empty) input i s hs hPs
      set j := (input.take i).countP (fun t : ItemStack => !t.is_empty) with hj
      have hjlt : j < (input.filter fun s => !s.is_empty).length := by
        by_contra h
        rw [List.get?_eq_none.mpr (le_of_not_lt h)] at hfil
        exact Option.noConfusion hfil
      have hjreq : j < r.positiveRequired.length := by rw [halign]; exact hjlt
      have hreq : r.positiveRequired.get? j
          = some (r.positiveRequired.get ⟨j, hjreq⟩) := List.get?_eq_get hjreq
      set req := r.positiveRequired.get ⟨j, hjreq⟩ with hreqdef
      refine ⟨req, hreq, ?_, ?_⟩
      · -- req * m ≤ s.size, hence (with hko) the bound
        have hzip : ((input.filter fun s => !s.is_empty).zip r.positiveRequired).get? j
            = some (s, req) := by
          rw [List.get?_zip_eq_some]
          exact ⟨hfil, hreq⟩
        have hmem : (s, req) ∈ (input.filter fun s => !s.is_empty).zip r.positiveRequired :=
          List.get?_mem hzip
        have hmem' : s.size / req ∈
            (((input.filter fun s => !s.is_empty).zip r.positiveRequired).map
              fun p => p.1.size / p.2) :=
          List.mem_map_of_mem _ hmem
        have hmle : m ≤ s.size / req := foldl_min_le _ _ hmem'
        have hreqpos : 0 < req := by
          have : req ∈ r.positiveRequired := List.get?_mem hreq
          have := List.of_mem_filter this
          simpa using this
        rw [hko]
        calc req * m = m * req := Nat.mul_comm _ _
          _ ≤ s.size := (Nat.le_div_iff_mul_le hreqpos).mp hmle
      · rw [hko, Recipe.craftTake_get? m input r.positiveRequired i, hs]
        simp only [hemp, Bool.false_eq_true, if_false, ← hj, hreq]
        simp [Recipe.take_fst_size, ItemStack.sizeOf]
  · rw [if_neg hmlt] at hk
    omega

/-- C1 (witness): the amended theorem applied to a concrete recipe
(two of item 4 make one of item 9) and grid (a slot of five of item 4). -/
theorem C1_witness :
    (0 < wRecipeC1.output.size) ∧
    wRecipeC1.get_craftable_amount wInputC1 = 2 ∧
    (wRecipeC1.craft wInputC1 (2 * wRecipeC1.output.size)).1
      = some { wRecipeC1.output with size := 2 } := by
  refine ⟨by decide, by decide, ?_⟩
  exact (C1_theorem wRecipeC1 wInputC1 2 (by decide) (by decide) (by decide) (by decide)).1

end FMC

namespace FMC

/-! ## Pattern-normalization lemmas (for C6) -/

/-- The row component of the normalization bounding box (`min_row`). -/
def minRow (gs : ℕ) (g : List ItemStack) : ℕ :=
  ((nonEmptyCells gs g).map Prod.fst).foldl min gs

/-- `max_row`. -/
def maxRow (gs : ℕ) (g : List ItemStack) : ℕ :=
  ((nonEmptyCells gs g).map Prod.fst).foldl max 0

/-- `min_col`. -/
def minCol (gs : ℕ) (g : List ItemStack) : ℕ :=
  ((nonEmptyCells gs g).map Prod.snd).foldl min gs

/-- `max_col`. -/
def maxCol (gs : ℕ) (g : List ItemStack) : ℕ :=
  ((nonEmptyCells gs g).map Prod.snd).foldl max 0

lemma bounds_fold_split (l : List (ℕ × ℕ)) :
    ∀ a b c d : ℕ,
      l.foldl (fun b ij => (max b.1 ij.1, max b.2.1 ij.2, min b.2.2.1 ij.1, min b.2.2.2 ij.2))
          (a, b, c, d)
        = ((l.map Prod.fst).foldl max a, (l.map Prod.snd).foldl max b,
           (l.map Prod.fst).foldl min c, (l.map Prod.snd).foldl min d) := by
  induction l with
  | nil => intro a b c d; rfl
  | cons x t ih => intro a b c d; exact ih (max a x.1) (max b x.2) (min c x.1) (min d x.2)

lemma patternBounds_eq (gs : ℕ) (g : List ItemStack) :
    patternBounds gs g = (maxRow gs g, maxCol gs g, minRow gs g, minCol gs g) := by
  unfold patternBounds maxRow maxCol minRow minCol
  exact bounds_fold_split (nonEmptyCells gs g) 0 0 gs gs

lemma mem_nonEmptyCells {gs : ℕ} {g : List ItemStack} {i j : ℕ} :
    (i, j) ∈ nonEmptyCells gs g ↔
      i < gs ∧ j < gs ∧ (cellAt g gs i j).is_empty = false := by
  simp only [nonEmptyCells, List.mem_flatMap, List.mem_filterMap, List.mem_range]
  constructor
  · rintro ⟨a, ha, b, hb, hab⟩
    by_cases h : (cellAt g gs a b).is_empty
    · rw [if_pos h] at hab; cases hab
    · rw [if_neg h] at hab
      rw [Option.some.injEq, Prod.mk.injEq] at hab
      obtain ⟨rfl, rfl⟩ := hab
      exact ⟨ha, hb, Bool.not_eq_true _ ▸ Bool.of_not_eq_true h⟩
  · rintro ⟨hi, hj, hc⟩
    exact ⟨i, hi, j, hj, by rw [hc]; rfl⟩

lemma minRow_le {gs : ℕ} {g : List ItemStack} {i j : ℕ}
    (h : (i, j) ∈ nonEmptyCells gs g) : minRow gs g ≤ i :=
  foldl_min_le _ _ (List.mem_map_of_mem Prod.fst h)

lemma le_maxRow {gs : ℕ} {g : List ItemStack} {i j : ℕ}
    (h : (i, j) ∈ nonEmptyCells gs g) : i ≤ maxRow gs g :=
  le_foldl_max _ _ (List.mem_map_of_mem Prod.fst h)

lemma minCol_le {gs : ℕ} {g : List ItemStack} {i j : ℕ}
    (h : (i, j) ∈ nonEmptyCells gs g) : minCol gs g ≤ j :=
  foldl_min_le _ _ (List.mem_map_of_mem Prod.snd h)

lemma le_maxCol {gs : ℕ} {g : List ItemStack} {i j : ℕ}
    (h : (i, j) ∈ nonEmptyCells gs g) : j ≤ maxCol gs g :=
  le_foldl_max _ _ (List.mem_map_of_mem Prod.snd h)

lemma exists_minRow {gs : ℕ} {g : List ItemStack} (h : nonEmptyCells gs g ≠ []) :
    ∃ j, (minRow gs g, j) ∈ nonEmptyCells gs g := by
  rcases foldl_min_eq_or_mem ((nonEmptyCells gs g).map Prod.fst) gs with heq | hmem
  · obtain ⟨⟨a, b⟩, hab⟩ := List.exists_mem_of_ne_nil _ h
    have h1 : minRow gs g ≤ a := minRow_le hab
    have h2 : a < gs := (mem_nonEmptyCells.mp hab).1
    have heq' : minRow gs g = gs := heq
    omega
  · obtain ⟨⟨a, b⟩, hab, hfst⟩ := List.mem_map.mp hmem
    refine ⟨b, ?_⟩
    have : a = minRow gs g := hfst
    rwa [← this]

lemma exists_maxRow {gs : ℕ} {g : List ItemStack} (h : nonEmptyCells gs g ≠ []) :
    ∃ j, (maxRow gs g, j) ∈ nonEmptyCells gs g := by
  rcases foldl_max_eq_or_mem ((nonEmptyCells gs g).map Prod.fst) 0 with heq | hmem
  · obtain ⟨⟨a, b⟩, hab⟩ := List.exists_mem_of_ne_nil _ h
    have h3 : maxRow gs g = 0 := heq
    have h1 : a ≤ maxRow gs g := le_maxRow hab
    have h2 : a = 0 := by omega
    refine ⟨b, ?_⟩
    rw [h3, ← h2]
    exact hab
  · obtain ⟨⟨a, b⟩, hab, hfst⟩ := List.mem_map.mp hmem
    refine ⟨b, ?_⟩
    have : a = maxRow gs g := hfst
    rwa [← this]

lemma exists_minCol {gs : ℕ} {g : List ItemStack} (h : nonEmptyCells gs g ≠ []) :
    ∃ i, (i, minCol gs g) ∈ nonEmptyCells gs g := by
  rcases foldl_min_eq_or_mem ((nonEmptyCells gs g).map Prod.snd) gs with heq | hmem
  · obtain ⟨⟨a, b⟩, hab⟩ := List.exists_mem_of_ne_nil _ h
    have h1 : minCol gs g ≤ b := minCol_le hab
    have h2 : b < gs := (mem_nonEmptyCells.mp hab).2.1
    have heq' : minCol gs g = gs := heq
    omega
  · obtain ⟨⟨a, b⟩, hab, hsnd⟩ := List.mem_map.mp hmem
    refine ⟨a, ?_⟩
    have : b = minCol gs g := hsnd
    rwa [← this]

lemma exists_maxCol {gs : ℕ} {g : List ItemStack} (h : nonEmptyCells gs g ≠ []) :
    ∃ i, (i, maxCol gs g) ∈ nonEmptyCells gs g := by
  rcases foldl_max_eq_or_mem ((nonEmptyCells gs g).map Prod.snd) 0 with heq | hmem
  · obtain ⟨⟨a, b⟩, hab⟩ := List.exists_mem_of_ne_nil _ h
    have h3 : maxCol gs g = 0 := heq
    have h1 : b ≤ maxCol gs g := le_maxCol hab
    have h2 : b = 0 := by omega
    refine ⟨a, ?_⟩
    rw [h3, ← h2]
    exact hab
  · obtain ⟨⟨a, b⟩, hab, hsnd⟩ := List.mem_map.mp hmem
    refine ⟨a, ?_⟩
    have : b = maxCol gs g := hsnd
    rwa [← this]

lemma maxRow_lt {gs : ℕ} {g : List ItemStack} (h : nonEmptyCells gs g ≠ []) :
    maxRow gs g < gs := by
  obtain ⟨j, hj⟩ := exists_maxRow h
  exact (mem_nonEmptyCells.mp hj).1

lemma maxCol_lt {gs : ℕ} {g : List ItemStack} (h : nonEmptyCells gs g ≠ []) :
    maxCol gs g < gs := by
  obtain ⟨i, hi⟩ := exists_maxCol h
  exact (mem_nonEmptyCells.mp hi).2.1

lemma minRow_le_maxRow {gs : ℕ} {g : List ItemStack} (h : nonEmptyCells gs g ≠ []) :
    minRow gs g ≤ maxRow gs g := by
  obtain ⟨j, hj⟩ := exists_minRow h
  exact le_maxRow hj

lemma minCol_le_maxCol {gs : ℕ} {g : List ItemStack} (h : nonEmptyCells gs g ≠ []) :
    minCol gs g ≤ maxCol gs g := by
  obtain ⟨i, hi⟩ := exists_minCol h
  exact le_maxCol hi

lemma nonEmptyCells_eq_nil_iff {gs : ℕ} {g : List ItemStack} :
    nonEmptyCells gs g = [] ↔
      ∀ i j, i < gs → j < gs → (cellAt g gs i j).is_empty = true := by
  rw [List.eq_nil_iff_forall_not_mem]
  constructor
  · intro h i j hi hj
    by_contra hc
    exact h (i, j) (mem_nonEmptyCells.mpr ⟨hi, hj, Bool.not_eq_true _ ▸ hc⟩)
  · rintro h ⟨i, j⟩ hm
    obtain ⟨hi, hj, hc⟩ := mem_nonEmptyCells.mp hm
    rw [h i j hi hj] at hc
    cases hc

end FMC

namespace FMC

/-- The item id stored at cell `(i, j)`. -/
def cellItem (g : List ItemStack) (gs i j : ℕ) : Option ℕ := (cellAt g gs i j).item

lemma gridRow_get? (g : List ItemStack) (gs i j : ℕ) :
    (gridRow g gs i).get? j = if j < gs then g.get? (i * gs + j) else none := by
  unfold gridRow
  rcases lt_or_ge j gs with h | h
  · rw [if_pos h]
    rw [List.get?_eq_getElem?, List.getElem?_take, if_pos h, List.getElem?_drop,
      ← List.get?_eq_getElem?]
  · rw [if_neg (not_lt.mpr h)]
    rw [List.get?_eq_getElem?, List.getElem?_take, if_neg (not_lt.mpr h)]

lemma gridRow_length {g : List ItemStack} {gs : ℕ} (hsq : g.length = gs ^ 2)
    {i : ℕ} (hi : i < gs) : (gridRow g gs i).length = gs := by
  unfold gridRow
  rw [List.length_take, List.length_drop, hsq]
  have h1 : i * gs + gs ≤ gs ^ 2 := by
    have := Nat.mul_le_mul_right gs (Nat.succ_le_of_lt hi)
    calc i * gs + gs = (i + 1) * gs := by ring
      _ ≤ gs * gs := this
      _ = gs ^ 2 := (sq gs).symm
  omega

lemma get?_eq_some_cellAt {g : List ItemStack} {gs : ℕ} (hsq : g.length = gs ^ 2)
    {i j : ℕ} (hi : i < gs) (hj : j < gs) :
    g.get? (i * gs + j) = some (cellAt g gs i j) := by
  have hlt : i * gs + j < g.length := by
    rw [hsq]
    have h1 : (i + 1) * gs ≤ gs * gs := Nat.mul_le_mul_right gs (Nat.succ_le_of_lt hi)
    have : i * gs + j < (i + 1) * gs := by
      have : (i + 1) * gs = i * gs + gs := by ring
      omega
    calc i * gs + j < (i + 1) * gs := this
      _ ≤ gs * gs := h1
      _ = gs ^ 2 := (sq gs).symm
  obtain ⟨v, hv⟩ : ∃ v, g.get? (i * gs + j) = some v := by
    cases hg : g.get? (i * gs + j) with
    | none => rw [List.get?_eq_none] at hg; omega
    | some v => exact ⟨v, rfl⟩
  rw [hv]
  unfold cellAt
  rw [hv]
  rfl

/-- The member of `g` underlying an in-range cell. -/
lemma cellAt_mem {g : List ItemStack} {gs : ℕ} (hsq : g.length = gs ^ 2)
    {i j : ℕ} (hi : i < gs) (hj : j < gs) : cellAt g gs i j ∈ g :=
  List.get?_mem (get?_eq_some_cellAt hsq hi hj)

/-- `Pattern.fromGrid` on a square grid, characterized row-by-row. -/
lemma fromGrid_get? {g : List ItemStack} {gs : ℕ} (hsq : g.length = gs ^ 2) :
    ∃ P, Pattern.fromGrid g = some P ∧
      ∀ r : ℕ, P.get? r =
        if minRow gs g + r < min (maxRow gs g + 1) gs then
          some ((((gridRow g gs (minRow gs g + r)).take (maxCol gs g + 1)).drop
            (minCol gs g)).map ItemStack.item)
        else none := by
  have hgs : Nat.sqrt g.length = gs := by rw [hsq, Nat.sqrt_eq']
  have hfg : Pattern.fromGrid g = some
      (((((List.range gs).map (gridRow g gs)).take (maxRow gs g + 1)).drop (minRow gs g)).map
        fun row => ((row.take (maxCol gs g + 1)).drop (minCol gs g)).map ItemStack.item) := by
    simp only [Pattern.fromGrid, hgs, patternBounds_eq]
    rw [if_pos hsq.symm]
  refine ⟨_, hfg, fun r => ?_⟩
  rw [List.get?_eq_getElem?, List.getElem?_map, List.getElem?_drop, ← List.get?_eq_getElem?]
  rw [List.get?_eq_getElem?, List.getElem?_take]
  rcases lt_or_ge (minRow gs g + r) (maxRow gs g + 1) with h1 | h1
  · rw [if_pos h1, List.getElem?_map, ← List.get?_eq_getElem?]
    rcases lt_or_ge (minRow gs g + r) gs with h2 | h2
    · rw [List.get?_range h2]
      rw [if_pos (by omega : minRow gs g + r < min (maxRow gs g + 1) gs)]
      rfl
    · rw [List.get?_eq_none.mpr (by simpa using h2)]
      rw [if_neg (by omega : ¬ (minRow gs g + r < min (maxRow gs g + 1) gs))]
      rfl
  · rw [if_neg (not_lt.mpr h1)]
    rw [if_neg (by omega : ¬ (minRow gs g + r < min (maxRow gs g + 1) gs))]
    rfl

lemma flatten_get?_uniform {α : Type} (C : ℕ) :
    ∀ (P : List (List α)), (∀ row ∈ P, row.length = C) → ∀ (i j : ℕ), j < C →
      P.flatten.get? (i * C + j) = (P.get? i).bind fun row => row.get? j := by
  intro P
  induction P with
  | nil => intro _ i j _; simp
  | cons row rest ih =>
    intro hC i j hj
    have hlen : row.length = C := hC row (List.mem_cons_self row rest)
    cases i with
    | zero =>
      rw [List.flatten_cons, zero_mul, zero_add, List.get?_append (by omega)]
      simp
    | succ n =>
      rw [List.flatten_cons]
      have harith : (n + 1) * C + j = row.length + (n * C + j) := by rw [hlen]; ring
      rw [harith, List.get?_append_right (by omega)]
      have : row.length + (n * C + j) - row.length = n * C + j := by omega
      rw [this, ih (fun r hr => hC r (List.mem_cons_of_mem row hr)) n j hj]
      simp

lemma flatten_length_uniform {α : Type} (C : ℕ) :
    ∀ (P : List (List α)), (∀ row ∈ P, row.length = C) →
      P.flatten.length = P.length * C := by
  intro P
  induction P with
  | nil => intro _; simp
  | cons row rest ih =>
    intro hC
    rw [List.flatten_cons, List.length_append, ih (fun r hr => hC r (List.mem_cons_of_mem row hr)),
      hC row (List.mem_cons_self row rest), List.length_cons]
    ring

end FMC

namespace FMC

lemma layout_nil : Pattern.layout ([] : Pattern) = [] := rfl

/-- Re-normalizing the layout of a pattern obtained from a square grid
gives the pattern back, provided the pattern itself is square. -/
lemma fromGrid_layout_of_square {g : List ItemStack} {gs : ℕ} (P : Pattern)
    (hsq : g.length = gs ^ 2) (hcan : ∀ s ∈ g, s.Canonical)
    (hP : Pattern.fromGrid g = some P)
    (hsquare : ∀ row ∈ P, row.length = P.length) :
    Pattern.fromGrid P.layout = some P := by
  classical
  obtain ⟨P', hP', hspec⟩ := fromGrid_get? hsq
  rw [hP] at hP'
  obtain rfl : P = P' := Option.some.inj hP'
  by_cases hne : nonEmptyCells gs g = []
  · -- the all-empty grid: the pattern is empty
    have hminR : minRow gs g = gs := by unfold minRow; rw [hne]; rfl
    have hP0 : P.get? 0 = none := by
      rw [hspec 0, if_neg]
      have := min_le_right (maxRow gs g + 1) gs
      omega
    have hPnil : P = [] := by
      have h := List.get?_eq_none.mp hP0
      exact List.eq_nil_of_length_eq_zero (by omega)
    rw [hPnil, layout_nil]
    decide
  · set mR := minRow gs g with hmRdef
    set xR := maxRow gs g with hxRdef
    set mC := minCol gs g with hmCdef
    set xC := maxCol gs g with hxCdef
    have hxRlt : xR < gs := maxRow_lt hne
    have hxClt : xC < gs := maxCol_lt hne
    have hmRxR : mR ≤ xR := minRow_le_maxRow hne
    have hmCxC : mC ≤ xC := minCol_le_maxCol hne
    set R := xR + 1 - mR with hRdef
    set C := xC + 1 - mC with hCdef
    have hRpos : 0 < R := by omega
    have hCpos : 0 < C := by omega
    -- length of P
    have hlenP : P.length = R := by
      have h1 : P.get? R = none := by
        rw [hspec R, if_neg]
        have := min_le_left (xR + 1) gs
        omega
      have h2 : P.get? (R - 1) ≠ none := by
        rw [hspec (R - 1), if_pos]
        · simp
        · have := min_eq_left (by omega : xR + 1 ≤ gs)
          omega
      have h1' := List.get?_eq_none.mp h1
      have h2' : ¬ (P.length ≤ R - 1) := fun h => h2 (List.get?_eq_none.mpr h)
      omega
    have hrow : ∀ r, r < R → P.get? r = some
        ((((gridRow g gs (mR + r)).take (xC + 1)).drop mC).map ItemStack.item) := by
      intro r hr
      rw [hspec r, if_pos]
      have := min_eq_left (by omega : xR + 1 ≤ gs)
      omega
    have hrowlenC : ∀ r, r < R → ∀ row, P.get? r = some row → row.length = C := by
      intro r hr row hrw
      rw [hrow r hr] at hrw
      obtain rfl := (Option.some.inj hrw).symm
      rw [List.length_map, List.length_drop, List.length_take,
        gridRow_length hsq (by omega : mR + r < gs)]
      omega
    have hCR : C = R := by
      have hPne : P ≠ [] := by
        intro h
        rw [h] at hlenP
        simp at hlenP
        omega
      obtain ⟨row, hrowmem⟩ := List.exists_mem_of_ne_nil P hPne
      obtain ⟨r, hr⟩ := List.get?_of_mem hrowmem
      have hrR : r < R := by
        have : ¬ (P.length ≤ r) := fun h => by
          rw [List.get?_eq_none.mpr h] at hr; cases hr
        omega
      have h1 := hrowlenC r hrR row hr
      have h2 := hsquare row hrowmem
      omega
    -- every row of P has length R
    have hrowlen' : ∀ row ∈ P, row.length = R := fun row h => (hsquare row h).trans hlenP
    set L := P.layout with hLdef
    have hLlen : L.length = R ^ 2 := by
      rw [hLdef]
      unfold Pattern.layout
      rw [List.length_map, flatten_length_uniform R P hrowlen', hlenP]
      ring
    -- cells of the layout grid
    have hLget : ∀ i j, j < R →
        L.get? (i * R + j) = (((P.get? i).bind fun row => row.get? j).map fun c =>
          match c with
          | some id => (⟨some id, 1, 1⟩ : ItemStack)
          | none => default) := by
      intro i j hj
      rw [hLdef]
      unfold Pattern.layout
      rw [List.get?_eq_getElem?, List.getElem?_map, ← List.get?_eq_getElem?,
        flatten_get?_uniform R P hrowlen' i j hj]
    have hbind : ∀ i j, i < R → j < R →
        ∃ v, ((P.get? i).bind fun row => row.get? j) = some v := by
      intro i j hi hj
      obtain ⟨row, hrowi⟩ : ∃ row, P.get? i = some row := by
        cases h : P.get? i with
        | none => rw [List.get?_eq_none] at h; omega
        | some row => exact ⟨row, rfl⟩
      have hlen : row.length = R := hrowlen' row (List.get?_mem hrowi)
      obtain ⟨v, hv⟩ : ∃ v, row.get? j = some v := by
        cases h : row.get? j with
        | none => rw [List.get?_eq_none] at h; omega
        | some v => exact ⟨v, rfl⟩
      exact ⟨v, by rw [hrowi]; simpa using hv⟩
    have hLcell : ∀ i j (v : Option ℕ), i < R → j < R →
        ((P.get? i).bind fun row => row.get? j) = some v →
        cellAt L R i j = (match v with
          | some id => (⟨some id, 1, 1⟩ : ItemStack)
          | none => default) := by
      intro i j v hi hj hv
      unfold cellAt
      rw [hLget i j hj, hv]
      rfl
    -- membership in the layout's non-empty cells
    have hmemL : ∀ i j, (i, j) ∈ nonEmptyCells R L ↔
        i < R ∧ j < R ∧ ∃ id, ((P.get? i).bind fun row => row.get? j) = some (some id) := by
      intro i j
      rw [mem_nonEmptyCells]
      constructor
      · rintro ⟨hi, hj, hc⟩
        obtain ⟨v, hv⟩ := hbind i j hi hj
        rw [hLcell i j v hi hj hv] at hc
        cases v with
        | none =>
          rw [show (default : ItemStack) = ⟨none, 0, 0⟩ from rfl] at hc
          simp [ItemStack.is_empty] at hc
        | some id => exact ⟨hi, hj, id, hv⟩
      · rintro ⟨hi, hj, id, hv⟩
        refine ⟨hi, hj, ?_⟩
        rw [hLcell i j (some id) hi hj hv]
        rfl
    -- the pattern's cells in terms of the grid
    have hcell : ∀ r c, r < R → c < C →
        ((P.get? r).bind fun row => row.get? c) = some (cellItem g gs (mR + r) (mC + c)) := by
      intro r c hr hc
      rw [hrow r hr]
      have hgl : mC + c < gs := by omega
      have hrowg : (gridRow g gs (mR + r)).get? (mC + c)
          = some (cellAt g gs (mR + r) (mC + c)) := by
        rw [gridRow_get?, if_pos hgl, get?_eq_some_cellAt hsq (by omega) hgl]
      show ((((gridRow g gs (mR + r)).take (xC + 1)).drop mC).map ItemStack.item).get? c
        = some (cellItem g gs (mR + r) (mC + c))
      rw [List.get?_eq_getElem?, List.getElem?_map, List.getElem?_drop, ← List.get?_eq_getElem?,
        List.get?_eq_getElem?, List.getElem?_take, if_pos (by omega : mC + c < xC + 1),
        ← List.get?_eq_getElem?, hrowg]
      rfl
    -- a non-empty grid cell yields a `some` pattern entry
    have hsomeOf : ∀ a b, (a, b) ∈ nonEmptyCells gs g →
        ∃ id, ((P.get? (a - mR)).bind fun row => row.get? (b - mC)) = some (some id) := by
      intro a b hab
      obtain ⟨ha, hb, hcemp⟩ := mem_nonEmptyCells.mp hab
      have hamR : mR ≤ a := minRow_le hab
      have haxR : a ≤ xR := le_maxRow hab
      have hbmC : mC ≤ b := minCol_le hab
      have hbxC : b ≤ xC := le_maxCol hab
      have hcan' := hcan _ (cellAt_mem hsq ha hb)
      have hsz : (cellAt g gs a b).size ≠ 0 := by
        intro h
        rw [ItemStack.is_empty, h] at hcemp
        cases hcemp
      obtain ⟨id, hid⟩ : ∃ id, (cellAt g gs a b).itemId = some id := by
        cases h : (cellAt g gs a b).itemId with
        | none => exact absurd (hcan'.mp h) hsz
        | some id => exact ⟨id, rfl⟩
      refine ⟨id, ?_⟩
      have h1 := hcell (a - mR) (b - mC) (by omega) (by omega)
      rw [(by omega : mR + (a - mR) = a), (by omega : mC + (b - mC) = b)] at h1
      rw [h1]
      unfold cellItem ItemStack.item
      rw [hid]
    -- bounds of the layout grid
    obtain ⟨jt, hjt⟩ := exists_minRow hne
    obtain ⟨jb, hjb⟩ := exists_maxRow hne
    obtain ⟨il, hil⟩ := exists_minCol hne
    obtain ⟨ir, hir⟩ := exists_maxCol hne
    have htopmem : (0, jt - mC) ∈ nonEmptyCells R L := by
      rw [hmemL]
      have h1 := hsomeOf mR jt hjt
      rw [Nat.sub_self] at h1
      have hjtb := minCol_le hjt
      have hjtc := le_maxCol hjt
      exact ⟨hRpos, by omega, h1⟩
    have hbotmem : (R - 1, jb - mC) ∈ nonEmptyCells R L := by
      rw [hmemL]
      have h1 := hsomeOf xR jb hjb
      rw [(by omega : xR - mR = R - 1)] at h1
      have hjbb := minCol_le hjb
      have hjbc := le_maxCol hjb
      exact ⟨by omega, by omega, h1⟩
    have hleftmem : (il - mR, 0) ∈ nonEmptyCells R L := by
      rw [hmemL]
      have h1 := hsomeOf il mC hil
      rw [Nat.sub_self] at h1
      have hilb := minRow_le hil
      have hilc := le_maxRow hil
      exact ⟨by omega, hRpos, h1⟩
    have hrightmem : (ir - mR, C - 1) ∈ nonEmptyCells R L := by
      rw [hmemL]
      have h1 := hsomeOf ir xC hir
      rw [(by omega : xC - mC = C - 1)] at h1
      have hirb := minRow_le hir
      have hirc := le_maxRow hir
      exact ⟨by omega, by omega, h1⟩
    have hLne : nonEmptyCells R L ≠ [] := List.ne_nil_of_mem htopmem
    have hminRL : minRow R L = 0 := Nat.le_zero.mp (minRow_le htopmem)
    have hmaxRL : maxRow R L = R - 1 := by
      have h1 := le_maxRow hbotmem
      have h2 := maxRow_lt hLne
      omega
    have hminCL : minCol R L = 0 := Nat.le_zero.mp (minCol_le hleftmem)
    have hmaxCL : maxCol R L = R - 1 := by
      have h1 := le_maxCol hrightmem
      have h2 := maxCol_lt hLne
      omega
    -- assemble
    obtain ⟨P2, hP2, hspec2⟩ := fromGrid_get? hLlen
    rw [hP2]
    refine congrArg some (List.ext_get? fun r => ?_)
    rw [hspec2 r, hminRL, hmaxRL, hminCL, hmaxCL]
    rw [(by omega : R - 1 + 1 = R), Nat.zero_add, min_self]
    rcases lt_or_ge r R with hr | hr
    · rw [if_pos hr]
      obtain ⟨rowP, hrowP⟩ : ∃ rowP, P.get? r = some rowP := by
        cases h : P.get? r with
        | none => rw [List.get?_eq_none] at h; omega
        | some rowP => exact ⟨rowP, rfl⟩
      rw [hrowP, List.drop_zero, List.take_of_length_le (le_of_eq (gridRow_length hLlen hr))]
      refine congrArg some (List.ext_get? fun c => ?_)
      have hrowPlen : rowP.length = R := hrowlen' rowP (List.get?_mem hrowP)
      rw [List.get?_eq_getElem?, List.getElem?_map, ← List.get?_eq_getElem?, gridRow_get?]
      rcases lt_or_ge c R with hc | hc
      · obtain ⟨v, hv⟩ := hbind r c hr hc
        have hvrow : rowP.get? c = some v := by
          rw [hrowP] at hv
          simpa using hv
        have hLr : L.get? (r * R + c) = some ((fun cc =>
            match cc with
            | some id => (⟨some id, 1, 1⟩ : ItemStack)
            | none => default) v) := by
          rw [hLget r c hc, hv]
          rfl
        rw [if_pos hc, hLr, hvrow]
        cases v with
        | none => rfl
        | some id => rfl
      · rw [if_neg (not_lt.mpr hc)]
        exact (List.get?_eq_none.mpr (by omega)).symm
    · rw [if_neg (not_lt.mpr hr)]
      exact (List.get?_eq_none.mpr (by omega)).symm

end FMC

namespace FMC

/-- The grid, extended to all of `ℤ × ℤ` with empty stacks outside
(a grid cell "shifted out" is empty). -/
def cellZ (g : List ItemStack) (gs : ℕ) (i j : ℤ) : ItemStack :=
  if 0 ≤ i ∧ i < (gs : ℤ) ∧ 0 ≤ j ∧ j < (gs : ℤ) then cellAt g gs i.toNat j.toNat
  else default

/-- Two grids are equal up to a shift when some integer translation maps the
cells of one exactly onto the cells of the other (cells shifted out of range
must be empty). -/
def ShiftEq (gs : ℕ) (g1 g2 : List ItemStack) : Prop :=
  ∃ dr dc : ℤ, ∀ i j : ℤ, cellZ g2 gs i j = cellZ g1 gs (i + dr) (j + dc)

/-- Shift equality of the grids' item-id layouts: stack sizes are ignored,
only which item occupies each cell matters. -/
def IdShiftEq (gs : ℕ) (g1 g2 : List ItemStack) : Prop :=
  ∃ dr dc : ℤ, ∀ i j : ℤ, (cellZ g2 gs i j).item = (cellZ g1 gs (i + dr) (j + dc)).item

lemma cellZ_natCast {g : List ItemStack} {gs : ℕ} (a b : ℕ) (ha : a < gs) (hb : b < gs) :
    cellZ g gs (a : ℤ) (b : ℤ) = cellAt g gs a b := by
  unfold cellZ
  rw [if_pos (by omega)]
  simp

lemma cellZ_out {g : List ItemStack} {gs : ℕ} {i j : ℤ}
    (h : ¬ (0 ≤ i ∧ i < (gs : ℤ) ∧ 0 ≤ j ∧ j < (gs : ℤ))) : cellZ g gs i j = default :=
  if_neg h

lemma default_is_empty : (default : ItemStack).is_empty = true := rfl

lemma mem_cells_iff_cellZ {g : List ItemStack} {gs : ℕ} {a b : ℕ} :
    (a, b) ∈ nonEmptyCells gs g ↔ (cellZ g gs (a : ℤ) (b : ℤ)).is_empty = false := by
  rw [mem_nonEmptyCells]
  constructor
  · rintro ⟨ha, hb, hc⟩
    rw [cellZ_natCast a b ha hb]
    exact hc
  · intro h
    by_cases hr : a < gs ∧ b < gs
    · rw [cellZ_natCast a b hr.1 hr.2] at h
      exact ⟨hr.1, hr.2, h⟩
    · rw [cellZ_out (by omega)] at h
      rw [default_is_empty] at h
      cases h

lemma cellZ_nonempty_spec {g : List ItemStack} {gs : ℕ} {i j : ℤ}
    (h : (cellZ g gs i j).is_empty = false) :
    0 ≤ i ∧ i < (gs : ℤ) ∧ 0 ≤ j ∧ j < (gs : ℤ) ∧
      (i.toNat, j.toNat) ∈ nonEmptyCells gs g := by
  by_cases hr : 0 ≤ i ∧ i < (gs : ℤ) ∧ 0 ≤ j ∧ j < (gs : ℤ)
  · obtain ⟨h1, h2, h3, h4⟩ := hr
    have : cellZ g gs i j = cellAt g gs i.toNat j.toNat := if_pos ⟨h1, h2, h3, h4⟩
    rw [this] at h
    exact ⟨h1, h2, h3, h4, mem_nonEmptyCells.mpr ⟨by omega, by omega, h⟩⟩
  · rw [cellZ_out hr, default_is_empty] at h
    cases h

/-- Pattern row contents, characterized entrywise. -/
lemma crop_row_get? {g : List ItemStack} {gs : ℕ} (hsq : g.length = gs ^ 2)
    {i : ℕ} (hi : i < gs) (c : ℕ) :
    ((((gridRow g gs i).take (maxCol gs g + 1)).drop (minCol gs g)).map ItemStack.item).get? c
      = if minCol gs g + c < min (maxCol gs g + 1) gs then
          some (cellItem g gs i (minCol gs g + c))
        else none := by
  rw [List.get?_eq_getElem?, List.getElem?_map, List.getElem?_drop, ← List.get?_eq_getElem?,
    List.get?_eq_getElem?, List.getElem?_take]
  rcases lt_or_ge (minCol gs g + c) (maxCol gs g + 1) with h1 | h1
  · rw [if_pos h1, ← List.get?_eq_getElem?, gridRow_get?]
    rcases lt_or_ge (minCol gs g + c) gs with h2 | h2
    · rw [if_pos h2, get?_eq_some_cellAt hsq hi h2, if_pos (by omega)]
      rfl
    · rw [if_neg (not_lt.mpr h2), if_neg (by omega)]
      rfl
  · rw [if_neg (not_lt.mpr h1), if_neg (by omega)]
    rfl

end FMC

namespace FMC

lemma fromGrid_of_no_cells {g : List ItemStack} {gs : ℕ} (hsq : g.length = gs ^ 2)
    (hne : nonEmptyCells gs g = []) : Pattern.fromGrid g = some [] := by
  obtain ⟨P, hP, hspec⟩ := fromGrid_get? hsq
  have hminR : minRow gs g = gs := by unfold minRow; rw [hne]; rfl
  have hP0 : P.get? 0 = none := by
    rw [hspec 0, if_neg]
    have := min_le_right (maxRow gs g + 1) gs
    omega
  have hPnil : P = [] := by
    have := List.get?_eq_none.mp hP0
    exact List.eq_nil_of_length_eq_zero (by omega)
  rw [hP, hPnil]

/-- Grids that are equal up to a shift normalize to the same pattern. -/
lemma fromGrid_eq_of_shift {g1 g2 : List ItemStack} {gs : ℕ}
    (h1 : g1.length = gs ^ 2) (h2 : g2.length = gs ^ 2)
    (hsh : ShiftEq gs g1 g2) :
    Pattern.fromGrid g1 = Pattern.fromGrid g2 := by
  obtain ⟨dr, dc, hs⟩ := hsh
  have t12 : ∀ a b : ℕ, (a, b) ∈ nonEmptyCells gs g1 →
      0 ≤ (a : ℤ) - dr ∧ (a : ℤ) - dr < gs ∧ 0 ≤ (b : ℤ) - dc ∧ (b : ℤ) - dc < gs ∧
      (((a : ℤ) - dr).toNat, ((b : ℤ) - dc).toNat) ∈ nonEmptyCells gs g2 := by
    intro a b hab
    have hne1 : (cellZ g1 gs (a : ℤ) (b : ℤ)).is_empty = false := mem_cells_iff_cellZ.mp hab
    have heq : cellZ g2 gs ((a : ℤ) - dr) ((b : ℤ) - dc) = cellZ g1 gs (a : ℤ) (b : ℤ) := by
      rw [hs ((a : ℤ) - dr) ((b : ℤ) - dc), sub_add_cancel, sub_add_cancel]
    exact cellZ_nonempty_spec (heq ▸ hne1)
  have t21 : ∀ a b : ℕ, (a, b) ∈ nonEmptyCells gs g2 →
      0 ≤ (a : ℤ) + dr ∧ (a : ℤ) + dr < gs ∧ 0 ≤ (b : ℤ) + dc ∧ (b : ℤ) + dc < gs ∧
      (((a : ℤ) + dr).toNat, ((b : ℤ) + dc).toNat) ∈ nonEmptyCells gs g1 := by
    intro a b hab
    have hne2 := mem_cells_iff_cellZ.mp hab
    have heq := hs (a : ℤ) (b : ℤ)
    exact cellZ_nonempty_spec (heq ▸ hne2)
  by_cases hne : nonEmptyCells gs g1 = []
  · have hne2 : nonEmptyCells gs g2 = [] := by
      rw [List.eq_nil_iff_forall_not_mem]
      rintro ⟨a, b⟩ hab
      have hmem := (t21 a b hab).2.2.2.2
      rw [hne] at hmem
      exact List.not_mem_nil _ hmem
    rw [fromGrid_of_no_cells h1 hne, fromGrid_of_no_cells h2 hne2]
  · have hne2 : nonEmptyCells gs g2 ≠ [] := by
      obtain ⟨⟨a, b⟩, hab⟩ := List.exists_mem_of_ne_nil _ hne
      exact List.ne_nil_of_mem (t12 a b hab).2.2.2.2
    have hminR : (minRow gs g2 : ℤ) = (minRow gs g1 : ℤ) - dr := by
      obtain ⟨j, hj⟩ := exists_minRow hne
      obtain ⟨j2, hj2⟩ := exists_minRow hne2
      have a1 := t12 _ _ hj
      have a2 := t21 _ _ hj2
      have b1 : minRow gs g2 ≤ ((minRow gs g1 : ℤ) - dr).toNat := minRow_le a1.2.2.2.2
      have b2 : minRow gs g1 ≤ ((minRow gs g2 : ℤ) + dr).toNat := minRow_le a2.2.2.2.2
      omega
    have hmaxR : (maxRow gs g2 : ℤ) = (maxRow gs g1 : ℤ) - dr := by
      obtain ⟨j, hj⟩ := exists_maxRow hne
      obtain ⟨j2, hj2⟩ := exists_maxRow hne2
      have a1 := t12 _ _ hj
      have a2 := t21 _ _ hj2
      have b1 : ((maxRow gs g1 : ℤ) - dr).toNat ≤ maxRow gs g2 := le_maxRow a1.2.2.2.2
      have b2 : ((maxRow gs g2 : ℤ) + dr).toNat ≤ maxRow gs g1 := le_maxRow a2.2.2.2.2
      omega
    have hminC : (minCol gs g2 : ℤ) = (minCol gs g1 : ℤ) - dc := by
      obtain ⟨i, hi⟩ := exists_minCol hne
      obtain ⟨i2, hi2⟩ := exists_minCol hne2
      have a1 := t12 _ _ hi
      have a2 := t21 _ _ hi2
      have b1 : minCol gs g2 ≤ ((minCol gs g1 : ℤ) - dc).toNat := minCol_le a1.2.2.2.2
      have b2 : minCol gs g1 ≤ ((minCol gs g2 : ℤ) + dc).toNat := minCol_le a2.2.2.2.2
      omega
    have hmaxC : (maxCol gs g2 : ℤ) = (maxCol gs g1 : ℤ) - dc := by
      obtain ⟨i, hi⟩ := exists_maxCol hne
      obtain ⟨i2, hi2⟩ := exists_maxCol hne2
      have a1 := t12 _ _ hi
      have a2 := t21 _ _ hi2
      have b1 : ((maxCol gs g1 : ℤ) - dc).toNat ≤ maxCol gs g2 := le_maxCol a1.2.2.2.2
      have b2 : ((maxCol gs g2 : ℤ) + dc).toNat ≤ maxCol gs g1 := le_maxCol a2.2.2.2.2
      omega
    have hx1 : maxRow gs g1 < gs := maxRow_lt hne
    have hx2 : maxRow gs g2 < gs := maxRow_lt hne2
    have hc1 : maxCol gs g1 < gs := maxCol_lt hne
    have hc2 : maxCol gs g2 < gs := maxCol_lt hne2
    have hm1 : minRow gs g1 ≤ maxRow gs g1 := minRow_le_maxRow hne
    have hm2 : minRow gs g2 ≤ maxRow gs g2 := minRow_le_maxRow hne2
    have hn1 : minCol gs g1 ≤ maxCol gs g1 := minCol_le_maxCol hne
    have hn2 : minCol gs g2 ≤ maxCol gs g2 := minCol_le_maxCol hne2
    obtain ⟨P1, hP1, hspec1⟩ := fromGrid_get? h1
    obtain ⟨P2, hP2, hspec2⟩ := fromGrid_get? h2
    rw [hP1, hP2]
    refine congrArg some (List.ext_get? fun r => ?_)
    rw [hspec1 r, hspec2 r, min_eq_left (by omega : maxRow gs g1 + 1 ≤ gs),
      min_eq_left (by omega : maxRow gs g2 + 1 ≤ gs)]
    by_cases hcnd : minRow gs g1 + r < maxRow gs g1 + 1
    · rw [if_pos hcnd, if_pos (by omega : minRow gs g2 + r < maxRow gs g2 + 1)]
      refine congrArg some (List.ext_get? fun c => ?_)
      rw [crop_row_get? h1 (by omega : minRow gs g1 + r < gs) c,
        crop_row_get? h2 (by omega : minRow gs g2 + r < gs) c,
        min_eq_left (by omega : maxCol gs g1 + 1 ≤ gs),
        min_eq_left (by omega : maxCol gs g2 + 1 ≤ gs)]
      by_cases hcc : minCol gs g1 + c < maxCol gs g1 + 1
      · rw [if_pos hcc, if_pos (by omega : minCol gs g2 + c < maxCol gs g2 + 1)]
        have e1 : cellAt g2 gs (minRow gs g2 + r) (minCol gs g2 + c)
            = cellAt g1 gs (minRow gs g1 + r) (minCol gs g1 + c) := by
          have h' := hs ((minRow gs g2 + r : ℕ) : ℤ) ((minCol gs g2 + c : ℕ) : ℤ)
          rw [cellZ_natCast _ _ (by omega) (by omega)] at h'
          have harg1 : ((minRow gs g2 + r : ℕ) : ℤ) + dr = ((minRow gs g1 + r : ℕ) : ℤ) := by
            push_cast
            omega
          have harg2 : ((minCol gs g2 + c : ℕ) : ℤ) + dc = ((minCol gs g1 + c : ℕ) : ℤ) := by
            push_cast
            omega
          rw [harg1, harg2, cellZ_natCast _ _ (by omega) (by omega)] at h'
          exact h'
        unfold cellItem
        rw [e1]
      · rw [if_neg hcc, if_neg (by omega : ¬ (minCol gs g2 + c < maxCol gs g2 + 1))]
    · rw [if_neg hcnd, if_neg (by omega : ¬ (minRow gs g2 + r < maxRow gs g2 + 1))]

end FMC

namespace FMC

lemma length_from_get? {α : Type} (l : List α) (R : ℕ)
    (h : ∀ r, (l.get? r).isSome = true ↔ r < R) : l.length = R := by
  have h1 : l.get? R = none := by
    cases hg : l.get? R with
    | none => rfl
    | some v =>
      have : (l.get? R).isSome = true := by rw [hg]; rfl
      exact absurd ((h R).mp this) (lt_irrefl R)
  have h2 : l.length ≤ R := by
    have := List.get?_eq_none.mp h1
    omega
  cases R with
  | zero => omega
  | succ n =>
    have h3 : (l.get? n).isSome = true := (h n).mpr (by omega)
    have h4 : ¬ (l.length ≤ n) := by
      intro hle
      rw [List.get?_eq_none.mpr hle] at h3
      cases h3
    omega

/-- The entries of a normalized pattern are the item ids of the bounding
box of the source grid. -/
lemma pattern_entry {g : List ItemStack} {gs : ℕ} (hsq : g.length = gs ^ 2)
    (hne : nonEmptyCells gs g ≠ []) {P : Pattern} (hP : Pattern.fromGrid g = some P) :
    ∀ r c, r < maxRow gs g + 1 - minRow gs g → c < maxCol gs g + 1 - minCol gs g →
      ((P.get? r).bind fun row => row.get? c)
        = some (cellItem g gs (minRow gs g + r) (minCol gs g + c)) := by
  intro r c hr hc
  obtain ⟨P', hP', hspec⟩ := fromGrid_get? hsq
  rw [hP] at hP'
  obtain rfl : P = P' := Option.some.inj hP'
  have hx := maxRow_lt hne
  have hm := minRow_le_maxRow hne
  have hxc := maxCol_lt hne
  have hmc := minCol_le_maxCol hne
  rw [hspec r, if_pos (by rw [min_eq_left (by omega)]; omega)]
  show ((((gridRow g gs (minRow gs g + r)).take (maxCol gs g + 1)).drop
      (minCol gs g)).map ItemStack.item).get? c
    = some (cellItem g gs (minRow gs g + r) (minCol gs g + c))
  rw [crop_row_get? hsq (by omega : minRow gs g + r < gs) c,
    if_pos (by rw [min_eq_left (by omega)]; omega)]

/-- The length of a normalized pattern with non-empty cells. -/
lemma pattern_length {g : List ItemStack} {gs : ℕ} (hsq : g.length = gs ^ 2)
    (hne : nonEmptyCells gs g ≠ []) {P : Pattern} (hP : Pattern.fromGrid g = some P) :
    P.length = maxRow gs g + 1 - minRow gs g := by
  obtain ⟨P', hP', hspec⟩ := fromGrid_get? hsq
  rw [hP] at hP'
  obtain rfl : P = P' := Option.some.inj hP'
  have hx := maxRow_lt hne
  have hm := minRow_le_maxRow hne
  refine length_from_get? P (maxRow gs g + 1 - minRow gs g) fun r => ?_
  rw [hspec r, min_eq_left (by omega)]
  by_cases hcond : minRow gs g + r < maxRow gs g + 1
  · rw [if_pos hcond]
    simp only [Option.isSome_some, true_iff]
    omega
  · rw [if_neg hcond]
    simp only [Option.isSome_none, Bool.false_eq_true, false_iff]
    omega

/-- The width of a normalized pattern with non-empty cells (any row). -/
lemma pattern_row_length {g : List ItemStack} {gs : ℕ} (hsq : g.length = gs ^ 2)
    (hne : nonEmptyCells gs g ≠ []) {P : Pattern} (hP : Pattern.fromGrid g = some P)
    {r : ℕ} {row : List (Option ℕ)} (hrow : P.get? r = some row) :
    row.length = maxCol gs g + 1 - minCol gs g := by
  obtain ⟨P', hP', hspec⟩ := fromGrid_get? hsq
  rw [hP] at hP'
  obtain rfl : P = P' := Option.some.inj hP'
  have hx := maxRow_lt hne
  have hm := minRow_le_maxRow hne
  have hxc := maxCol_lt hne
  have hmc := minCol_le_maxCol hne
  have hr := hspec r
  rw [hrow] at hr
  by_cases hcond : minRow gs g + r < min (maxRow gs g + 1) gs
  · rw [if_pos hcond] at hr
    obtain rfl := Option.some.inj hr
    refine length_from_get? _ (maxCol gs g + 1 - minCol gs g) fun c => ?_
    rw [crop_row_get? hsq (by omega : minRow gs g + r < gs) c, min_eq_left (by omega)]
    by_cases hcc : minCol gs g + c < maxCol gs g + 1
    · rw [if_pos hcc]
      simp only [Option.isSome_some, true_iff]
      omega
    · rw [if_neg hcc]
      simp only [Option.isSome_none, Bool.false_eq_true, false_iff]
      omega
  · rw [if_neg hcond] at hr
    cases hr

lemma no_cells_of_fromGrid_nil {g : List ItemStack} {gs : ℕ} (hsq : g.length = gs ^ 2)
    (h : Pattern.fromGrid g = some []) : nonEmptyCells gs g = [] := by
  by_contra hne
  obtain ⟨P, hP, hspec⟩ := fromGrid_get? hsq
  rw [hP] at h
  obtain rfl : P = [] := Option.some.inj h
  have hx := maxRow_lt hne
  have hm := minRow_le_maxRow hne
  have h0 := hspec 0
  rw [if_pos (by rw [min_eq_left (by omega)]; omega)] at h0
  simp at h0

/-- The item at any integer coordinate, for a grid with non-empty cells:
inside the bounding box it is the grid's item, outside it is `none`
(canonicity turns empty cells into `none` ids). -/
lemma cellZ_item_spec {g : List ItemStack} {gs : ℕ} (hsq : g.length = gs ^ 2)
    (hcan : ∀ s ∈ g, s.Canonical) (i j : ℤ) :
    (cellZ g gs i j).item =
      if (minRow gs g : ℤ) ≤ i ∧ i ≤ (maxRow gs g : ℤ) ∧
         (minCol gs g : ℤ) ≤ j ∧ j ≤ (maxCol gs g : ℤ) ∧
         0 ≤ i ∧ i < (gs : ℤ) ∧ 0 ≤ j ∧ j < (gs : ℤ) then
        (cellAt g gs i.toNat j.toNat).item
      else none := by
  by_cases hbb : (minRow gs g : ℤ) ≤ i ∧ i ≤ (maxRow gs g : ℤ) ∧
      (minCol gs g : ℤ) ≤ j ∧ j ≤ (maxCol gs g : ℤ) ∧
      0 ≤ i ∧ i < (gs : ℤ) ∧ 0 ≤ j ∧ j < (gs : ℤ)
  · rw [if_pos hbb]
    have : cellZ g gs i j = cellAt g gs i.toNat j.toNat := if_pos (by omega)
    rw [this]
  · rw [if_neg hbb]
    by_cases hr : 0 ≤ i ∧ i < (gs : ℤ) ∧ 0 ≤ j ∧ j < (gs : ℤ)
    · have hcell : cellZ g gs i j = cellAt g gs i.toNat j.toNat := if_pos hr
      rw [hcell]
      by_cases hemp : (cellAt g gs i.toNat j.toNat).is_empty = true
      · have hcan' := hcan _ (cellAt_mem hsq (by omega : i.toNat < gs) (by omega : j.toNat < gs))
        have hsz : (cellAt g gs i.toNat j.toNat).size = 0 := by
          rw [ItemStack.is_empty] at hemp
          simpa using hemp
        show (cellAt g gs i.toNat j.toNat).itemId = none
        exact hcan'.mpr hsz
      · exfalso
        have hmem : (i.toNat, j.toNat) ∈ nonEmptyCells gs g :=
          mem_nonEmptyCells.mpr ⟨by omega, by omega, Bool.not_eq_true _ ▸ hemp⟩
        have b1 := minRow_le hmem
        have b2 := le_maxRow hmem
        have b3 := minCol_le hmem
        have b4 := le_maxCol hmem
        omega
    · rw [cellZ_out (by omega)]
      rfl

end FMC

namespace FMC

lemma cellZ_item_none_of_no_cells {g : List ItemStack} {gs : ℕ} (hsq : g.length = gs ^ 2)
    (hcan : ∀ s ∈ g, s.Canonical) (hne : nonEmptyCells gs g = [])
    (i j : ℤ) : (cellZ g gs i j).item = none := by
  by_cases hr : 0 ≤ i ∧ i < (gs : ℤ) ∧ 0 ≤ j ∧ j < (gs : ℤ)
  · have hcell : cellZ g gs i j = cellAt g gs i.toNat j.toNat := if_pos hr
    rw [hcell]
    have hemp := (nonEmptyCells_eq_nil_iff.mp hne) i.toNat j.toNat (by omega) (by omega)
    have hcan' := hcan _ (cellAt_mem hsq (by omega : i.toNat < gs) (by omega : j.toNat < gs))
    have hsz : (cellAt g gs i.toNat j.toNat).size = 0 := by
      rw [ItemStack.is_empty] at hemp
      simpa using hemp
    show (cellAt g gs i.toNat j.toNat).itemId = none
    exact hcan'.mpr hsz
  · rw [cellZ_out (by omega)]
    rfl

/-- Canonical grids with the same normalized pattern have item-id layouts
equal up to a shift. -/
lemma idShift_of_fromGrid_eq {g1 g2 : List ItemStack} {gs : ℕ}
    (h1 : g1.length = gs ^ 2) (h2 : g2.length = gs ^ 2)
    (hcan1 : ∀ s ∈ g1, s.Canonical) (hcan2 : ∀ s ∈ g2, s.Canonical)
    (heq : Pattern.fromGrid g1 = Pattern.fromGrid g2) : IdShiftEq gs g1 g2 := by
  by_cases hne : nonEmptyCells gs g1 = []
  · have hne2 : nonEmptyCells gs g2 = [] := by
      rw [fromGrid_of_no_cells h1 hne] at heq
      exact no_cells_of_fromGrid_nil h2 heq.symm
    refine ⟨0, 0, fun i j => ?_⟩
    rw [add_zero, add_zero, cellZ_item_none_of_no_cells h1 hcan1 hne,
      cellZ_item_none_of_no_cells h2 hcan2 hne2]
  · have hne2 : nonEmptyCells gs g2 ≠ [] := by
      intro hnil
      rw [fromGrid_of_no_cells h2 hnil] at heq
      exact hne (no_cells_of_fromGrid_nil h1 heq)
    obtain ⟨P, hP1⟩ : ∃ P, Pattern.fromGrid g1 = some P := by
      obtain ⟨P, hP, _⟩ := fromGrid_get? h1
      exact ⟨P, hP⟩
    have hP2 : Pattern.fromGrid g2 = some P := by rw [← heq, hP1]
    -- the two bounding boxes have the same dimensions
    have hlen1 := pattern_length h1 hne hP1
    have hlen2 := pattern_length h2 hne2 hP2
    have hx1 := maxRow_lt hne
    have hx2 := maxRow_lt hne2
    have hm1 := minRow_le_maxRow hne
    have hm2 := minRow_le_maxRow hne2
    have hc1 := maxCol_lt hne
    have hc2 := maxCol_lt hne2
    have hn1 := minCol_le_maxCol hne
    have hn2 := minCol_le_maxCol hne2
    have hrow0 : ∃ row, P.get? 0 = some row := by
      cases h : P.get? 0 with
      | none =>
        have := List.get?_eq_none.mp h
        omega
      | some row => exact ⟨row, rfl⟩
    obtain ⟨row0, hrow0⟩ := hrow0
    have hw1 := pattern_row_length h1 hne hP1 hrow0
    have hw2 := pattern_row_length h2 hne2 hP2 hrow0
    -- shift amounts
    refine ⟨(minRow gs g1 : ℤ) - minRow gs g2, (minCol gs g1 : ℤ) - minCol gs g2,
      fun i j => ?_⟩
    rw [cellZ_item_spec h2 hcan2 i j,
      cellZ_item_spec h1 hcan1 (i + ((minRow gs g1 : ℤ) - minRow gs g2))
        (j + ((minCol gs g1 : ℤ) - minCol gs g2))]
    by_cases hbb : (minRow gs g2 : ℤ) ≤ i ∧ i ≤ (maxRow gs g2 : ℤ) ∧
        (minCol gs g2 : ℤ) ≤ j ∧ j ≤ (maxCol gs g2 : ℤ) ∧
        0 ≤ i ∧ i < (gs : ℤ) ∧ 0 ≤ j ∧ j < (gs : ℤ)
    · rw [if_pos hbb, if_pos (by omega)]
      -- both sides are the same pattern entry
      set r := i.toNat - minRow gs g2 with hrdef
      set c := j.toNat - minCol gs g2 with hcdef
      have e2 := pattern_entry h2 hne2 hP2 r c (by omega) (by omega)
      have e1 := pattern_entry h1 hne hP1 r c (by omega) (by omega)
      rw [(by omega : minRow gs g2 + r = i.toNat), (by omega : minCol gs g2 + c = j.toNat)] at e2
      have harg1 : (i + ((minRow gs g1 : ℤ) - minRow gs g2)).toNat = minRow gs g1 + r := by
        omega
      have harg2 : (j + ((minCol gs g1 : ℤ) - minCol gs g2)).toNat = minCol gs g1 + c := by
        omega
      rw [harg1, harg2]
      have := e2.symm.trans e1
      unfold cellItem at this
      exact Option.some.inj this
    · rw [if_neg hbb, if_neg (by omega)]

end FMC

namespace FMC

lemma sqrt_val {n r : ℕ} (h1 : r * r ≤ n) (h2 : n < (r + 1) * (r + 1)) : Nat.sqrt n = r :=
  le_antisymm (Nat.le_of_lt_succ (Nat.sqrt_lt.mpr h2)) (Nat.le_sqrt.mpr h1)

/-- `Pattern.fromGrid` with the square-size guard discharged, in a form the
kernel can evaluate (`Nat.sqrt` itself is not kernel-reducible). -/
lemma fromGrid_eq_crop {g : List ItemStack} {gs : ℕ} (hsq : g.length = gs ^ 2) :
    Pattern.fromGrid g = some
      (((((List.range gs).map (gridRow g gs)).take ((patternBounds gs g).1 + 1)).drop
          ((patternBounds gs g).2.2.1)).map
        fun row => ((row.take ((patternBounds gs g).2.1 + 1)).drop
          ((patternBounds gs g).2.2.2)).map ItemStack.item) := by
  have hgs : Nat.sqrt g.length = gs := by rw [hsq, Nat.sqrt_eq']
  simp only [Pattern.fromGrid, hgs]
  rw [if_pos hsq.symm]

lemma fromGrid_not_square {g : List ItemStack} (h : (Nat.sqrt g.length) ^ 2 ≠ g.length) :
    Pattern.fromGrid g = none := by
  simp only [Pattern.fromGrid]
  rw [if_neg h]

/-- C6 counterexample grid: two vertically adjacent stacks, whose pattern is
the non-square 2×1 grid `[[some 1], [some 2]]`. -/
def cexGridC6 : List ItemStack :=
  [⟨some 1, 1, 9⟩, default, default,
   ⟨some 2, 1, 9⟩, default, default,
   default, default, default]

def cexPatC6 : Pattern := [[some 1], [some 2]]

/-- A single stack of one of item 1 in the top-left corner. -/
def gA6 : List ItemStack :=
  [⟨some 1, 1, 9⟩, default, default,
   default, default, default,
   default, default, default]

/-- Like `gA6` but with a stack of two — same normalized pattern, yet not
equal to `gA6` up to any shift. -/
def gB6 : List ItemStack :=
  [⟨some 1, 2, 9⟩, default, default,
   default, default, default,
   default, default, default]

/-- Like `gA6`, shifted by one row and one column. -/
def gShift6 : List ItemStack :=
  [default, default, default,
   default, ⟨some 1, 1, 9⟩, default,
   default, default, default]

/-- C6 (counterexample): (1) the pattern of a 3×3 grid can be non-square
(here 2×1), and re-normalizing its layout hits the squareness assert and
panics (modelled as `none`) instead of returning the pattern; (2) two 3×3
grids that differ only in a stack's size are not equal up to any shift but
have identical normalized patterns, so normalized forms do not separate
shift-inequivalent grids. -/
theorem C6_counterexample :
    (Pattern.fromGrid cexGridC6 = some cexPatC6 ∧
     Pattern.fromGrid (Pattern.layout cexPatC6) = none) ∧
    (Pattern.fromGrid gA6 = Pattern.fromGrid gB6 ∧ gA6 ≠ gB6 ∧ ¬ ShiftEq 3 gA6 gB6) := by
  refine ⟨⟨?_, ?_⟩, ?_, by decide, ?_⟩
  · rw [fromGrid_eq_crop (show cexGridC6.length = 3 ^ 2 by decide)]
    decide
  · apply fromGrid_not_square
    have hlen : (Pattern.layout cexPatC6).length = 2 := by decide
    rw [hlen, sqrt_val (n := 2) (r := 1) (by norm_num) (by norm_num)]
    norm_num
  · rw [fromGrid_eq_crop (show gA6.length = 3 ^ 2 by decide),
      fromGrid_eq_crop (show gB6.length = 3 ^ 2 by decide)]
    decide
  rintro ⟨dr, dc, h⟩
  have h00 := h 0 0
  have hL : (cellZ gB6 3 0 0).size = 2 := by decide
  have hR : ∀ a b : ℤ, (cellZ gA6 3 a b).size ≠ 2 := by
    intro a b
    unfold cellZ
    split_ifs with hin
    · unfold cellAt
      cases hk : gA6.get? (a.toNat * 3 + b.toNat) with
      | none => decide
      | some s =>
        have hmem := List.get?_mem hk
        have hall : ∀ s ∈ gA6, s.size ≠ 2 := by decide
        simpa using hall s hmem
    · decide
  rw [h00] at hL
  exact hR _ _ hL

/-- C6 (amended): (1) normalization is idempotent exactly on the square
patterns: for every square grid of canonical stacks whose normalized
pattern is itself square, laying the pattern back out and normalizing again
yields the same pattern (for non-square patterns the re-normalization
panics on the squareness assert); (2) two 3×3 grids equal up to a shift
have equal normalized patterns; (3) conversely, two canonical 3×3 grids
with equal normalized patterns have item-id layouts that are equal up to a
shift (stack sizes are not recorded in patterns, so only the id layout is
recovered). -/
theorem C6_theorem :
    (∀ (g : List ItemStack) (gs : ℕ) (P : Pattern), g.length = gs ^ 2 →
       (∀ s ∈ g, s.Canonical) → Pattern.fromGrid g = some P →
       (∀ row ∈ P, row.length = P.length) → Pattern.fromGrid P.layout = some P) ∧
    (∀ g1 g2 : List ItemStack, g1.length = 9 → g2.length = 9 →
       ShiftEq 3 g1 g2 → Pattern.fromGrid g1 = Pattern.fromGrid g2) ∧
    (∀ g1 g2 : List ItemStack, g1.length = 9 → g2.length = 9 →
       (∀ s ∈ g1, s.Canonical) → (∀ s ∈ g2, s.Canonical) →
       Pattern.fromGrid g1 = Pattern.fromGrid g2 → IdShiftEq 3 g1 g2) := by
  refine ⟨fun g gs P hsq hcan hP hsquare => fromGrid_layout_of_square P hsq hcan hP hsquare,
    fun g1 g2 h1 h2 hsh =>
      fromGrid_eq_of_shift (by rw [h1]; norm_num) (by rw [h2]; norm_num) hsh,
    fun g1 g2 h1 h2 hc1 hc2 heq =>
      idShift_of_fromGrid_eq (by rw [h1]; norm_num) (by rw [h2]; norm_num) hc1 hc2 heq⟩

/-- C6 (witness): the amended theorem at concrete inputs — re-normalizing
the layout of the square pattern `[[some 1]]` returns it unchanged, and the
one-cell grid shifted by `(1, 1)` normalizes to the same pattern. -/
theorem C6_witness :
    Pattern.fromGrid (Pattern.layout [[some 1]]) = some [[some 1]] ∧
    Pattern.fromGrid gA6 = Pattern.fromGrid gShift6 := by
  constructor
  · refine C6_theorem.1 gA6 3 [[some 1]] (by decide) (by decide) ?_ (by decide)
    rw [fromGrid_eq_crop (show gA6.length = 3 ^ 2 by decide)]
    decide
  · refine C6_theorem.2.1 gA6 gShift6 (by decide) (by decide) ⟨-1, -1, fun i j => ?_⟩
    by_cases hin : 0 ≤ i ∧ i < 3 ∧ 0 ≤ j ∧ j < 3
    · obtain ⟨hi0, hi3, hj0, hj3⟩ := hin
      interval_cases i <;> interval_cases j <;> decide
    · rw [cellZ_out (by omega)]
      by_cases hin2 : 0 ≤ i + (-1 : ℤ) ∧ i + (-1 : ℤ) < 3 ∧ 0 ≤ j + (-1 : ℤ) ∧ j + (-1 : ℤ) < 3
      · obtain ⟨h1, h2, h3, h4⟩ := hin2
        have hcase : i = 3 ∨ j = 3 := by omega
        have : cellZ gA6 3 (i + -1) (j + -1) = cellAt gA6 3 (i + -1).toNat (j + -1).toNat :=
          if_pos (by omega)
      
        rw [this]
        rcases hcase with hc | hc
        · subst hc
          have hti : ((3 : ℤ) + -1).toNat = 2 := by decide
          rw [hti]
          have hj' : 0 ≤ j + (-1 : ℤ) := h3
          have htj : (j + -1).toNat < 3 := by omega
          unfold cellAt
          interval_cases hjt : (j + (-1 : ℤ)).toNat <;> decide
        · subst hc
          have htj : ((3 : ℤ) + -1).toNat = 2 := by decide
          rw [htj]
          have hti : (i + -1).toNat < 3 := by omega
          unfold cellAt
          interval_cases hit : (i + (-1 : ℤ)).toNat <;> decide
      · rw [cellZ_out (by omega)]

end FMC

namespace FMC

/-! ## Mining inter-hit gate — `break_blocks` in `src/players/hand.rs` (C2) -/

/-- Modelled from the spec: a bevy `Timer` ("plain per-entity timers").
Only `finished` (read before ticking) matters to the verified claims, so the
repeating-mode wrap-around of the elapsed time is not modelled. -/
structure Timer where
  elapsed : ℚ
  duration : ℚ
deriving DecidableEq, Repr

def Timer.finished (t : Timer) : Bool := t.duration ≤ t.elapsed

def Timer.tick (t : Timer) (d : ℚ) : Timer := { t with elapsed := t.elapsed + d }

/-- `BreakingBlock` — the per-block break-in-progress entry
(`model_entity` elided: it only names the overlay entity). -/
structure BreakingBlock where
  progress : ℚ
  prev_hit : ℚ
  particle_timer : Timer
deriving DecidableEq, Repr

/-- The outcome of processing one mining event against an existing
break-in-progress entry. -/
structure MiningHitResult where
  entry : BreakingBlock
  skipped : Bool
  particlesSent : Bool
  nextTexture : Option String
  revealed : Bool
  broken : Bool
deriving DecidableEq, Repr

/-- The `if let Some(breaking_block) = being_broken.get_mut(&block_position)`
branch of `break_blocks`: the inter-hit gate, particle cadence, progress
increment (`(now − prev_hit) / hardness · efficiency`), overlay texture
stage, and the `progress ≥ 1.0` break decision. -/
def break_hit (bb : BreakingBlock) (now delta hardness efficiency : ℚ) : MiningHitResult :=
  if (1 / 20 : ℚ) < now - bb.prev_hit then
    -- "The interval between two clicks needs to be short in order to be
    -- counted as holding the button down."
    { entry := { bb with prev_hit := now }, skipped := true, particlesSent := false,
      nextTexture := none, revealed := false, broken := false }
  else
    let particlesSent := bb.particle_timer.finished
    let timer := bb.particle_timer.tick delta
    let prev_progress := bb.progress
    let progress := bb.progress + (now - bb.prev_hit) / hardness * efficiency
    let nextTexture :=
      if prev_progress < 9/10 ∧ progress > 9/10 then some "blocks/breaking_9.png"
      else if prev_progress < 8/10 ∧ progress > 8/10 then some "blocks/breaking_8.png"
      else if prev_progress < 7/10 ∧ progress > 7/10 then some "blocks/breaking_7.png"
      else if prev_progress < 6/10 ∧ progress > 6/10 then some "blocks/breaking_6.png"
      else if prev_progress < 5/10 ∧ progress > 5/10 then some "blocks/breaking_5.png"
      else if prev_progress < 4/10 ∧ progress > 4/10 then some "blocks/breaking_4.png"
      else if prev_progress < 3/10 ∧ progress > 3/10 then some "blocks/breaking_3.png"
      else if prev_progress < 2/10 ∧ progress > 2/10 then some "blocks/breaking_2.png"
      else none
    let revealed := nextTexture = none ∧ prev_progress < 1/10 ∧ progress > 1/10
    { entry := { bb with progress := progress, prev_hit := now, particle_timer := timer },
      skipped := false, particlesSent := particlesSent, nextTexture := nextTexture,
      revealed := decide revealed, broken := decide (progress ≥ 1) }

/-- The fresh entry of the C2 counterexample: progress `0`, last hit at
time `0`. -/
def bbC2 : BreakingBlock := { progress := 0, prev_hit := 0, particle_timer := ⟨1/5, 1/5⟩ }

/-- C2 (counterexample): the 50 ms gate is the reverse of the claim.  A hit
40 ms after the previous one (less than 50 ms) is NOT skipped and adds
progress, while a hit 100 ms later (at least 50 ms) IS skipped and adds no
progress. -/
theorem C2_counterexample :
    ((break_hit bbC2 (1/25) (1/60) 1 1).skipped = false ∧
     (break_hit bbC2 (1/25) (1/60) 1 1).entry.progress = 1/25 ∧
     (1/25 : ℚ) - 0 < 1/20) ∧
    ((break_hit bbC2 (1/10) (1/60) 1 1).skipped = true ∧
     (break_hit bbC2 (1/10) (1/60) 1 1).entry.progress = 0 ∧
     ((1/20 : ℚ) ≤ 1/10 - 0)) := by
  norm_num [break_hit, bbC2]

/-- C2 (amended): when a targeted block already has a break-in-progress
entry, a subsequent hit adds progress (`(now − prev_hit) / hardness ·
efficiency`) only if at most 50 ms have elapsed since the previous recorded
hit; a hit arriving more than 50 ms after the previous one is treated as
not holding the button and is skipped without adding progress (resetting
the hit timestamp). -/
theorem C2_theorem (bb : BreakingBlock) (now delta hardness efficiency : ℚ) :
    (now - bb.prev_hit ≤ 1/20 →
      (break_hit bb now delta hardness efficiency).skipped = false ∧
      (break_hit bb now delta hardness efficiency).entry.progress
        = bb.progress + (now - bb.prev_hit) / hardness * efficiency ∧
      (break_hit bb now delta hardness efficiency).entry.prev_hit = now) ∧
    (1/20 < now - bb.prev_hit →
      (break_hit bb now delta hardness efficiency).skipped = true ∧
      (break_hit bb now delta hardness efficiency).entry.progress = bb.progress ∧
      (break_hit bb now delta hardness efficiency).entry.prev_hit = now) := by
  constructor
  · intro h
    rw [break_hit, if_neg (not_lt.mpr h)]
    exact ⟨rfl, rfl, rfl⟩
  · intro h
    rw [break_hit, if_pos h]
    exact ⟨rfl, rfl, rfl⟩

/-- C2 (witness): the amended theorem at a concrete in-gate hit. -/
theorem C2_witness :
    (break_hit bbC2 (1/25) (1/60) 1 1).skipped = false ∧
    (break_hit bbC2 (1/25) (1/60) 1 1).entry.progress = 0 + (1/25 - 0) / 1 * 1 := by
  have h := (C2_theorem bbC2 (1/25) (1/60) 1 1).1 (by norm_num [bbC2])
  exact ⟨h.1, h.2.1⟩

/-! ## Terrain generation dispatch — `Earth::generate_chunk` (C7) -/

/-- Modelled from the spec: `Chunk` from the `fmc` crate is "either a dense
`[u16; 4096]` or a uniform marker with one block id"; `make_uniform`
switches to the uniform representation. -/
structure Chunk where
  blocks : List ℕ
  uniform : Option ℕ
deriving DecidableEq, Repr

/-- `Chunk::default()`. -/
def Chunk.empty : Chunk := { blocks := [], uniform := none }

/-- `Chunk::make_uniform(block_id)`. -/
def Chunk.make_uniform (_ : Chunk) (id : ℕ) : Chunk := { blocks := [], uniform := some id }

/-- `Earth::generate_chunk`, with the noise-driven terrain pass
(`generate_terrain`, writing `chunk.blocks`) and the blueprint pass
(`generate_features`) abstracted as function parameters — the claim only
concerns this dispatcher's control flow.  The result also records which
passes ran. -/
def generate_chunk (air : ℕ) (genTerrain : IVec3 → List ℕ)
    (genFeatures : IVec3 → List ℕ → List ℕ) (chunk_position : IVec3) :
    Chunk × Bool × Bool :=
  if 120 < chunk_position.y then
    (Chunk.empty.make_uniform air, false, false)
  else
    let blocks := genTerrain chunk_position
    let uniform := blocks.all fun b => b == air
    if uniform then
      ((Chunk.mk blocks none).make_uniform air, true, false)
    else
      ({ blocks := genFeatures chunk_position blocks, uniform := none }, true, true)

/-- C7: chunks above `y = 120` are uniform air and skip the terrain
pipeline entirely; chunks whose generated blocks are all air are stored
uniform and skip the feature (blueprint) pass; otherwise features run on
the generated blocks. -/
theorem C7_theorem (air : ℕ) (genTerrain : IVec3 → List ℕ)
    (genFeatures : IVec3 → List ℕ → List ℕ) (pos : IVec3) :
    (120 < pos.y →
      generate_chunk air genTerrain genFeatures pos = (⟨[], some air⟩, false, false)) ∧
    (pos.y ≤ 120 → (∀ b ∈ genTerrain pos, b = air) →
      generate_chunk air genTerrain genFeatures pos = (⟨[], some air⟩, true, false)) ∧
    (pos.y ≤ 120 → (∃ b ∈ genTerrain pos, b ≠ air) →
      generate_chunk air genTerrain genFeatures pos
        = (⟨genFeatures pos (genTerrain pos), none⟩, true, true)) := by
  refine ⟨fun h => ?_, fun h hall => ?_, fun h hex => ?_⟩
  · rw [generate_chunk, if_pos h]
    rfl
  · rw [generate_chunk, if_neg (not_lt.mpr h)]
    have : ((genTerrain pos).all fun b => b == air) = true := by
      rw [List.all_eq_true]
      intro b hb
      exact beq_iff_eq.mpr (hall b hb)
    simp only [this, if_true]
    rfl
  · rw [generate_chunk, if_neg (not_lt.mpr h)]
    have : ((genTerrain pos).all fun b => b == air) = false := by
      obtain ⟨b, hb, hbne⟩ := hex
      rw [← Bool.not_eq_true, List.all_eq_true]
      intro hall
      exact hbne (beq_iff_eq.mp (hall b hb))
    simp only [this, Bool.false_eq_true, if_false]

/-- C7 (witness): the theorem at concrete positions and a concrete terrain
function. -/
theorem C7_witness :
    generate_chunk 0 (fun _ => [0, 0]) (fun _ b => b) ⟨0, 121, 0⟩
      = (⟨[], some 0⟩, false, false) ∧
    generate_chunk 0 (fun _ => [0, 0]) (fun _ b => b) ⟨0, 8, 0⟩
      = (⟨[], some 0⟩, true, false) ∧
    generate_chunk 0 (fun _ => [0, 7]) (fun _ b => b) ⟨0, 8, 0⟩
      = (⟨[0, 7], none⟩, true, true) := by
  refine ⟨(C7_theorem 0 (fun _ => [0, 0]) (fun _ b => b) ⟨0, 121, 0⟩).1 (by norm_num),
    (C7_theorem 0 (fun _ => [0, 0]) (fun _ b => b) ⟨0, 8, 0⟩).2.1 (by norm_num) ?_,
    (C7_theorem 0 (fun _ => [0, 7]) (fun _ b => b) ⟨0, 8, 0⟩).2.2 (by norm_num) ?_⟩
  · intro b hb
    simpa using hb
  · exact ⟨7, by simp, by norm_num⟩

end FMC

namespace FMC

/-! ## Path consumption — `PathFinder::next_node` in `src/mobs/pathfinding.rs` (C5) -/

/-- Squared 2-D (xz) distance, `next_position.xz().distance_squared(current)`. -/
def distSqXZ (a b : Vec3) : ℚ := (a.x - b.x) ^ 2 + (a.z - b.z) ^ 2

/-- The `while let Some(next_position) = self.path.last()` loop of
`next_node`, run on the reversed path (head = last element).  Returns the
chosen node and the remaining (reversed) path. -/
def nextNodeAux (cur : Vec3) : List Vec3 → Option Vec3 × List Vec3
  | [] => (none, [])
  | p :: rest =>
    if distSqXZ p cur ≥ 1/2 then (some p, p :: rest)
    else nextNodeAux cur rest

/-- `PathFinder::next_node`: pops path points from the back while their
squared xz distance to the current position is `< 0.5`, returning the
first kept point; the second component is the path left in `self.path`. -/
def next_node (path : List Vec3) (current_position : Vec3) : Option Vec3 × List Vec3 :=
  ((nextNodeAux current_position path.reverse).1,
   (nextNodeAux current_position path.reverse).2.reverse)

lemma nextNodeAux_all_lt {cur : Vec3} {l : List Vec3}
    (h : ∀ p ∈ l, distSqXZ p cur < 1/2) : nextNodeAux cur l = (none, []) := by
  induction l with
  | nil => rfl
  | cons p rest ih =>
    rw [nextNodeAux, if_neg (not_le.mpr (h p (List.mem_cons_self p rest)))]
    exact ih fun q hq => h q (List.mem_cons_of_mem p hq)

lemma nextNodeAux_found {cur : Vec3} (skip : List Vec3) {p : Vec3} (rest : List Vec3)
    (hskip : ∀ q ∈ skip, distSqXZ q cur < 1/2) (hp : 1/2 ≤ distSqXZ p cur) :
    nextNodeAux cur (skip ++ p :: rest) = (some p, p :: rest) := by
  induction skip with
  | nil => rw [List.nil_append, nextNodeAux, if_pos hp]
  | cons q skip ih =>
    rw [List.cons_append, nextNodeAux,
      if_neg (not_le.mpr (hskip q (List.mem_cons_self q skip)))]
    exact ih fun r hr => hskip r (List.mem_cons_of_mem q hr)

/-- The counterexample path of C5: a single node at xz distance exactly
`0.5` from the origin. -/
def cexPathC5 : List Vec3 := [⟨1/2, 0, 0⟩]

/-- C5 (counterexample): the skip threshold is squared distance `0.5`
(distance `√0.5 ≈ 0.707`), not distance `0.25`.  A path point at xz
distance `0.5` from the caller — well above `0.25`, so the claim says it
is returned — is popped and `None` is returned. -/
theorem C5_counterexample :
    next_node cexPathC5 ⟨0, 0, 0⟩ = (none, []) ∧
    distSqXZ ⟨1/2, 0, 0⟩ ⟨0, 0, 0⟩ = 1/4 ∧ ((1/4 : ℚ) ≥ 1/4 ^ 2) := by
  refine ⟨?_, by norm_num [distSqXZ], by norm_num⟩
  rw [next_node, show cexPathC5.reverse = [⟨1/2, 0, 0⟩] from rfl,
    nextNodeAux_all_lt (by intro p hp; simp at hp; subst hp; norm_num [distSqXZ])]
  rfl

/-- C5 (amended): `next_node` consumes the stored path in reverse order,
popping every trailing point whose squared xz distance to the caller's
position is below `0.5`, returning the first remaining point whose squared
xz distance is at least `0.5` (and leaving it on the path), and returning
`None` with an empty path when every point is below the threshold. -/
theorem C5_theorem (path : List Vec3) (cur : Vec3) :
    ((∀ p ∈ path, distSqXZ p cur < 1/2) → next_node path cur = (none, [])) ∧
    (∀ pre p suf, path = pre ++ p :: suf → 1/2 ≤ distSqXZ p cur →
      (∀ q ∈ suf, distSqXZ q cur < 1/2) →
      next_node path cur = (some p, pre ++ [p])) := by
  constructor
  · intro h
    rw [next_node, nextNodeAux_all_lt (by intro p hp; exact h p (List.mem_reverse.mp hp))]
    rfl
  · intro pre p suf hsplit hp hsuf
    rw [next_node, hsplit, List.reverse_append, List.reverse_cons, List.append_assoc,
      List.singleton_append,
      nextNodeAux_found suf.reverse pre.reverse
        (fun q hq => hsuf q (List.mem_reverse.mp hq)) hp]
    simp

/-- C5 (witness): the theorem at a concrete two-point path whose trailing
point sits at squared xz distance `1/4`. -/
theorem C5_witness :
    next_node [⟨5, 0, 5⟩, ⟨0, 0, 1/2⟩] ⟨0, 0, 0⟩ = (some ⟨5, 0, 5⟩, [⟨5, 0, 5⟩]) := by
  have h := (C5_theorem [⟨5, 0, 5⟩, ⟨0, 0, 1/2⟩] ⟨0, 0, 0⟩).2 [] ⟨5, 0, 5⟩ [⟨0, 0, 1/2⟩]
    rfl (by norm_num [distSqXZ])
    (by intro q hq; simp at hq; subst hq; norm_num [distSqXZ])
  simpa using h

end FMC

namespace FMC

/-! ## Hotbar equipping — `equip_item` in `src/players/inventory_interface.rs` (C9) -/

/-- A `NetworkMessage<messages::InterfaceEquipItem>`: `index` is a `u32`. -/
structure EquipEvent where
  interface_path : String
  index : ℕ
  player_entity : ℕ
deriving DecidableEq, Repr

/-- The state `equip_item` touches: each player's `inventory.equipped_item`
and the clients disconnected via `net.disconnect`, in order. -/
structure EquipState where
  equipped : ℕ → ℕ
  disconnected : List ℕ

/-- The `equip_item` system: folds over the batch of pending
`InterfaceEquipItem` events.  A message for an interface other than
`"hotbar"` hits `return`, aborting the whole batch; `index > 8`
disconnects the sender and `continue`s; otherwise `equipped_item`
becomes the index. -/
def equip_item (events : List EquipEvent) (st : EquipState) : EquipState :=
  match events with
  | [] => st
  | e :: rest =>
    if e.interface_path ≠ "hotbar" then st
    else if 8 < e.index then
      equip_item rest { st with disconnected := st.disconnected ++ [e.player_entity] }
    else
      equip_item rest
        { st with equipped := fun p => if p = e.player_entity then e.index else st.equipped p }

/-- C9 (counterexample): a hotbar message queued behind a message for a
different interface is never processed — the early `return` aborts the
whole batch — so "for every InterfaceEquipItem message addressed to the
hotbar, the equipped index becomes that index" fails.  Alone, the same
hotbar message does take effect. -/
theorem C9_counterexample :
    (equip_item [⟨"inventory", 3, 0⟩, ⟨"hotbar", 2, 0⟩] ⟨fun _ => 0, []⟩).equipped 0 = 0 ∧
    (equip_item [⟨"hotbar", 2, 0⟩] ⟨fun _ => 0, []⟩).equipped 0 = 2 := by
  exact ⟨rfl, rfl⟩

/-- C9 (amended): for every `InterfaceEquipItem` message addressed to
`"hotbar"` that the system actually reaches: if the index is outside
`[0, 9)` the sender is disconnected and the state (in particular every
player's equipped index) is otherwise unchanged; if the index is inside
`[0, 9)` the sender's equipped index becomes exactly that index and
nobody is disconnected.  A message addressed to any other interface
aborts the entire batch unprocessed. -/
theorem C9_theorem :
    (∀ e st, e.interface_path = "hotbar" → 8 < e.index →
      equip_item [e] st = { st with disconnected := st.disconnected ++ [e.player_entity] }) ∧
    (∀ e st, e.interface_path = "hotbar" → e.index ≤ 8 →
      (equip_item [e] st).equipped e.player_entity = e.index ∧
      (equip_item [e] st).disconnected = st.disconnected) ∧
    (∀ e rest st, e.interface_path ≠ "hotbar" → equip_item (e :: rest) st = st) := by
  refine ⟨fun e st hpath hidx => ?_, fun e st hpath hidx => ?_, fun e rest st hpath => ?_⟩
  · rw [equip_item, if_neg (by rw [hpath]; exact fun h => h rfl), if_pos hidx]
    rfl
  · rw [equip_item, if_neg (by rw [hpath]; exact fun h => h rfl),
      if_neg (not_lt.mpr hidx)]
    exact ⟨by rw [equip_item]; simp, rfl⟩
  · rw [equip_item, if_pos hpath]

/-- C9 (witness): the amended theorem at concrete events — an out-of-range
index `12` disconnects player `7`, an in-range index `3` equips slot `3`. -/
theorem C9_witness :
    equip_item [⟨"hotbar", 12, 7⟩] ⟨fun _ => 0, []⟩
      = { equipped := fun _ => 0, disconnected := [] ++ [7] } ∧
    (equip_item [⟨"hotbar", 3, 7⟩] ⟨fun _ => 0, []⟩).equipped 7 = 3 := by
  exact ⟨C9_theorem.1 ⟨"hotbar", 12, 7⟩ ⟨fun _ => 0, []⟩ rfl (by norm_num),
    (C9_theorem.2.1 ⟨"hotbar", 3, 7⟩ ⟨fun _ => 0, []⟩ rfl (by norm_num)).1⟩

end FMC

namespace FMC

/-! ## Damage processing — `change_health` in `src/players/health.rs` (C10) -/

/-- The `Health` component. -/
structure Health where
  invincibility : Option Timer
  hearts : ℕ
  max : ℕ
deriving DecidableEq, Repr

/-- `Health::is_dead`. -/
def Health.is_dead (h : Health) : Bool := h.hearts == 0

/-- `Health::is_invincible`. -/
def Health.is_invincible (h : Health) : Bool := h.invincibility.isSome

/-- `Health::take_damage` (`saturating_sub` is ℕ subtraction; the returned
`InterfaceNodeVisibilityUpdate` only redraws hearts and is elided). -/
def Health.take_damage (h : Health) (damage : ℕ) : Health :=
  { h with hearts := h.hearts - damage }

/-- The `Equipment` component's four armour slots. -/
structure Equipment where
  helmet : ItemStack
  chestplate : ItemStack
  leggings : ItemStack
  boots : ItemStack
deriving DecidableEq, Repr

/-- The pieces of player state `change_health`'s damage loop can write. -/
structure PlayerState where
  health : Health
  inventory : List ItemStack
  equipment : Equipment
deriving DecidableEq, Repr

/-- A `PlayerDamageEvent` (the target entity id is elided: the loop looks
up exactly the event's player). -/
structure DamageEvent where
  damage : ℕ
  knock_back : Option Vec3
deriving DecidableEq, Repr

/-- What the death loop does to one slot of the
`inventory.iter_mut().chain([helmet, …])` chain: non-empty stacks are
swapped with `ItemStack::default()`. -/
def dropSlot (s : ItemStack) : ItemStack := if s.is_empty then s else default

/-- The stacks spawned as `DroppedItem`s by the death loop (their
`Physics` velocities are drawn from the `Rng` and are not observed by the
claims, so they are elided). -/
def spawnedDrops (slots : List ItemStack) : List ItemStack :=
  slots.filter fun s => !s.is_empty

/-- The observable outcome of processing one `PlayerDamageEvent`. -/
structure DamageOutcome where
  state : PlayerState
  knockBackSent : Option Vec3
  soundBroadcast : Bool
  drops : List ItemStack
  deathShown : Bool
deriving DecidableEq, Repr

/-- One iteration of `change_health`'s `damage_events` loop: dead or
invincible players are skipped outright; otherwise a fresh once-mode 0.5 s
invincibility timer is installed, the optional knock-back velocity is sent,
damage is applied, the damage sound is broadcast, and on death every
non-empty inventory/equipment stack is swapped out and dropped and the
death screen is shown. -/
def change_health_damage (ev : DamageEvent) (ps : PlayerState) : DamageOutcome :=
  if ps.health.is_dead || ps.health.is_invincible then
    { state := ps, knockBackSent := none, soundBroadcast := false, drops := [],
      deathShown := false }
  else
    let health := { ps.health with invincibility := some ⟨0, 1/2⟩ }
    let health := health.take_damage ev.damage
    if health.is_dead then
      { state :=
          { health := health,
            inventory := ps.inventory.map dropSlot,
            equipment := ⟨dropSlot ps.equipment.helmet, dropSlot ps.equipment.chestplate,
              dropSlot ps.equipment.leggings, dropSlot ps.equipment.boots⟩ },
        knockBackSent := ev.knock_back, soundBroadcast := true,
        drops := spawnedDrops (ps.inventory ++ [ps.equipment.helmet,
          ps.equipment.chestplate, ps.equipment.leggings, ps.equipment.boots]),
        deathShown := true }
    else
      { state := { ps with health := health },
        knockBackSent := ev.knock_back, soundBroadcast := true, drops := [],
        deathShown := false }

/-- C10: a damage event against a dead or invincible player changes
nothing and produces no knock-back, sound, or drops; a damage event that
does go through installs a fresh 0.5-second once-mode invincibility timer,
subtracts the damage (saturating), sends the event's knock-back, and
broadcasts the damage sound. -/
theorem C10_theorem (ev : DamageEvent) (ps : PlayerState) :
    ((ps.health.is_dead || ps.health.is_invincible) = true →
      change_health_damage ev ps
        = { state := ps, knockBackSent := none, soundBroadcast := false, drops := [],
            deathShown := false }) ∧
    ((ps.health.is_dead || ps.health.is_invincible) = false →
      (change_health_damage ev ps).state.health.invincibility = some ⟨0, 1/2⟩ ∧
      (change_health_damage ev ps).state.health.hearts = ps.health.hearts - ev.damage ∧
      (change_health_damage ev ps).knockBackSent = ev.knock_back ∧
      (change_health_damage ev ps).soundBroadcast = true) := by
  constructor
  · intro h
    rw [change_health_damage, if_pos h]
  · intro h
    rw [change_health_damage, if_neg (by rw [h]; exact Bool.false_ne_true)]
    dsimp only
    split
    · exact ⟨rfl, rfl, rfl, rfl⟩
    · exact ⟨rfl, rfl, rfl, rfl⟩

/-- C10 (witness): the theorem at a dead player (event ignored) and at a
healthy player taking 5 damage with knock-back. -/
theorem C10_witness :
    change_health_damage ⟨5, some ⟨1, 0, 0⟩⟩
        ⟨⟨none, 0, 20⟩, [], ⟨default, default, default, default⟩⟩
      = { state := ⟨⟨none, 0, 20⟩, [], ⟨default, default, default, default⟩⟩,
          knockBackSent := none, soundBroadcast := false, drops := [],
          deathShown := false } ∧
    (change_health_damage ⟨5, some ⟨1, 0, 0⟩⟩
        ⟨⟨none, 20, 20⟩, [], ⟨default, default, default, default⟩⟩).state.health.hearts
      = 20 - 5 := by
  exact ⟨(C10_theorem ⟨5, some ⟨1, 0, 0⟩⟩
      ⟨⟨none, 0, 20⟩, [], ⟨default, default, default, default⟩⟩).1 rfl,
    ((C10_theorem ⟨5, some ⟨1, 0, 0⟩⟩
      ⟨⟨none, 20, 20⟩, [], ⟨default, default, default, default⟩⟩).2 rfl).2.1⟩

end FMC

namespace FMC

/-! ## Block placement vs. model colliders — `handle_right_clicks` in
`src/players/hand.rs` (C3) -/

/-- Modelled from the spec: an axis-aligned bounding box (`center`,
`half_extents`) from the external `fmc` crate's physics module. -/
structure Aabb where
  center : Vec3
  half_extents : Vec3
deriving DecidableEq, Repr

/-- Modelled from the spec: `Collider::intersection(..).is_some()` — the
boxes overlap when `(h1 + h2) − |c1 − c2|` is positive on every axis. -/
def Aabb.intersects (a b : Aabb) : Bool :=
  decide (|a.center.x - b.center.x| < a.half_extents.x + b.half_extents.x) &&
  decide (|a.center.y - b.center.y| < a.half_extents.y + b.half_extents.y) &&
  decide (|a.center.z - b.center.z| < a.half_extents.z + b.half_extents.z)

/-- The collider built for the cell the placement would replace:
`Collider::Aabb(Aabb { center: replaced_block_position.as_dvec3(),
half_extents: DVec3::splat(0.5) })`. -/
def replacedCollider (replaced_block_position : IVec3) : Aabb :=
  ⟨replaced_block_position.asVec3, Vec3.splat (1/2)⟩

/-- Whether any registered model's (world-transformed) collider overlaps
the replaced cell — the condition the source's comment says should reject
the placement. -/
def models_overlap (models : List Aabb) (replaced : Aabb) : Bool :=
  models.any fun m => m.intersects replaced

/-- The body of `if let Some((block_id, replaced_block_position)) =
block_placement(..)` in `handle_right_clicks`' `PlaceBlock` arm, given the
models in the replaced cell's chunk: runs the entity-overlap loop — whose
`if collider.intersection(&replaced_collider).is_some() { continue; }`
only skips to the next collider, affecting nothing — then takes one item
from the held stack and emits `BlockUpdate::Replace` (the returned flag). -/
def place_block_branch (models : List Aabb) (replaced_block_position : IVec3)
    (equipped_item_stack : ItemStack) : ItemStack × Bool :=
  let replaced_collider := replacedCollider replaced_block_position
  let _ := models.foldl (fun u m => if m.intersects replaced_collider then u else u) ()
  ((equipped_item_stack.take 1).1, true)

/-- C3: the overlap check is dead code — its `continue` targets the very
loop it is in, so even when a registered model's collider overlaps the
replaced cell, `BlockUpdate::Replace` is still emitted and the held stack
is still decremented, contradicting the claim (and the source comment
"Check that there aren't any entities in the way of the new block"). -/
theorem C3_theorem (models : List Aabb) (pos : IVec3) (stack : ItemStack)
    (hover : models_overlap models (replacedCollider pos) = true)
    (hsz : stack.size ≠ 0) :
    (place_block_branch models pos stack).2 = true ∧
    (place_block_branch models pos stack).1.size = stack.size - 1 ∧
    stack.size - 1 < stack.size := by
  refine ⟨rfl, ?_, Nat.sub_lt (Nat.pos_of_ne_zero hsz) one_pos⟩
  show ((stack.take 1).1).size = stack.size - 1
  exact Recipe.take_fst_size stack 1

/-- C3 (witness): a model box centred on the replaced cell itself overlaps
it, yet the placement goes through and the stack drops from 5 to 4. -/
theorem C3_witness :
    models_overlap [⟨Vec3.zero, Vec3.splat (1/2)⟩] (replacedCollider ⟨0, 0, 0⟩) = true ∧
    (place_block_branch [⟨Vec3.zero, Vec3.splat (1/2)⟩] ⟨0, 0, 0⟩ ⟨some 3, 5, 64⟩).2 = true ∧
    (place_block_branch [⟨Vec3.zero, Vec3.splat (1/2)⟩] ⟨0, 0, 0⟩ ⟨some 3, 5, 64⟩).1.size
      = 4 := by
  have hover : models_overlap [⟨Vec3.zero, Vec3.splat (1/2)⟩]
      (replacedCollider ⟨0, 0, 0⟩) = true := by
    norm_num [models_overlap, Aabb.intersects, replacedCollider, Vec3.splat, Vec3.zero,
      IVec3.asVec3]
  have h := C3_theorem [⟨Vec3.zero, Vec3.splat (1/2)⟩] ⟨0, 0, 0⟩ ⟨some 3, 5, 64⟩
    hover (by norm_num)
  exact ⟨hover, h.1, h.2.1⟩

end FMC

namespace FMC

namespace Movement

/-! ## The client movement plugin — `src/plugins/movement/src/lib.rs` (C8)

`f32`/`f64` values are embedded as ℚ.  The plugin's `Transform` carries its
rotation as the (exact, entries in `\x7b0, ±1\x7d` for the block states used)
3×3 matrix `Mat3::from_quat` would produce, instead of a quaternion.  The
one transcendental, `powf(self.delta_time)`, is abstracted as a function
parameter `powDt` applied component-wise. -/

/-- glam `BVec3`. -/
structure BVec3 where
  x : Bool
  y : Bool
  z : Bool
deriving DecidableEq, Repr

/-- glam `Mat3`, by columns. -/
structure Mat3 where
  xAxis : Vec3
  yAxis : Vec3
  zAxis : Vec3
deriving DecidableEq, Repr

def Mat3.identity : Mat3 := ⟨⟨1, 0, 0⟩, ⟨0, 1, 0⟩, ⟨0, 0, 1⟩⟩

/-- `Mat3 * Vec3` (columns weighted by the vector's components). -/
def Mat3.mulVec (m : Mat3) (v : Vec3) : Vec3 :=
  (m.xAxis.smul v.x).add ((m.yAxis.smul v.y).add (m.zAxis.smul v.z))

/-- An `fmc_client_api` `Transform`, rotation as a matrix (see above). -/
structure Transform where
  translation : Vec3
  rotation : Mat3
  scale : Vec3
deriving DecidableEq, Repr

def Transform.with_translation (t : Transform) (v : Vec3) : Transform :=
  { t with translation := v }

/-- `f32::copysign` component-wise: magnitude of `a`, sign of `b`
(non-negative `b`, including zero, gives the positive sign). -/
def copysignV (a b : Vec3) : Vec3 :=
  ⟨if b.x < 0 then -|a.x| else |a.x|,
   if b.y < 0 then -|a.y| else |a.y|,
   if b.z < 0 then -|a.z| else |a.z|⟩

/-- glam `Vec3::element_sum`. -/
def elementSum (v : Vec3) : ℚ := v.x + v.y + v.z

/-- The movement plugin's own `Aabb` (`center`, `half_extents`). -/
structure Aabb where
  center : Vec3
  half_extents : Vec3
deriving DecidableEq, Repr

def Aabb.from_min_max (mn mx : Vec3) : Aabb :=
  ⟨(mx.add mn).smul (1/2), (mx.sub mn).smul (1/2)⟩

def Aabb.minV (a : Aabb) : Vec3 := a.center.sub a.half_extents

def Aabb.maxV (a : Aabb) : Vec3 := a.center.add a.half_extents

/-- `Aabb::intersection`: the signed overlap
`(h1 + h2) − |c1 − c2|`, kept only when positive on every axis, with the
sign of the center distance copied on. -/
def Aabb.intersection (a b : Aabb) : Option Vec3 :=
  let distance := a.center.sub b.center
  let overlap := (a.half_extents.add b.half_extents).sub distance.absv
  if 0 < overlap.x ∧ 0 < overlap.y ∧ 0 < overlap.z then
    some (copysignV overlap distance)
  else
    none

/-- A column of `abs_rot_mat`: the absolute column divided by its L1 sum
(so a rotated box keeps constant volume). -/
def l1Col (c : Vec3) : Vec3 :=
  let a := c.absv
  let s := elementSum a
  ⟨a.x / s, a.y / s, a.z / s⟩

/-- `Aabb::transform`: rotate and scale, then translate, with the
L1-normalized absolute rotation applied to the half extents. -/
def Aabb.transform (a : Aabb) (t : Transform) : Aabb :=
  let rot_mat := t.rotation
  let abs_rot_mat : Mat3 := ⟨l1Col rot_mat.xAxis, l1Col rot_mat.yAxis, l1Col rot_mat.zAxis⟩
  { center := ((rot_mat.mulVec a.center).mul t.scale).add t.translation,
    half_extents := (abs_rot_mat.mulVec a.half_extents).mul t.scale }

/-- `Friction`: a surface friction per face, or a drag volume. -/
inductive Friction where
  | surface (front back right left top bottom : ℚ)
  | drag (v : Vec3)
deriving DecidableEq, Repr

inductive BlockFace where
  | front | back | left | right | top | bottom
deriving DecidableEq, Repr

structure CollisionConfig where
  collider_aabbs : List Aabb
  friction : Friction
  climbable : Bool
deriving DecidableEq, Repr

/-- `CollisionConfig::surface_friction`. -/
def CollisionConfig.surface_friction (c : CollisionConfig) (face : BlockFace) : Vec3 :=
  match c.friction with
  | .surface front back right left top bottom =>
    match face with
    | .front => Vec3.splat front
    | .back => Vec3.splat back
    | .right => Vec3.splat right
    | .left => Vec3.splat left
    | .top => Vec3.splat top
    | .bottom => Vec3.splat bottom
  | .drag _ => Vec3.zero

/-- `CollisionConfig::drag`. -/
def CollisionConfig.dragOf (c : CollisionConfig) : Option Vec3 :=
  match c.friction with
  | .drag v => some v
  | _ => none

/-- `Collider` — `Single` is embedded as the one-element list of its
`iter()`. -/
structure Collider where
  aabbs : List Aabb
deriving DecidableEq, Repr

/-- `Collider::as_aabb` for `Single` (the player's collider, the only one
the scan calls it on). -/
def Collider.as_aabb_single (a : Aabb) : Aabb := a

/-- Integer range `a..=b` as a list. -/
def intRange (a b : ℤ) : List ℤ :=
  (List.range (b + 1 - a).toNat).map fun i => a + (i : ℤ)

/-- `Collider::iter_block_positions` for the player's `Single` collider:
floor of the transformed box's min/max corners, x outermost, then z, then
y. -/
def iter_block_positions (a : Aabb) (t : Transform) : List IVec3 :=
  let aabb := a.transform t
  let mn := aabb.minV.floor
  let mx := aabb.maxV.floor
  (intRange mn.x mx.x).flatMap fun x =>
    (intRange mn.z mx.z).flatMap fun z =>
      (intRange mn.y mx.y).map fun y => ⟨x, y, z⟩

/-- `Collider::intersection`: fold every pair of transformed boxes,
combining overlaps by component-wise magnitude max with the newest signs;
`Some` only when the result is nonzero. -/
def Collider.intersection (self : Collider) (self_transform : Transform)
    (other_transform : Transform) (other : Collider) : Option Vec3 :=
  let combined := self.aabbs.foldl (fun acc left_aabb =>
    let left_aabb := left_aabb.transform self_transform
    other.aabbs.foldl (fun acc right_aabb =>
      match left_aabb.intersection (right_aabb.transform other_transform) with
      | some new_intersection =>
        copysignV (acc.absv.maxv new_intersection.absv) new_intersection
      | none => acc) acc) Vec3.zero
  if combined ≠ Vec3.zero then some combined else none

/-- `BlockState::rotation` as a matrix: y-rotations by `0`, `π/2`, `π`,
`−π/2` when bit 2 is clear, identity otherwise. -/
def BlockState.rotationOf (s : ℕ) : Mat3 :=
  if s &&& 4 = 0 then
    match s &&& 3 with
    | 0 => Mat3.identity
    | 1 => ⟨⟨0, 0, -1⟩, ⟨0, 1, 0⟩, ⟨1, 0, 0⟩⟩
    | 2 => ⟨⟨-1, 0, 0⟩, ⟨0, 1, 0⟩, ⟨0, 0, -1⟩⟩
    | _ => ⟨⟨0, 0, 1⟩, ⟨0, 1, 0⟩, ⟨-1, 0, 0⟩⟩
  else Mat3.identity

/-- The fields of `PlayerProperties` that `collision` touches. -/
structure Props where
  acceleration : Vec3
  velocity : Vec3
  climbing : Option Vec3
  is_swimming : Bool
  is_grounded : BVec3
deriving DecidableEq, Repr

/-- The world/model environment `collision` reads through the host API. -/
structure CollisionEnv where
  getBlock : IVec3 → Option ℕ
  getBlockState : IVec3 → Option ℕ
  blockConfigs : ℕ → CollisionConfig
  models : List (CollisionConfig × Transform)

end Movement

end FMC

namespace FMC

namespace Movement

/-- A per-axis "backwards time" `overlap / -velocity`: `none` stands for
the non-finite value a zero velocity component produces in `f32` (±∞,
which no comparison or equality in `resolve_conflict` accepts). -/
def axisBT (overlap vel : ℚ) : Option ℚ :=
  if vel = 0 then none else some (overlap / -vel)

/-- Keep a backwards time only when `0 < t < bound` (`f32` comparisons
with the non-finite values are false). -/
def validBT (bound : ℚ) (bt : Option ℚ) : Option ℚ :=
  bt.bind fun v => if 0 < v ∧ v < bound then some v else none

/-- `max_element` over optional values (`f32::max` ignores `NAN`). -/
def omax (a b : Option ℚ) : Option ℚ :=
  match a, b with
  | some x, some y => some (max x y)
  | some x, none => some x
  | none, b => b

/-- `min_element` over optional values. -/
def omin (a b : Option ℚ) : Option ℚ :=
  match a, b with
  | some x, some y => some (min x y)
  | some x, none => some x
  | none, b => b

/-- `resolution_axis == backwards_time.axis`: an `f32` equality that is
false whenever either side is non-finite. -/
def eqRes (bt res : Option ℚ) : Bool :=
  match bt, res with
  | some v, some r => v == r
  | _, _ => false

/-- The mutable state threaded through the collision scan:
(`properties`, `move_back`, `friction`). -/
structure ResolveState where
  props : Props
  move_back : Vec3
  friction : Vec3
deriving DecidableEq, Repr

/-- `MovementPlugin::resolve_conflict`. -/
def resolve_conflict (dt : ℚ) (config : CollisionConfig) (velocity overlap : Vec3)
    (st : ResolveState) : ResolveState :=
  let bt_x := axisBT overlap.x velocity.x
  let bt_y := axisBT overlap.y velocity.y
  let bt_z := axisBT overlap.z velocity.z
  let resolution_axis :=
    omax (omax (validBT (dt + dt/100) bt_x) (validBT (dt + dt/100) bt_y))
      (validBT (dt + dt/100) bt_z)
  if st.props.is_grounded.y ∧ 0 < overlap.y ∧ overlap.y < 51/100 then
    -- step-up: absorb a short vertical overlap instead of resolving
    { props := { st.props with
        is_grounded := { st.props.is_grounded with y := true },
        velocity := { st.props.velocity with y := 0 } },
      move_back := { st.move_back with
        y := max st.move_back.y (min (5/100) (overlap.y + overlap.y/100)) },
      friction := st.friction.maxv
        (config.surface_friction (if 0 ≤ velocity.y then .bottom else .top)) }
  else if eqRes bt_y resolution_axis then
    { props := { st.props with
        is_grounded := { st.props.is_grounded with y := true },
        velocity := { st.props.velocity with y := 0 } },
      move_back := { st.move_back with y := overlap.y + overlap.y/100 },
      friction := st.friction.maxv
        (config.surface_friction (if 0 ≤ velocity.y then .bottom else .top)) }
  else if eqRes bt_x resolution_axis then
    { props := { st.props with
        is_grounded := { st.props.is_grounded with x := true },
        velocity := { st.props.velocity with x := 0 } },
      move_back := { st.move_back with x := overlap.x + overlap.x/100 },
      friction := st.friction.maxv
        (config.surface_friction (if 0 ≤ velocity.x then .left else .right)) }
  else if eqRes bt_z resolution_axis then
    { props := { st.props with
        is_grounded := { st.props.is_grounded with z := true },
        velocity := { st.props.velocity with z := 0 } },
      move_back := { st.move_back with z := overlap.z + overlap.z/100 },
      friction := st.friction.maxv
        (config.surface_friction (if 0 ≤ velocity.z then .back else .front)) }
  else
    -- numerical-precision fallback: move back along the smallest
    -- resolution direction within 2·dt
    let w_x := validBT (dt * 2) bt_x
    let w_y := validBT (dt * 2) bt_y
    let w_z := validBT (dt * 2) bt_z
    if w_x.isSome ∨ w_y.isSome ∨ w_z.isSome then
      let m := omin (omin w_x w_y) w_z
      let sel : Option ℚ → ℚ := fun w =>
        match w, m with
        | some v, some mv => if v = mv then v else 0
        | _, _ => 0
      let valid_axes : Vec3 := ⟨sel w_x, sel w_y, sel w_z⟩
      let mb := st.move_back.add ((valid_axes.add (valid_axes.smul (1/100))).mul velocity.neg)
      { st with move_back := mb }
    else st

/-- Processing of one block position inside a scan pass: `None` models
the `return` on an unloaded block aborting the whole system. -/
def scanBlockStep (env : CollisionEnv) (dt : ℚ) (pos_after_move : Transform)
    (player_collider : Collider) (velocity : Vec3) (st : ResolveState)
    (block_pos : IVec3) : Option ResolveState :=
  match env.getBlock block_pos with
  | none => none
  | some block_id =>
    let block_config := env.blockConfigs block_id
    let rotation := match env.getBlockState block_pos with
      | some block_state => BlockState.rotationOf block_state
      | none => Mat3.identity
    let block_transform : Transform :=
      ⟨(block_pos.asVec3).add (Vec3.splat (1/2)), rotation, ⟨1, 1, 1⟩⟩
    match player_collider.intersection pos_after_move block_transform
        ⟨block_config.collider_aabbs⟩ with
    | none => some st
    | some overlap =>
      let st := if block_config.climbable then
          { st with props := { st.props with climbing := some (rotation.mulVec ⟨0, 0, 1⟩) } }
        else st
      match block_config.dragOf with
      | some drag =>
        some { st with
          friction := st.friction.maxv drag,
          props := if 1/2 ≤ drag.y then { st.props with is_swimming := true } else st.props }
      | none => some (resolve_conflict dt block_config velocity overlap st)

/-- One pass of `collision`'s `for velocity in [..]` loop: scan the blocks
under the tentatively moved player box, then the registered model
colliders (the host's model query is abstracted as `env.models`). -/
def scanPass (env : CollisionEnv) (dt : ℚ) (player_transform : Transform)
    (velocity : Vec3) (st : ResolveState) : Option ResolveState :=
  let pos_after_move := player_transform.with_translation
    (player_transform.translation.add (velocity.smul dt))
  let player_aabb := Aabb.from_min_max ⟨-3/10, 0, -3/10⟩ ⟨3/10, 18/10, 3/10⟩
  let player_collider : Collider := ⟨[player_aabb]⟩
  let afterBlocks := (iter_block_positions player_aabb pos_after_move).foldl
    (fun acc bp => acc.bind fun s =>
      scanBlockStep env dt pos_after_move player_collider velocity s bp) (some st)
  afterBlocks.map fun s =>
    env.models.foldl (fun s mc =>
      match player_collider.intersection pos_after_move mc.2 ⟨mc.1.collider_aabbs⟩ with
      | none => s
      | some intersection => resolve_conflict dt mc.1 velocity intersection s) s

/-- Both passes, with the per-pass velocities fixed up-front:
first `(0, v.y, 0)`, then `(v.x, 0, v.z)`. -/
def scanPasses (env : CollisionEnv) (dt : ℚ) (player_transform : Transform)
    (vel_y vel_xz : Vec3) (st : ResolveState) : Option ResolveState :=
  (scanPass env dt player_transform vel_y st).bind
    (scanPass env dt player_transform vel_xz)

/-- `collision`'s prologue: clear `climbing`, drop the grounded flags of
moving axes, integrate acceleration, and reset `is_swimming` for this
tick's scan. -/
def prologueProps (dt : ℚ) (props : Props) : Props :=
  let props := { props with climbing := none }
  let props := { props with is_grounded :=
    ⟨if props.velocity.x ≠ 0 then false else props.is_grounded.x,
     if props.velocity.y ≠ 0 then false else props.is_grounded.y,
     if props.velocity.z ≠ 0 then false else props.is_grounded.z⟩ }
  let props := { props with velocity := props.velocity.add (props.acceleration.smul dt) }
  { props with is_swimming := false }

/-- `velocity * (1 − friction).powf(4).powf(delta_time)`, with `powDt`
standing for the component-wise `(·).powf(delta_time)`. -/
def frictionApply (powDt : ℚ → ℚ) (v f : Vec3) : Vec3 :=
  ⟨v.x * powDt ((1 - f.x) ^ 4), v.y * powDt ((1 - f.y) ^ 4), v.z * powDt ((1 - f.z) ^ 4)⟩

/-- `MovementPlugin::collision`: result is the updated properties and the
new player position, or `None` when an unloaded block aborts the tick.
`was_swimming` is the `is_swimming` value from before the scan's reset,
i.e. the argument's. -/
def collision (env : CollisionEnv) (powDt : ℚ → ℚ) (player_transform : Transform)
    (dt : ℚ) (props : Props) : Option (Props × Vec3) :=
  let props1 := prologueProps dt props
  let was_swimming := props.is_swimming
  let new_position := player_transform.translation.add (props1.velocity.smul dt)
  match scanPasses env dt player_transform ⟨0, props1.velocity.y, 0⟩
      ⟨props1.velocity.x, 0, props1.velocity.z⟩ ⟨props1, Vec3.zero, Vec3.zero⟩ with
  | none => none
  | some st =>
    let new_position := new_position.add st.move_back
    let v := frictionApply powDt st.props.velocity st.friction
    let v := if was_swimming && !st.props.is_swimming then { v with y := v.y + 3/2 } else v
    some ({ st.props with velocity := v }, new_position)

end Movement

end FMC

namespace FMC

namespace Movement

/-- The witness environment: every block is loaded as id 0, whose config
has no collider boxes; no block states; no registered models. -/
def envW : CollisionEnv :=
  { getBlock := fun _ => some 0,
    getBlockState := fun _ => none,
    blockConfigs := fun _ => ⟨[], .surface 0 0 0 0 0 0, false⟩,
    models := [] }

/-- The witness player transform: origin, identity rotation, zero scale
(so the player box collapses to a single block cell). -/
def ptW : Transform := ⟨Vec3.zero, Mat3.identity, Vec3.zero⟩

/-- The witness properties: at rest, currently swimming. -/
def propsW : Props := ⟨Vec3.zero, Vec3.zero, none, true, ⟨false, false, false⟩⟩

end Movement

open Movement in
/-- C8: whenever `collision` completes its block/model scan (returning
`some`), the resulting y velocity is the post-scan y velocity with
friction applied, plus exactly `1.5` precisely on ticks where the player
was swimming before the scan's reset and is not swimming after the scan;
the x and z velocities never receive a bob.  Moreover `resolve_conflict`
never touches `is_swimming`, so only drag volumes with `drag.y ≥ 0.5` can
set it during the scan. -/
theorem C8_theorem (env : CollisionEnv) (powDt : ℚ → ℚ) (pt : Transform)
    (dt : ℚ) (props : Props) (st : ResolveState)
    (hscan : scanPasses env dt pt
        ⟨0, (prologueProps dt props).velocity.y, 0⟩
        ⟨(prologueProps dt props).velocity.x, 0, (prologueProps dt props).velocity.z⟩
        ⟨prologueProps dt props, Vec3.zero, Vec3.zero⟩ = some st) :
    (∃ out, collision env powDt pt dt props = some out ∧
      out.1.velocity.y =
        (if props.is_swimming && !st.props.is_swimming
         then st.props.velocity.y * powDt ((1 - st.friction.y) ^ 4) + 3/2
         else st.props.velocity.y * powDt ((1 - st.friction.y) ^ 4)) ∧
      out.1.velocity.x = st.props.velocity.x * powDt ((1 - st.friction.x) ^ 4) ∧
      out.1.velocity.z = st.props.velocity.z * powDt ((1 - st.friction.z) ^ 4)) ∧
    (∀ d c vel ov s,
      (resolve_conflict d c vel ov s).props.is_swimming = s.props.is_swimming) := by
  constructor
  · refine ⟨?_, ?_, ?_, ?_, ?_⟩
    · exact Movement.collision env powDt pt dt props |>.getD
        ({ st.props with velocity := Vec3.zero }, Vec3.zero)
    all_goals simp only [collision, hscan]
    · rfl
    · split <;> rfl
    · split <;> rfl
    · split <;> rfl
  · intro d c vel ov s
    unfold resolve_conflict
    dsimp only
    split_ifs <;> rfl

end FMC

namespace FMC

/-- C8 (witness): in the all-air witness world, a swimming player at rest
completes the scan without finding water again and gets exactly the `+1.5`
bob on the y velocity. -/
theorem C8_witness :
    ∃ out, Movement.collision Movement.envW id Movement.ptW 1 Movement.propsW = some out ∧
      out.1.velocity.y
        = (Movement.prologueProps 1 Movement.propsW).velocity.y * id ((1 - (0:ℚ)) ^ 4)
          + 3/2 := by
  have hscan : Movement.scanPasses Movement.envW 1 Movement.ptW
      ⟨0, (Movement.prologueProps 1 Movement.propsW).velocity.y, 0⟩
      ⟨(Movement.prologueProps 1 Movement.propsW).velocity.x, 0,
        (Movement.prologueProps 1 Movement.propsW).velocity.z⟩
      ⟨Movement.prologueProps 1 Movement.propsW, Vec3.zero, Vec3.zero⟩
      = some ⟨Movement.prologueProps 1 Movement.propsW, Vec3.zero, Vec3.zero⟩ := by
    norm_num [Movement.scanPasses, Movement.scanPass, Movement.scanBlockStep,
      Movement.prologueProps, Movement.iter_block_positions, Movement.Aabb.from_min_max,
      Movement.Aabb.transform, Movement.Aabb.minV, Movement.Aabb.maxV, Movement.l1Col,
      Movement.elementSum, Movement.Mat3.mulVec, Movement.Mat3.identity, Movement.intRange,
      Movement.Collider.intersection, Movement.Transform.with_translation,
      Movement.envW, Movement.ptW, Movement.propsW,
      Vec3.add, Vec3.sub, Vec3.mul, Vec3.smul, Vec3.splat, Vec3.absv, Vec3.zero, Vec3.floor,
      IVec3.asVec3, List.range_succ]
  obtain ⟨⟨out, hout, hy, hx, hz⟩, _⟩ := C8_theorem Movement.envW id Movement.ptW 1
    Movement.propsW ⟨Movement.prologueProps 1 Movement.propsW, Vec3.zero, Vec3.zero⟩ hscan
  refine ⟨out, hout, ?_⟩
  rw [hy]
  norm_num [Movement.propsW, Movement.prologueProps, Vec3.zero]

end FMC

namespace FMC

namespace Pathfinding

/-! ## Mob pathfinding — `PathFinder` in `src/mobs/pathfinding.rs` (C4)

`f32`/`f64` values are ℚ; `f32::INFINITY` is `⊤` in `WithTop ℚ`.  The
composite `get_move_cost` (solid / unloaded ↦ `INFINITY`, else the block's
`drag().max_element()`) is the environment parameter `mc : MoveCost`. -/

abbrev Cost := WithTop ℚ

abbrev MoveCost := IVec3 → Cost

/-- `f32::MAX` exactly: `(2 − 2⁻²³)·2¹²⁷`. -/
def fMAX : ℚ := (2 - (1/2) ^ 23) * 2 ^ 127

/-- `get_heuristic_cost`: squared euclidean distance to the goal block. -/
def hW (goal p : IVec3) : Cost := (((IVec3.distSq p goal : ℤ) : ℚ) : Cost)

/-- The `loop` inside `get_successor` that walks downward: `fuel = 3 −
steps`, so fuel `0` is the `steps > 2` failure. -/
def gsLoop (mc : MoveCost) (goal : IVec3) : ℕ → ℕ → IVec3 → Cost → IVec3 × Cost × Cost
  | 0, _, position, _ => (position, ⊤, ⊤)
  | fuel+1, steps, position, move_cost =>
    let below_cost := mc (position.offsetY (-(steps + 1 : ℤ)))
    if below_cost = ⊤ then
      let position := position.offsetY (-(steps : ℤ))
      (position, move_cost + ((steps : ℚ) : Cost), hW goal position)
    else gsLoop mc goal fuel (steps + 1) position (move_cost + below_cost)

/-- The `get_successor` closure of `get_potential_successors`. -/
def get_successor (mc : MoveCost) (goal p : IVec3) (max_steps : ℕ) (offset : IVec3) :
    IVec3 × Cost × Cost :=
  let position := p.add offset
  let move_cost := mc position
  if move_cost = ⊤ ∧ max_steps = 1 then
    -- hit a wall, try to jump up
    let position := position.offsetY 1
    let move_cost := mc position
    (position, move_cost + (1 : ℚ), hW goal position)
  else
    gsLoop mc goal 3 0 position move_cost

/-- `get_potential_successors`: the eight horizontal/diagonal offsets,
keeping only successors with a finite move cost. -/
def get_potential_successors (mc : MoveCost) (goal p : IVec3) : List (IVec3 × Cost × Cost) :=
  let above_cost := mc (p.offsetY 1)
  let max_steps : ℕ := if above_cost = ⊤ then 0 else 1
  (([⟨1,0,0⟩, ⟨-1,0,0⟩, ⟨0,0,1⟩, ⟨0,0,-1⟩,
     ⟨1,0,1⟩, ⟨1,0,-1⟩, ⟨-1,0,1⟩, ⟨-1,0,-1⟩] : List IVec3).map
    (get_successor mc goal p max_steps)).filter fun s => s.2.1 ≠ ⊤

/-- A `PathNode`: the `usize::MAX` parent sentinel is `none`. -/
structure PathNode where
  parent_index : Option ℕ
  cost : Cost
deriving DecidableEq, Repr

structure Successor where
  node_index : ℕ
  move_cost : Cost
  heuristic_cost : Cost
deriving DecidableEq, Repr

def Successor.cost (s : Successor) : Cost := s.move_cost + s.heuristic_cost

/-- The (reversed) `Ord` key of `Successor`: the heap pops the least
`(cost, heuristic_cost)` pair. -/
def succKey (s : Successor) : Lex (Cost × Cost) := toLex (s.cost, s.heuristic_cost)

/-- `BinaryHeap::pop`: a least-key element leaves the queue.  Rust leaves
the choice among equal keys unspecified; the embedding takes the first. -/
def popMin (q : List Successor) : Option (Successor × List Successor) :=
  match q.argmin succKey with
  | none => none
  | some s => some (s, q.erase s)

/-- The `while index != usize::MAX` walk of `set_path`, fuelled by the
node count (the chain is acyclic for the nonnegative move costs the game
produces, so the fuel is never exhausted there). -/
def chainWalk (node_map : List (IVec3 × PathNode)) (xz_offset : Vec3) :
    ℕ → Option ℕ → List Vec3
  | _, none => []
  | 0, some _ => []
  | fuel+1, some index =>
    match node_map.get? index with
    | none => []
    | some (position, path_node) =>
      (position.asVec3.add xz_offset) :: chainWalk node_map xz_offset fuel path_node.parent_index

/-- `PathFinder::set_path`. -/
def set_path (width : ℕ) (index : ℕ) (node_map : List (IVec3 × PathNode))
    (accurate_goal : Option Vec3) : List Vec3 :=
  let xz_offset : Vec3 := ⟨(width : ℚ) * (1/2), 0, (width : ℚ) * (1/2)⟩
  let path := chainWalk node_map xz_offset (node_map.length + 1) (some index)
  let path := match accurate_goal with
    | some goal => path.set 0 goal
    | none => path
  path.dropLast

/-- The mutable state of `find_path`'s A* loop. -/
structure AState where
  queue : List Successor
  node_map : List (IVec3 × PathNode)
  roundabout_limit : ℕ
  best_node_index : ℕ
  best_node_cost : Cost
deriving DecidableEq, Repr

inductive AStepRes where
  | finished (path : List Vec3)
  | next (st : AState)
deriving DecidableEq, Repr

/-- The `for (position, move_cost, heuristic_cost) in potential_successors`
loop: threads the node map (an `IndexMap`, embedded as a list whose index
is insertion position) and the queue; `.error` is the early `return` when
the goal is inserted. -/
def expandFold (width : ℕ) (block_goal : IVec3) (goal : Vec3) (s : Successor) :
    List (IVec3 × Cost × Cost) → List (IVec3 × PathNode) → List Successor →
    Except (List Vec3) (List (IVec3 × PathNode) × List Successor)
  | [], nm, q => .ok (nm, q)
  | (position, move_cost, heuristic_cost) :: rest, nm, q =>
    let cost := s.move_cost + move_cost + heuristic_cost
    match nm.findIdx? (fun e => e.1 = position) with
    | some i =>
      match nm.get? i with
      | none => .ok (nm, q)
      | some e =>
        if cost < e.2.cost then
          let nm' := nm.set i (position, ⟨some s.node_index, cost⟩)
          if position = block_goal then .error (set_path width i nm' (some goal))
          else expandFold width block_goal goal s rest nm'
            (q ++ [⟨i, s.move_cost + move_cost, heuristic_cost⟩])
        else expandFold width block_goal goal s rest nm q
    | none =>
      let i := nm.length
      let nm' := nm ++ [(position, ⟨some s.node_index, cost⟩)]
      if position = block_goal then .error (set_path width i nm' (some goal))
      else expandFold width block_goal goal s rest nm'
        (q ++ [⟨i, s.move_cost + move_cost, heuristic_cost⟩])

/-- One iteration of `find_path`'s `while let Some(successor) = queue.pop()`
loop. -/
def aStep (mc : MoveCost) (goal : Vec3) (block_goal : IVec3) (width : ℕ)
    (st : AState) : AStepRes :=
  match popMin st.queue with
  | none => .finished []
  | some (successor, queue) =>
    match st.node_map.get? successor.node_index with
    | none => .finished []
    | some (node_position, path_node) =>
      let improved := decide (successor.cost < st.best_node_cost)
      let best_node_cost := if improved then successor.cost else st.best_node_cost
      let best_node_index := if improved then successor.node_index else st.best_node_index
      let roundabout_limit := if improved then st.roundabout_limit
        else st.roundabout_limit + 1
      if 25 < roundabout_limit then
        .finished (set_path width best_node_index st.node_map none)
      else if path_node.cost < successor.cost ∧ path_node.parent_index ≠ none then
        .next { queue := queue, node_map := st.node_map,
                roundabout_limit := roundabout_limit,
                best_node_index := best_node_index, best_node_cost := best_node_cost }
      else
        match expandFold width block_goal goal successor
            (get_potential_successors mc block_goal node_position) st.node_map queue with
        | .error path => .finished path
        | .ok (nm, q) =>
          .next ⟨q, nm, roundabout_limit, best_node_index, best_node_cost⟩

/-- The fuelled A* loop; `none` iff the fuel ran out. -/
def aRun (mc : MoveCost) (goal : Vec3) (block_goal : IVec3) (width : ℕ) :
    ℕ → AState → Option (List Vec3)
  | 0, _ => none
  | fuel+1, st =>
    match aStep mc goal block_goal width st with
    | .finished path => some path
    | .next st => aRun mc goal block_goal width fuel st

end Pathfinding

end FMC

namespace FMC

namespace Pathfinding

/-- `fract_gl`: `x − ⌊x⌋`. -/
def fract (x : ℚ) : ℚ := x - ⌊x⌋

/-- `min_element` over the two per-axis travel distances; `none` stands
for the non-finite value a zero direction component produces (it never
wins the min, and no comparison accepts it). -/
def ominO (a b : Option ℚ) : Option ℚ :=
  match a, b with
  | some x, some y => some (min x y)
  | some x, none => some x
  | none, b => b

/-- The DDA loop of `find_direct_path`, in goal-distance-scaled units:
the source tracks `t = τ·‖goal − start‖` along the normalized direction,
so its loop condition `(t_min·forward).length² < ‖goal − start‖²` becomes
`τ² ·(Δx² + Δz²) < ‖Δ‖²`, entirely rational.  Returns the produced path
and the number of iterations; `none` iff the fuel ran out. -/
def ddaLoop (mc : MoveCost) (goal : Vec3) (block_goal : IVec3) (dirx dirz : ℤ)
    (incx incz S D2 : ℚ) : ℕ → Option ℚ → Option ℚ → IVec3 → ℕ → Option (List Vec3 × ℕ)
  | 0, _, _, _, _ => none
  | fuel+1, tx, tz, bp, steps =>
    match ominO tx tz with
    | none => some ([], steps)
    | some next =>
      if next ^ 2 * S < D2 then
        let advx := tx = some next
        let tx' := if advx then some (next + incx) else tx
        let tz' := if advx then tz else some (next + incz)
        let bp' : IVec3 := if advx then ⟨bp.x + dirx, bp.y, bp.z⟩ else ⟨bp.x, bp.y, bp.z + dirz⟩
        if bp' = block_goal then some ([goal], steps + 1)
        else
          let above_cost := mc (bp'.offsetY 1)
          let cost := mc bp'
          let below_cost := mc (bp'.offsetY (-1))
          let second_below_cost := mc (bp'.offsetY (-2))
          if above_cost = ⊤ then
            -- block at head height, fail
            some ([], steps + 1)
          else if cost = ⊤ then
            -- jump up one block
            ddaLoop mc goal block_goal dirx dirz incx incz S D2 fuel tx' tz'
              (bp'.offsetY 1) (steps + 1)
          else if below_cost = ⊤ then
            -- move forward
            ddaLoop mc goal block_goal dirx dirz incx incz S D2 fuel tx' tz' bp' (steps + 1)
          else
            -- move down one block, or two if falling
            let bp'' := if second_below_cost ≠ ⊤ then bp'.offsetY (-2) else bp'.offsetY (-1)
            ddaLoop mc goal block_goal dirx dirz incx incz S D2 fuel tx' tz' bp'' (steps + 1)
      else some ([], steps)

/-- `PathFinder::find_direct_path` (τ-scaled; see `ddaLoop`).  A zero
`Δx`/`Δz` component yields `none` for that axis' travel distance, exactly
as the `f64` division yields `+∞` there. -/
def find_direct_path (mc : MoveCost) (start goal : Vec3) (fuel : ℕ) :
    Option (List Vec3 × ℕ) :=
  let d := goal.sub start
  let dirx : ℤ := if 0 ≤ d.x then 1 else -1
  let dirz : ℤ := if 0 ≤ d.z then 1 else -1
  let tx := if d.x = 0 then none else
    some ((if 0 ≤ d.x then 1 - fract start.x else fract start.x) / |d.x|)
  let tz := if d.z = 0 then none else
    some ((if 0 ≤ d.z then 1 - fract start.z else fract start.z) / |d.z|)
  ddaLoop mc goal goal.floor dirx dirz (1 / |d.x|) (1 / |d.z|)
    (d.x ^ 2 + d.z ^ 2) (d.x ^ 2 + d.y ^ 2 + d.z ^ 2) fuel tx tz start.floor 0

/-- `PathFinder::find_path`: the goal-guard, then the direct walk, then
the A* loop; `old_path` is what an early guard return leaves in
`self.path`.  `none` iff one of the fuels ran out. -/
def findPath (mc : MoveCost) (width : ℕ) (self_goal : IVec3) (old_path : List Vec3)
    (start goal : Vec3) (dfuel afuel : ℕ) : Option (List Vec3) :=
  let block_start := start.floor
  let block_goal := goal.floor
  if block_start ≠ block_goal ∧ self_goal ≠ block_goal then
    match find_direct_path mc start goal dfuel with
    | none => none
    | some (dpath, _) =>
      if dpath ≠ [] then some dpath
      else
        aRun mc goal block_goal width afuel
          ⟨[⟨0, ((0 : ℚ) : Cost), ((fMAX : ℚ) : Cost)⟩],
            [(block_start, ⟨none, ((0 : ℚ) : Cost)⟩)], 0, 0, ((fMAX : ℚ) : Cost)⟩
  else some old_path

end Pathfinding

end FMC

namespace FMC

namespace Pathfinding

lemma aStep_semantics (mc : MoveCost) (goal : Vec3) (bg : IVec3) (w : ℕ) (st : AState)
    (s : Successor) (rest : List Successor) (np : IVec3) (pn : PathNode)
    (hpop : popMin st.queue = some (s, rest))
    (hnd : st.node_map.get? s.node_index = some (np, pn)) :
    (¬ s.cost < st.best_node_cost → 25 < st.roundabout_limit + 1 →
      aStep mc goal bg w st = .finished (set_path w st.best_node_index st.node_map none)) ∧
    (s.cost < st.best_node_cost → 25 < st.roundabout_limit →
      aStep mc goal bg w st = .finished (set_path w s.node_index st.node_map none)) ∧
    (∀ st', aStep mc goal bg w st = .next st' →
      (st'.roundabout_limit, st'.best_node_cost, st'.best_node_index)
        = if s.cost < st.best_node_cost
          then (st.roundabout_limit, s.cost, s.node_index)
          else (st.roundabout_limit + 1, st.best_node_cost, st.best_node_index)) := by
  have hstep : aStep mc goal bg w st =
      (let improved := decide (s.cost < st.best_node_cost)
       let best_node_cost := if improved then s.cost else st.best_node_cost
       let best_node_index := if improved then s.node_index else st.best_node_index
       let roundabout_limit := if improved then st.roundabout_limit
         else st.roundabout_limit + 1
       if 25 < roundabout_limit then
         .finished (set_path w best_node_index st.node_map none)
       else if pn.cost < s.cost ∧ pn.parent_index ≠ none then
         .next { queue := rest, node_map := st.node_map,
                 roundabout_limit := roundabout_limit,
                 best_node_index := best_node_index, best_node_cost := best_node_cost }
       else
         match expandFold w bg goal s
             (get_potential_successors mc bg np) st.node_map rest with
         | .error path => .finished path
         | .ok (nm, q) =>
           .next ⟨q, nm, roundabout_limit, best_node_index, best_node_cost⟩) := by
    rw [aStep, hpop]
    dsimp only
    rw [hnd]
  by_cases himp : s.cost < st.best_node_cost
  · refine ⟨fun h _ => absurd himp h, fun _ hr => ?_, fun st' hnext => ?_⟩
    · rw [hstep]
      simp [himp, hr]
    · rw [hstep] at hnext
      simp only [himp, decide_True, if_true] at hnext
      rw [if_pos himp]
      split_ifs at hnext <;>
        first
          | exact absurd hnext (fun hc => AStepRes.noConfusion hc)
          | (injection hnext with h; subst h; rfl)
          | (split at hnext <;>
              first
                | exact absurd hnext (fun hc => AStepRes.noConfusion hc)
                | (injection hnext with h; subst h; rfl))
  · refine ⟨fun _ hr => ?_, fun h => absurd h himp, fun st' hnext => ?_⟩
    · rw [hstep]
      simp [himp, hr]
    · rw [hstep] at hnext
      simp only [himp, decide_False, Bool.false_eq_true, if_false] at hnext
      rw [if_neg himp]
      split_ifs at hnext <;>
        first
          | exact absurd hnext (fun hc => AStepRes.noConfusion hc)
          | (injection hnext with h; subst h; rfl)
          | (split at hnext <;>
              first
                | exact absurd hnext (fun hc => AStepRes.noConfusion hc)
                | (injection hnext with h; subst h; rfl))

end Pathfinding

end FMC

namespace FMC

namespace Pathfinding

/-- A cost is `⊤` or a nonnegative multiple of `1/L` — the discreteness
surrogate for `f32` move costs. -/
def inQT (L : ℕ) (x : Cost) : Prop :=
  x = ⊤ ∨ ∃ k : ℕ, x = (((k : ℚ) / L : ℚ) : Cost)

/-- Every move cost of the world is `⊤` or a nonnegative multiple of
`1/L`. -/
def QuantW (L : ℕ) (mc : MoveCost) : Prop := ∀ p, inQT L (mc p)

lemma inQT_add {L : ℕ} {a b : Cost} (ha : inQT L a) (hb : inQT L b) : inQT L (a + b) := by
  rcases ha with rfl | ⟨k, rfl⟩
  · exact Or.inl (top_add b)
  rcases hb with rfl | ⟨m, rfl⟩
  · exact Or.inl (add_top _)
  · refine Or.inr ⟨k + m, ?_⟩
    rw [← WithTop.coe_add, div_add_div_same]
    push_cast
    rfl

lemma inQT_natCast (L : ℕ) (n : ℕ) (hL : 1 ≤ L) : inQT L (((n : ℚ) : ℚ) : Cost) := by
  refine Or.inr ⟨n * L, ?_⟩
  have hL0 : (L : ℚ) ≠ 0 := Nat.cast_ne_zero.mpr (by omega)
  rw [WithTop.coe_inj]
  push_cast
  field_simp

lemma inQT_hW {L : ℕ} (hL : 1 ≤ L) (g p : IVec3) : inQT L (hW g p) := by
  have hnn : 0 ≤ IVec3.distSq p g := by
    unfold IVec3.distSq
    positivity
  have : ((IVec3.distSq p g : ℤ) : ℚ) = (((IVec3.distSq p g).toNat : ℕ) : ℚ) := by
    exact_mod_cast (Int.toNat_of_nonneg hnn).symm
  unfold hW
  rw [this]
  exact inQT_natCast L _ hL

lemma inQT_one {L : ℕ} (hL : 1 ≤ L) : inQT L (((1 : ℚ) : ℚ) : Cost) := by
  simpa using inQT_natCast L 1 hL

lemma gsLoop_quant {L : ℕ} {mc : MoveCost} (hL : 1 ≤ L) (hmc : QuantW L mc) (g : IVec3) :
    ∀ fuel steps pos m, inQT L m →
      inQT L (gsLoop mc g fuel steps pos m).2.1 ∧
      inQT L (gsLoop mc g fuel steps pos m).2.2 := by
  intro fuel
  induction fuel with
  | zero => exact fun _ _ _ _ => ⟨Or.inl rfl, Or.inl rfl⟩
  | succ n ih =>
    intro steps pos m hm
    rw [gsLoop]
    dsimp only
    split_ifs with hb
    · exact ⟨inQT_add hm (inQT_natCast L steps hL), inQT_hW hL g _⟩
    · exact ih (steps + 1) pos _ (inQT_add hm (hmc _))

lemma get_successor_quant {L : ℕ} {mc : MoveCost} (hL : 1 ≤ L) (hmc : QuantW L mc)
    (g p : IVec3) (ms : ℕ) (off : IVec3) :
    inQT L (get_successor mc g p ms off).2.1 ∧
    inQT L (get_successor mc g p ms off).2.2 := by
  rw [get_successor]
  dsimp only
  split_ifs with hj
  · exact ⟨inQT_add (hmc _) (inQT_one hL), inQT_hW hL g _⟩
  · exact gsLoop_quant hL hmc g 3 0 _ _ (hmc _)

lemma gps_quant {L : ℕ} {mc : MoveCost} (hL : 1 ≤ L) (hmc : QuantW L mc)
    (g p : IVec3) : ∀ t ∈ get_potential_successors mc g p,
      inQT L t.2.1 ∧ inQT L t.2.2 := by
  intro t ht
  rw [get_potential_successors] at ht
  obtain ⟨hmem, -⟩ := List.mem_filter.mp ht
  obtain ⟨off, -, rfl⟩ := List.mem_map.mp hmem
  exact get_successor_quant hL hmc g p _ off

lemma popMin_mem {q : List Successor} {s : Successor} {rest : List Successor}
    (h : popMin q = some (s, rest)) : s ∈ q ∧ ∀ x ∈ rest, x ∈ q := by
  rw [popMin] at h
  cases ha : q.argmin succKey with
  | none => rw [ha] at h; exact absurd h (by simp)
  | some a =>
    rw [ha] at h
    injection h with h
    have h1 : a = s := congrArg Prod.fst h
    have h2 : q.erase a = rest := congrArg Prod.snd h
    subst h1
    subst h2
    exact ⟨List.argmin_mem ha, fun x hx => List.mem_of_mem_erase hx⟩

end Pathfinding

end FMC

namespace FMC

namespace Pathfinding

/-- The A* loop invariant: the best cost is a finite multiple of `1/L`
and every queued successor has quantized move and heuristic costs. -/
def AInv (L : ℕ) (st : AState) : Prop :=
  (∃ k : ℕ, st.best_node_cost = (((k : ℚ) / L : ℚ) : Cost)) ∧
  ∀ s ∈ st.queue, inQT L s.move_cost ∧ inQT L s.heuristic_cost

lemma expandFold_queue {L : ℕ} (w : ℕ) (bg : IVec3) (g : Vec3) (s : Successor)
    (hs : inQT L s.move_cost) :
    ∀ succs nm q, (∀ x ∈ q, inQT L x.move_cost ∧ inQT L x.heuristic_cost) →
      (∀ t ∈ succs, inQT L t.2.1 ∧ inQT L t.2.2) →
      ∀ nm' q', expandFold w bg g s succs nm q = .ok (nm', q') →
        ∀ x ∈ q', inQT L x.move_cost ∧ inQT L x.heuristic_cost := by
  intro succs
  induction succs with
  | nil =>
    intro nm q hq _ nm' q' h
    injection h with h
    injection h with h1 h2
    subst h2
    exact hq
  | cons t rest ih =>
    obtain ⟨position, move_cost, heuristic_cost⟩ := t
    intro nm q hq hsuccs nm' q' h
    have ht := hsuccs _ (List.mem_cons_self _ _)
    have hrest : ∀ t ∈ rest, inQT L t.2.1 ∧ inQT L t.2.2 :=
      fun t htm => hsuccs t (List.mem_cons_of_mem _ htm)
    rw [expandFold] at h
    dsimp only at h
    have hpush : ∀ (j : ℕ),
        ∀ x ∈ q ++ [(⟨j, s.move_cost + move_cost, heuristic_cost⟩ : Successor)],
        inQT L x.move_cost ∧ inQT L x.heuristic_cost := by
      intro j x hx
      rcases List.mem_append.mp hx with hx | hx
      · exact hq x hx
      · rcases List.mem_singleton.mp hx with rfl
        exact ⟨inQT_add hs ht.1, ht.2⟩
    rcases hidx : nm.findIdx? fun e => e.1 = position with - | i
    · rw [hidx] at h
      dsimp only at h
      split_ifs at h <;>
        first
          | exact absurd h (fun hc => Except.noConfusion hc)
          | exact ih _ _ (hpush _) hrest nm' q' h
    · rw [hidx] at h
      dsimp only at h
      rcases hget : nm.get? i with - | e
      · rw [hget] at h
        injection h with h
        injection h with h1 h2
        subst h2
        exact hq
      · rw [hget] at h
        dsimp only at h
        split_ifs at h <;>
          first
            | exact absurd h (fun hc => Except.noConfusion hc)
            | exact ih _ _ (hpush _) hrest nm' q' h
            | exact ih _ _ hq hrest nm' q' h

/-- `best_node_cost · L`, as a natural number (the measure's first
component). -/
def qLn (L : ℕ) (c : Cost) : ℕ := ((c.untop' 0) * L).num.toNat

lemma qLn_coe_div {L : ℕ} (hL : 1 ≤ L) (k : ℕ) :
    qLn L (((k : ℚ) / L : ℚ) : Cost) = k := by
  have hL0 : (L : ℚ) ≠ 0 := Nat.cast_ne_zero.mpr (by omega)
  rw [qLn, WithTop.untop'_coe, div_mul_cancel₀ _ hL0]
  rw [Rat.num_natCast]
  exact Int.toNat_natCast k

/-- The A* termination measure. -/
def muA (L : ℕ) (st : AState) : ℕ :=
  qLn L st.best_node_cost * 27 + (26 - st.roundabout_limit)

end Pathfinding

end FMC

namespace FMC

namespace Pathfinding

lemma aStep_next_inv {L : ℕ} {mc : MoveCost} (hL : 1 ≤ L) (hmc : QuantW L mc)
    (goal : Vec3) (bg : IVec3) (w : ℕ) (st st' : AState) (hinv : AInv L st)
    (h : aStep mc goal bg w st = .next st') : AInv L st' ∧ muA L st' < muA L st := by
  obtain ⟨⟨K, hbest⟩, hq⟩ := hinv
  rw [aStep] at h
  rcases hpop : popMin st.queue with - | ⟨s, rest⟩
  · rw [hpop] at h
    simp at h
  rw [hpop] at h
  dsimp only at h
  obtain ⟨hs_mem, hrest_mem⟩ := popMin_mem hpop
  obtain ⟨hsm, hsh⟩ := hq s hs_mem
  rcases hnd : st.node_map.get? s.node_index with - | ⟨np, pn⟩
  · rw [hnd] at h
    simp at h
  rw [hnd] at h
  dsimp only at h
  have hL0 : (0 : ℚ) < L := by exact_mod_cast Nat.pos_of_ne_zero (by omega)
  by_cases himp : s.cost < st.best_node_cost
  · -- improving pop: best cost strictly decreases in multiples of 1/L
    have hcost : ∃ k' : ℕ, s.cost = (((k' : ℚ) / L : ℚ) : Cost) ∧ k' < K := by
      rcases hsm with hm | ⟨km, hkm⟩
      · have hst : s.cost = ⊤ := by rw [Successor.cost, hm, top_add]
        rw [hst, hbest] at himp
        exact absurd himp not_top_lt
      rcases hsh with hh | ⟨kh, hkh⟩
      · have hst : s.cost = ⊤ := by rw [Successor.cost, hkm, hh, add_top]
        rw [hst, hbest] at himp
        exact absurd himp not_top_lt
      have hsum : s.cost = ((((km + kh : ℕ) : ℚ) / L : ℚ) : Cost) := by
        rw [Successor.cost, hkm, hkh, ← WithTop.coe_add, div_add_div_same]
        push_cast
        rfl
      refine ⟨km + kh, hsum, ?_⟩
      rw [hsum, hbest, WithTop.coe_lt_coe] at himp
      rw [div_lt_div_iff_of_pos_right hL0] at himp
      exact_mod_cast himp
    obtain ⟨k', hk', hkK⟩ := hcost
    have hmeas : ∀ r' : ℕ,
        qLn L s.cost * 27 + (26 - r') < muA L st := by
      intro r'
      rw [muA, hbest, hk', qLn_coe_div hL, qLn_coe_div hL]
      omega
    simp only [himp, decide_True, if_true] at h
    split_ifs at h <;>
      first
        | exact absurd h (fun hc => AStepRes.noConfusion hc)
        | (injection h with h
           subst h
           exact ⟨⟨⟨k', hk'⟩, fun x hx => hq x (hrest_mem x hx)⟩, hmeas _⟩)
        | (rcases hex : expandFold w bg goal s
              (get_potential_successors mc bg np) st.node_map rest with p | ⟨nm2, q2⟩ <;>
            rw [hex] at h <;>
            first
              | exact absurd h (fun hc => AStepRes.noConfusion hc)
              | (injection h with h
                 subst h
                 exact ⟨⟨⟨k', hk'⟩, expandFold_queue w bg goal s hsm _ st.node_map rest
                   (fun x hx => hq x (hrest_mem x hx)) (gps_quant hL hmc bg np) nm2 q2 hex⟩,
                   hmeas _⟩))
  · -- non-improving pop: the roundabout counter eats the budget
    simp only [himp, decide_False, Bool.false_eq_true, if_false] at h
    split_ifs at h <;>
      first
        | exact absurd h (fun hc => AStepRes.noConfusion hc)
        | (injection h with h
           subst h
           refine ⟨⟨⟨K, hbest⟩, fun x hx => hq x (hrest_mem x hx)⟩, ?_⟩
           rw [muA, muA]
           dsimp only
           omega)
        | (rcases hex : expandFold w bg goal s
              (get_potential_successors mc bg np) st.node_map rest with p | ⟨nm2, q2⟩ <;>
            rw [hex] at h <;>
            first
              | exact absurd h (fun hc => AStepRes.noConfusion hc)
              | (injection h with h
                 subst h
                 refine ⟨⟨⟨K, hbest⟩, expandFold_queue w bg goal s hsm _ st.node_map rest
                   (fun x hx => hq x (hrest_mem x hx)) (gps_quant hL hmc bg np) nm2 q2 hex⟩, ?_⟩
                 rw [muA, muA]
                 dsimp only
                 omega))

/-- Under quantized move costs the A* loop halts: some fuel suffices. -/
lemma aRun_halts {L : ℕ} {mc : MoveCost} (hL : 1 ≤ L) (hmc : QuantW L mc)
    (goal : Vec3) (bg : IVec3) (w : ℕ) :
    ∀ st, AInv L st → ∃ n, (aRun mc goal bg w n st).isSome := by
  suffices H : ∀ m st, muA L st = m → AInv L st → ∃ n, (aRun mc goal bg w n st).isSome by
    exact fun st hinv => H (muA L st) st rfl hinv
  intro m
  induction m using Nat.strong_induction_on with
  | _ m ih =>
    intro st hm hinv
    rcases hstep : aStep mc goal bg w st with p | st'
    · exact ⟨1, by rw [aRun, hstep]; rfl⟩
    · obtain ⟨hinv', hlt⟩ := aStep_next_inv hL hmc goal bg w st st' hinv hstep
      obtain ⟨n, hn⟩ := ih (muA L st') (hm ▸ hlt) st' rfl hinv'
      exact ⟨n + 1, by rw [aRun, hstep]; exact hn⟩

end Pathfinding

end FMC

namespace FMC

namespace Pathfinding

lemma ominO_some {a b : Option ℚ} {next : ℚ} (h : ominO a b = some next) :
    a = some next ∨ b = some next := by
  rcases a with - | x <;> rcases b with - | y <;> simp [ominO] at h
  · exact Or.inr (by rw [h])
  · exact Or.inl (by rw [h])
  · rcases min_cases x y with ⟨hmin, -⟩ | ⟨hmin, -⟩
    · exact Or.inl (by rw [← h, hmin])
    · exact Or.inr (by rw [← h, hmin])

/-- Every travel-distance value admits a bound on how many further grid
advances can still satisfy the loop condition. -/
lemma bnd_exists (inc S D2 : ℚ) (hinc : 0 < inc) (hS : 0 < S) (v : ℚ) :
    ∃ M : ℕ, ∀ j : ℕ, (v + j * inc) ^ 2 * S < D2 → j < M := by
  obtain ⟨N, hN⟩ := exists_nat_ge ((max 1 (D2 / S) - v) / inc)
  refine ⟨N, fun j hj => ?_⟩
  by_contra hjN
  push_neg at hjN
  have hNj : ((max 1 (D2 / S) - v) / inc) ≤ (j : ℚ) :=
    le_trans hN (by exact_mod_cast hjN)
  have hvj : max 1 (D2 / S) ≤ v + j * inc := by
    have h1 := mul_le_mul_of_nonneg_right hNj hinc.le
    rw [div_mul_cancel₀ _ (ne_of_gt hinc)] at h1
    linarith
  have h1 : (1 : ℚ) ≤ v + j * inc := le_trans (le_max_left _ _) hvj
  have h2 : D2 / S ≤ v + j * inc := le_trans (le_max_right _ _) hvj
  have hDS : D2 ≤ (v + j * inc) * S := by
    have h3 := mul_le_mul_of_nonneg_right h2 hS.le
    rwa [div_mul_cancel₀ _ (ne_of_gt hS)] at h3
  have hx2 : (v + j * inc) * S ≤ (v + j * inc) ^ 2 * S := by
    apply mul_le_mul_of_nonneg_right _ hS.le
    nlinarith
  linarith

lemma ddaLoop_halts (mc : MoveCost) (goal : Vec3) (bg : IVec3) (dirx dirz : ℤ)
    (incx incz S D2 : ℚ) :
    ∀ (N : ℕ) (tx tz : Option ℚ) (bp : IVec3) (steps : ℕ) (Mx Mz : ℕ),
      Mx + Mz ≤ N →
      (∀ v, tx = some v → 0 < incx ∧
        ∀ j : ℕ, (v + j * incx) ^ 2 * S < D2 → j < Mx) →
      (∀ v, tz = some v → 0 < incz ∧
        ∀ j : ℕ, (v + j * incz) ^ 2 * S < D2 → j < Mz) →
      ∃ n, (ddaLoop mc goal bg dirx dirz incx incz S D2 n tx tz bp steps).isSome := by
  intro N
  induction N with
  | zero =>
    intro tx tz bp steps Mx Mz hMN hx hz
    refine ⟨1, ?_⟩
    rw [ddaLoop]
    rcases om : ominO tx tz with - | next
    · rfl
    have hcond : ¬ next ^ 2 * S < D2 := by
      intro hc
      rcases ominO_some om with h | h
      · exact absurd ((hx next h).2 0 (by simpa using hc)) (by omega)
      · exact absurd ((hz next h).2 0 (by simpa using hc)) (by omega)
    dsimp only
    rw [if_neg hcond]
    rfl
  | succ N ih =>
    intro tx tz bp steps Mx Mz hMN hx hz
    rcases om : ominO tx tz with - | next
    · exact ⟨1, by rw [ddaLoop, om]; rfl⟩
    by_cases hcond : next ^ 2 * S < D2
    case neg =>
      refine ⟨1, ?_⟩
      rw [ddaLoop, om]
      dsimp only
      rw [if_neg hcond]
      rfl
    by_cases hax : tx = some next
    · -- x advances
      obtain ⟨hincx, hbx⟩ := hx next hax
      have hMx1 : 0 < Mx := hbx 0 (by simpa using hcond)
      have hx' : ∀ v, (some (next + incx) : Option ℚ) = some v → 0 < incx ∧
          ∀ j : ℕ, (v + j * incx) ^ 2 * S < D2 → j < Mx - 1 := by
        intro v hv
        injection hv with hv
        subst hv
        refine ⟨hincx, fun j hj => ?_⟩
        have hj' : (next + (j + 1 : ℕ) * incx) ^ 2 * S < D2 := by
          push_cast
          ring_nf
          ring_nf at hj
          convert hj using 2
          ring
        have := hbx (j + 1) hj'
        omega
      have hMN' : (Mx - 1) + Mz ≤ N := by omega
      have body : ∀ bp2 : IVec3, (∃ n, (ddaLoop mc goal bg dirx dirz incx incz S D2 n
          (some (next + incx)) tz bp2 (steps + 1)).isSome) :=
        fun bp2 => ih (some (next + incx)) tz bp2 (steps + 1) (Mx - 1) Mz hMN' hx' hz
      by_cases hgoal : (⟨bp.x + dirx, bp.y, bp.z⟩ : IVec3) = bg
      · refine ⟨1, ?_⟩
        rw [ddaLoop, om]
        dsimp only
        rw [if_pos hcond]
        simp [hax, hgoal]
      by_cases habove : mc ((⟨bp.x + dirx, bp.y, bp.z⟩ : IVec3).offsetY 1) = ⊤
      · refine ⟨1, ?_⟩
        rw [ddaLoop, om]
        dsimp only
        rw [if_pos hcond]
        simp [hax, hgoal, habove]
      by_cases hcost : mc (⟨bp.x + dirx, bp.y, bp.z⟩ : IVec3) = ⊤
      · obtain ⟨n, hn⟩ := body ((⟨bp.x + dirx, bp.y, bp.z⟩ : IVec3).offsetY 1)
        refine ⟨n + 1, ?_⟩
        rw [ddaLoop, om]
        dsimp only
        rw [if_pos hcond]
        simpa [hax, hgoal, habove, hcost] using hn
      by_cases hbelow : mc ((⟨bp.x + dirx, bp.y, bp.z⟩ : IVec3).offsetY (-1)) = ⊤
      · obtain ⟨n, hn⟩ := body (⟨bp.x + dirx, bp.y, bp.z⟩ : IVec3)
        refine ⟨n + 1, ?_⟩
        rw [ddaLoop, om]
        dsimp only
        rw [if_pos hcond]
        simpa [hax, hgoal, habove, hcost, hbelow] using hn
      by_cases hsec : mc ((⟨bp.x + dirx, bp.y, bp.z⟩ : IVec3).offsetY (-2)) ≠ ⊤
      · obtain ⟨n, hn⟩ := body ((⟨bp.x + dirx, bp.y, bp.z⟩ : IVec3).offsetY (-2))
        refine ⟨n + 1, ?_⟩
        rw [ddaLoop, om]
        dsimp only
        rw [if_pos hcond]
        simpa [hax, hgoal, habove, hcost, hbelow, hsec] using hn
      · obtain ⟨n, hn⟩ := body ((⟨bp.x + dirx, bp.y, bp.z⟩ : IVec3).offsetY (-1))
        refine ⟨n + 1, ?_⟩
        rw [ddaLoop, om]
        dsimp only
        rw [if_pos hcond]
        simpa [hax, hgoal, habove, hcost, hbelow, hsec] using hn
    · -- z advances
      have haz : tz = some next := by
        rcases ominO_some om with h | h
        · exact absurd h hax
        · exact h
      obtain ⟨hincz, hbz⟩ := hz next haz
      have hMz1 : 0 < Mz := hbz 0 (by simpa using hcond)
      have hz' : ∀ v, (some (next + incz) : Option ℚ) = some v → 0 < incz ∧
          ∀ j : ℕ, (v + j * incz) ^ 2 * S < D2 → j < Mz - 1 := by
        intro v hv
        injection hv with hv
        subst hv
        refine ⟨hincz, fun j hj => ?_⟩
        have hj' : (next + (j + 1 : ℕ) * incz) ^ 2 * S < D2 := by
          push_cast
          ring_nf
          ring_nf at hj
          convert hj using 2
          ring
        have := hbz (j + 1) hj'
        omega
      have hMN' : Mx + (Mz - 1) ≤ N := by omega
      have body : ∀ bp2 : IVec3, (∃ n, (ddaLoop mc goal bg dirx dirz incx incz S D2 n
          tx (some (next + incz)) bp2 (steps + 1)).isSome) :=
        fun bp2 => ih tx (some (next + incz)) bp2 (steps + 1) Mx (Mz - 1) hMN' hx hz'
      by_cases hgoal : (⟨bp.x, bp.y, bp.z + dirz⟩ : IVec3) = bg
      · refine ⟨1, ?_⟩
        rw [ddaLoop, om]
        dsimp only
        rw [if_pos hcond]
        simp [hax, hgoal]
      by_cases habove : mc ((⟨bp.x, bp.y, bp.z + dirz⟩ : IVec3).offsetY 1) = ⊤
      · refine ⟨1, ?_⟩
        rw [ddaLoop, om]
        dsimp only
        rw [if_pos hcond]
        simp [hax, hgoal, habove]
      by_cases hcost : mc (⟨bp.x, bp.y, bp.z + dirz⟩ : IVec3) = ⊤
      · obtain ⟨n, hn⟩ := body ((⟨bp.x, bp.y, bp.z + dirz⟩ : IVec3).offsetY 1)
        refine ⟨n + 1, ?_⟩
        rw [ddaLoop, om]
        dsimp only
        rw [if_pos hcond]
        simpa [hax, hgoal, habove, hcost] using hn
      by_cases hbelow : mc ((⟨bp.x, bp.y, bp.z + dirz⟩ : IVec3).offsetY (-1)) = ⊤
      · obtain ⟨n, hn⟩ := body (⟨bp.x, bp.y, bp.z + dirz⟩ : IVec3)
        refine ⟨n + 1, ?_⟩
        rw [ddaLoop, om]
        dsimp only
        rw [if_pos hcond]
        simpa [hax, hgoal, habove, hcost, hbelow] using hn
      by_cases hsec : mc ((⟨bp.x, bp.y, bp.z + dirz⟩ : IVec3).offsetY (-2)) ≠ ⊤
      · obtain ⟨n, hn⟩ := body ((⟨bp.x, bp.y, bp.z + dirz⟩ : IVec3).offsetY (-2))
        refine ⟨n + 1, ?_⟩
        rw [ddaLoop, om]
        dsimp only
        rw [if_pos hcond]
        simpa [hax, hgoal, habove, hcost, hbelow, hsec] using hn
      · obtain ⟨n, hn⟩ := body ((⟨bp.x, bp.y, bp.z + dirz⟩ : IVec3).offsetY (-1))
        refine ⟨n + 1, ?_⟩
        rw [ddaLoop, om]
        dsimp only
        rw [if_pos hcond]
        simpa [hax, hgoal, habove, hcost, hbelow, hsec] using hn

end Pathfinding

end FMC

namespace FMC

namespace Pathfinding

lemma find_direct_path_halts (mc : MoveCost) (start goal : Vec3) :
    ∃ n, (find_direct_path mc start goal n).isSome := by
  have hconv : ∀ tx tz n, (ddaLoop mc goal goal.floor
      (if 0 ≤ (goal.sub start).x then 1 else -1) (if 0 ≤ (goal.sub start).z then 1 else -1)
      (1 / |(goal.sub start).x|) (1 / |(goal.sub start).z|)
      ((goal.sub start).x ^ 2 + (goal.sub start).z ^ 2)
      ((goal.sub start).x ^ 2 + (goal.sub start).y ^ 2 + (goal.sub start).z ^ 2)
      n tx tz start.floor 0).isSome →
      tx = (if (goal.sub start).x = 0 then none else
        some ((if 0 ≤ (goal.sub start).x then 1 - fract start.x else fract start.x) /
          |(goal.sub start).x|)) →
      tz = (if (goal.sub start).z = 0 then none else
        some ((if 0 ≤ (goal.sub start).z then 1 - fract start.z else fract start.z) /
          |(goal.sub start).z|)) →
      (find_direct_path mc start goal n).isSome := by
    intro tx tz n hn htx htz
    rw [find_direct_path, ← htx, ← htz]
    exact hn
  by_cases hdx : (goal.sub start).x = 0 <;> by_cases hdz : (goal.sub start).z = 0
  · obtain ⟨n, hn⟩ := ddaLoop_halts mc goal goal.floor
      (if 0 ≤ (goal.sub start).x then 1 else -1) (if 0 ≤ (goal.sub start).z then 1 else -1)
      (1 / |(goal.sub start).x|) (1 / |(goal.sub start).z|)
      ((goal.sub start).x ^ 2 + (goal.sub start).z ^ 2)
      ((goal.sub start).x ^ 2 + (goal.sub start).y ^ 2 + (goal.sub start).z ^ 2)
      0 none none start.floor 0 0 0 (by omega)
      (fun v hv => absurd hv (by simp)) (fun v hv => absurd hv (by simp))
    exact ⟨n, hconv none none n hn (by rw [if_pos hdx]) (by rw [if_pos hdz])⟩
  · have hz2 : 0 < (goal.sub start).z ^ 2 := by positivity
    have hS : 0 < (goal.sub start).x ^ 2 + (goal.sub start).z ^ 2 := by
      nlinarith [sq_nonneg (goal.sub start).x]
    have habs : 0 < |(goal.sub start).z| := abs_pos.mpr hdz
    have hincz : 0 < 1 / |(goal.sub start).z| := by positivity
    obtain ⟨Mz, hMz⟩ := bnd_exists (1 / |(goal.sub start).z|)
      ((goal.sub start).x ^ 2 + (goal.sub start).z ^ 2)
      ((goal.sub start).x ^ 2 + (goal.sub start).y ^ 2 + (goal.sub start).z ^ 2)
      hincz hS
      ((if 0 ≤ (goal.sub start).z then 1 - fract start.z else fract start.z) /
        |(goal.sub start).z|)
    obtain ⟨n, hn⟩ := ddaLoop_halts mc goal goal.floor
      (if 0 ≤ (goal.sub start).x then 1 else -1) (if 0 ≤ (goal.sub start).z then 1 else -1)
      (1 / |(goal.sub start).x|) (1 / |(goal.sub start).z|)
      ((goal.sub start).x ^ 2 + (goal.sub start).z ^ 2)
      ((goal.sub start).x ^ 2 + (goal.sub start).y ^ 2 + (goal.sub start).z ^ 2)
      Mz none (some ((if 0 ≤ (goal.sub start).z then 1 - fract start.z else fract start.z) /
        |(goal.sub start).z|)) start.floor 0 0 Mz (by omega)
      (fun v hv => absurd hv (by simp))
      (fun v hv => by injection hv with hv; subst hv; exact ⟨hincz, hMz⟩)
    exact ⟨n, hconv _ _ n hn (by rw [if_pos hdx]) (by rw [if_neg hdz])⟩
  · have hx2 : 0 < (goal.sub start).x ^ 2 := by positivity
    have hS : 0 < (goal.sub start).x ^ 2 + (goal.sub start).z ^ 2 := by
      nlinarith [sq_nonneg (goal.sub start).z]
    have habs : 0 < |(goal.sub start).x| := abs_pos.mpr hdx
    have hincx : 0 < 1 / |(goal.sub start).x| := by positivity
    obtain ⟨Mx, hMx⟩ := bnd_exists (1 / |(goal.sub start).x|)
      ((goal.sub start).x ^ 2 + (goal.sub start).z ^ 2)
      ((goal.sub start).x ^ 2 + (goal.sub start).y ^ 2 + (goal.sub start).z ^ 2)
      hincx hS
      ((if 0 ≤ (goal.sub start).x then 1 - fract start.x else fract start.x) /
        |(goal.sub start).x|)
    obtain ⟨n, hn⟩ := ddaLoop_halts mc goal goal.floor
      (if 0 ≤ (goal.sub start).x then 1 else -1) (if 0 ≤ (goal.sub start).z then 1 else -1)
      (1 / |(goal.sub start).x|) (1 / |(goal.sub start).z|)
      ((goal.sub start).x ^ 2 + (goal.sub start).z ^ 2)
      ((goal.sub start).x ^ 2 + (goal.sub start).y ^ 2 + (goal.sub start).z ^ 2)
      Mx (some ((if 0 ≤ (goal.sub start).x then 1 - fract start.x else fract start.x) /
        |(goal.sub start).x|)) none start.floor 0 Mx 0 (by omega)
      (fun v hv => by injection hv with hv; subst hv; exact ⟨hincx, hMx⟩)
      (fun v hv => absurd hv (by simp))
    exact ⟨n, hconv _ _ n hn (by rw [if_neg hdx]) (by rw [if_pos hdz])⟩
  · have hx2 : 0 < (goal.sub start).x ^ 2 := by positivity
    have hS : 0 < (goal.sub start).x ^ 2 + (goal.sub start).z ^ 2 := by
      nlinarith [sq_nonneg (goal.sub start).z]
    have habsx : 0 < |(goal.sub start).x| := abs_pos.mpr hdx
    have habsz : 0 < |(goal.sub start).z| := abs_pos.mpr hdz
    have hincx : 0 < 1 / |(goal.sub start).x| := by positivity
    have hincz : 0 < 1 / |(goal.sub start).z| := by positivity
    obtain ⟨Mx, hMx⟩ := bnd_exists (1 / |(goal.sub start).x|)
      ((goal.sub start).x ^ 2 + (goal.sub start).z ^ 2)
      ((goal.sub start).x ^ 2 + (goal.sub start).y ^ 2 + (goal.sub start).z ^ 2)
      hincx hS
      ((if 0 ≤ (goal.sub start).x then 1 - fract start.x else fract start.x) /
        |(goal.sub start).x|)
    obtain ⟨Mz, hMz⟩ := bnd_exists (1 / |(goal.sub start).z|)
      ((goal.sub start).x ^ 2 + (goal.sub start).z ^ 2)
      ((goal.sub start).x ^ 2 + (goal.sub start).y ^ 2 + (goal.sub start).z ^ 2)
      hincz hS
      ((if 0 ≤ (goal.sub start).z then 1 - fract start.z else fract start.z) /
        |(goal.sub start).z|)
    obtain ⟨n, hn⟩ := ddaLoop_halts mc goal goal.floor
      (if 0 ≤ (goal.sub start).x then 1 else -1) (if 0 ≤ (goal.sub start).z then 1 else -1)
      (1 / |(goal.sub start).x|) (1 / |(goal.sub start).z|)
      ((goal.sub start).x ^ 2 + (goal.sub start).z ^ 2)
      ((goal.sub start).x ^ 2 + (goal.sub start).y ^ 2 + (goal.sub start).z ^ 2)
      (Mx + Mz)
      (some ((if 0 ≤ (goal.sub start).x then 1 - fract start.x else fract start.x) /
        |(goal.sub start).x|))
      (some ((if 0 ≤ (goal.sub start).z then 1 - fract start.z else fract start.z) /
        |(goal.sub start).z|)) start.floor 0 Mx Mz (by omega)
      (fun v hv => by injection hv with hv; subst hv; exact ⟨hincx, hMx⟩)
      (fun v hv => by injection hv with hv; subst hv; exact ⟨hincz, hMz⟩)
    exact ⟨n, hconv _ _ n hn (by rw [if_neg hdx]) (by rw [if_neg hdz])⟩

lemma findPath_halts {L : ℕ} {mc : MoveCost} (hL : 1 ≤ L) (hmc : QuantW L mc)
    (w : ℕ) (sg : IVec3) (op : List Vec3) (start goal : Vec3) :
    ∃ df af, (findPath mc w sg op start goal df af).isSome := by
  by_cases hg : ¬ start.floor = goal.floor ∧ ¬ sg = goal.floor
  · obtain ⟨df, hdf⟩ := find_direct_path_halts mc start goal
    rcases hval : find_direct_path mc start goal df with - | ⟨dpath, k⟩
    · rw [hval] at hdf
      exact absurd hdf (by simp)
    by_cases hne : dpath = []
    · subst hne
      -- A* runs; establish the initial invariant
      have hL0 : (L : ℚ) ≠ 0 := Nat.cast_ne_zero.mpr (by omega)
      have hfm : fMAX = ((2 ^ 128 - 2 ^ 104 : ℕ) : ℚ) := by
        have h : (2 : ℕ) ^ 104 ≤ 2 ^ 128 := Nat.pow_le_pow_right (by norm_num) (by norm_num)
        rw [fMAX]
        push_cast [h]
        norm_num
      have hbest0 : ((fMAX : ℚ) : Cost)
          = (((((2 ^ 128 - 2 ^ 104) * L : ℕ) : ℚ) / L : ℚ) : Cost) := by
        rw [WithTop.coe_inj, hfm]
        push_cast
        rw [mul_div_assoc, div_self hL0, mul_one]
      have hinv : AInv L ⟨[⟨0, ((0 : ℚ) : Cost), ((fMAX : ℚ) : Cost)⟩],
          [(start.floor, ⟨none, ((0 : ℚ) : Cost)⟩)], 0, 0, ((fMAX : ℚ) : Cost)⟩ := by
        refine ⟨⟨(2 ^ 128 - 2 ^ 104) * L, hbest0⟩, ?_⟩
        intro s hs
        rcases List.mem_singleton.mp hs with rfl
        refine ⟨Or.inr ⟨0, ?_⟩, Or.inr ⟨(2 ^ 128 - 2 ^ 104) * L, hbest0⟩⟩
        rw [WithTop.coe_inj]
        simp
      obtain ⟨af, haf⟩ := aRun_halts hL hmc goal goal.floor w _ hinv
      refine ⟨df, af, ?_⟩
      rw [findPath]
      rw [if_pos hg, hval]
      simpa using haf
    · refine ⟨df, 0, ?_⟩
      rw [findPath]
      rw [if_pos hg, hval]
      simp [hne]
  · refine ⟨0, 0, ?_⟩
    rw [findPath]
    rw [if_neg hg]
    rfl

end Pathfinding

end FMC

namespace FMC

namespace Pathfinding

/-- The concrete A* state used by the C4 witness. -/
def stW : AState :=
  ⟨[⟨0, ((0 : ℚ) : Cost), ((fMAX : ℚ) : Cost)⟩],
   [(⟨0, 0, 0⟩, ⟨none, ((0 : ℚ) : Cost)⟩)], 0, 0, ((fMAX : ℚ) : Cost)⟩

/-- The C4 witness successor: the initial queue entry. -/
def sW : Successor := ⟨0, ((0 : ℚ) : Cost), ((fMAX : ℚ) : Cost)⟩

end Pathfinding

open Pathfinding in
/-- C4 (amended): (a) on every popped successor the roundabout counter is
incremented exactly when the pop fails to improve the best known cost (the
best cost and index update exactly on improving pops), and once the
counter exceeds 25 the loop stops, committing a best-effort path to the
best node seen; (b) `find_path` halts — some direct-walk and A* fuel
suffices — whenever every move cost is `∞` or a nonnegative multiple of
some `1/L`, the discreteness that `f32` costs provide in the source. -/
theorem C4_theorem :
    (∀ (mc : MoveCost) (goal : Vec3) (bg : IVec3) (w : ℕ) (st : AState)
       (s : Successor) (rest : List Successor) (np : IVec3) (pn : PathNode),
      popMin st.queue = some (s, rest) →
      st.node_map.get? s.node_index = some (np, pn) →
      (¬ s.cost < st.best_node_cost → 25 < st.roundabout_limit + 1 →
        aStep mc goal bg w st = .finished (set_path w st.best_node_index st.node_map none)) ∧
      (s.cost < st.best_node_cost → 25 < st.roundabout_limit →
        aStep mc goal bg w st = .finished (set_path w s.node_index st.node_map none)) ∧
      (∀ st', aStep mc goal bg w st = .next st' →
        (st'.roundabout_limit, st'.best_node_cost, st'.best_node_index)
          = if s.cost < st.best_node_cost
            then (st.roundabout_limit, s.cost, s.node_index)
            else (st.roundabout_limit + 1, st.best_node_cost, st.best_node_index))) ∧
    (∀ (L : ℕ) (mc : MoveCost), 1 ≤ L → QuantW L mc →
      ∀ (w : ℕ) (sg : IVec3) (op : List Vec3) (start goal : Vec3),
        ∃ df af, (findPath mc w sg op start goal df af).isSome) :=
  ⟨fun mc goal bg w st s rest np pn hpop hnd =>
      aStep_semantics mc goal bg w st s rest np pn hpop hnd,
   fun _ mc hL hmc w sg op start goal => findPath_halts hL hmc w sg op start goal⟩

open Pathfinding in
/-- C4 (witness): the amended theorem at the all-solid world (`L = 1`) and
at the concrete initial state, whose lone queue entry fails to improve the
initial `f32::MAX` best cost. -/
theorem C4_witness :
    ((¬ Pathfinding.sW.cost < Pathfinding.stW.best_node_cost →
        25 < Pathfinding.stW.roundabout_limit + 1 →
        aStep (fun _ => ⊤) ⟨0, 0, 0⟩ ⟨0, 0, 0⟩ 0 Pathfinding.stW
          = .finished (set_path 0 Pathfinding.stW.best_node_index
              Pathfinding.stW.node_map none)) ∧
     (Pathfinding.sW.cost < Pathfinding.stW.best_node_cost →
        25 < Pathfinding.stW.roundabout_limit →
        aStep (fun _ => ⊤) ⟨0, 0, 0⟩ ⟨0, 0, 0⟩ 0 Pathfinding.stW
          = .finished (set_path 0 Pathfinding.sW.node_index
              Pathfinding.stW.node_map none)) ∧
     (∀ st', aStep (fun _ => ⊤) ⟨0, 0, 0⟩ ⟨0, 0, 0⟩ 0 Pathfinding.stW = .next st' →
        (st'.roundabout_limit, st'.best_node_cost, st'.best_node_index)
          = if Pathfinding.sW.cost < Pathfinding.stW.best_node_cost
            then (Pathfinding.stW.roundabout_limit, Pathfinding.sW.cost,
              Pathfinding.sW.node_index)
            else (Pathfinding.stW.roundabout_limit + 1, Pathfinding.stW.best_node_cost,
              Pathfinding.stW.best_node_index))) ∧
    (∃ df af, (findPath (fun _ => ⊤) 0 ⟨0, 0, 0⟩ [] ⟨1/2, 1/2, 1/2⟩ ⟨5/2, 1/2, 1/2⟩
      df af).isSome) := by
  have hpop : popMin Pathfinding.stW.queue = some (Pathfinding.sW, []) := by
    rw [popMin]
    have h1 : Pathfinding.stW.queue.argmin succKey = some Pathfinding.sW := rfl
    rw [h1]
    dsimp only
    have h2 : Pathfinding.stW.queue.erase Pathfinding.sW = [] :=
      List.erase_cons_head Pathfinding.sW []
    rw [h2]
  exact ⟨C4_theorem.1 (fun _ => ⊤) ⟨0, 0, 0⟩ ⟨0, 0, 0⟩ 0 Pathfinding.stW Pathfinding.sW
      [] ⟨0, 0, 0⟩ ⟨none, ((0 : ℚ) : Cost)⟩ hpop rfl,
    C4_theorem.2 1 (fun _ => ⊤) (by norm_num) (fun p => Or.inl rfl)
      0 ⟨0, 0, 0⟩ [] ⟨1/2, 1/2, 1/2⟩ ⟨5/2, 1/2, 1/2⟩⟩

end FMC

namespace FMC

namespace Pathfinding

/-- The C4 counterexample world: a 1-wide, head-blocked corridor of air
cells `(x, 0, 0)`, `0 ≤ x ≤ 27`, with drag `0`; everything else is solid. -/
def W27 : MoveCost := fun p =>
  if p.y = 0 ∧ p.z = 0 ∧ 0 ≤ p.x ∧ p.x ≤ 27 then ((0 : ℚ) : Cost) else ⊤

def bg27 : IVec3 := ⟨27, 0, 0⟩

/-- Corridor cell `x = k`. -/
def cW (k : ℤ) : IVec3 := ⟨k, 0, 0⟩

def goal27 : Vec3 := ⟨55/2, 1/2, 1/2⟩

def start27 : Vec3 := ⟨1/2, 1/2, 1/2⟩

/-- The node-map entry the corridor search writes for cell `i`. -/
def nodeW (i : ℕ) : PathNode :=
  if i = 0 then ⟨none, ((0 : ℚ) : Cost)⟩ else ⟨some (i - 1), hW bg27 (cW i)⟩

/-- The node map after cell `k` was inserted. -/
def NM (k : ℕ) : List (IVec3 × PathNode) :=
  (List.range (k + 1)).map fun i : ℕ => (cW (i : ℤ), nodeW i)

/-- The A* state after the `k`-th corridor pop, `1 ≤ k`. -/
def SK (k : ℕ) : AState :=
  ⟨[⟨k, ((0 : ℚ) : Cost), hW bg27 (cW k)⟩], NM k, 1,
   if k = 1 then 0 else k - 1,
   if k = 1 then ((fMAX : ℚ) : Cost) else hW bg27 (cW (k - 1 : ℕ))⟩

lemma W27_air {p : IVec3} (h : p.y = 0 ∧ p.z = 0 ∧ 0 ≤ p.x ∧ p.x ≤ 27) :
    W27 p = ((0 : ℚ) : Cost) := by
  rw [W27]
  exact if_pos h

lemma W27_top {p : IVec3} (h : ¬ (p.y = 0 ∧ p.z = 0 ∧ 0 ≤ p.x ∧ p.x ≤ 27)) :
    W27 p = ⊤ := by
  rw [W27]
  exact if_neg h

lemma hW_cW (m : ℤ) : hW bg27 (cW m) = (((m - 27) ^ 2 : ℤ) : ℚ) := by
  rw [hW, IVec3.distSq, cW, bg27]
  norm_num

lemma coe_zero_add (c : Cost) : ((0 : ℚ) : Cost) + c = c := by
  induction c using WithTop.recTopCoe with
  | top => rw [add_top]
  | coe q => rw [← WithTop.coe_add, zero_add]

lemma coe_zero_add_zero : ((0 : ℚ) : Cost) + ((0 : ℚ) : Cost) = ((0 : ℚ) : Cost) :=
  coe_zero_add _

lemma NM_length (k : ℕ) : (NM k).length = k + 1 := by
  rw [NM, List.length_map, List.length_range]

lemma NM_succ (k : ℕ) : NM (k + 1) = NM k ++ [(cW (k + 1 : ℕ), nodeW (k + 1))] := by
  rw [NM, NM, List.range_succ, List.map_append]
  rfl

lemma NM_get {i k : ℕ} (h : i ≤ k) : (NM k).get? i = some (cW i, nodeW i) := by
  rw [NM, List.get?_map, List.get?_range (by omega : i < k + 1)]
  rfl

end Pathfinding

end FMC

namespace FMC

namespace Pathfinding

lemma NM_mem {k : ℕ} {x : IVec3 × PathNode} (hx : x ∈ NM k) :
    ∃ i : ℕ, i ≤ k ∧ x = (cW (i : ℤ), nodeW i) := by
  rw [NM] at hx
  obtain ⟨i, hi, rfl⟩ := List.mem_map.mp hx
  exact ⟨i, by have := List.mem_range.mp hi; omega, rfl⟩

lemma NM_findIdx_none {k : ℕ} {m : ℤ} (h : (k : ℤ) < m) :
    (NM k).findIdx? (fun e => e.1 = cW m) = none := by
  rw [List.findIdx?_eq_none_iff]
  intro x hx
  obtain ⟨i, hik, rfl⟩ := NM_mem hx
  simp only [decide_eq_false_iff_not]
  intro hc
  rw [cW, cW, IVec3.mk.injEq] at hc
  omega

lemma NM_findIdx_some : ∀ (k i : ℕ), i ≤ k →
    (NM k).findIdx? (fun e => e.1 = cW (i : ℤ)) = some i := by
  intro k
  induction k with
  | zero =>
    intro i hi
    interval_cases i
    rw [NM]
    simp [List.range_succ]
  | succ k ih =>
    intro i hi
    rcases Nat.lt_or_ge i (k + 1) with hik | hik
    · rw [NM_succ, List.findIdx?_append, ih i (by omega)]
      rfl
    · have hieq : i = k + 1 := by omega
      subst hieq
      rw [NM_succ, List.findIdx?_append, NM_findIdx_none (by push_cast; omega)]
      rw [List.findIdx?_cons]
      simp [NM_length]

end Pathfinding

end FMC

namespace FMC

namespace Pathfinding

lemma gsucc_air (k d : ℤ) (h0 : 0 ≤ k + d) (h27 : k + d ≤ 27) :
    get_successor W27 bg27 (cW k) 0 ⟨d, 0, 0⟩
      = (cW (k + d), ((0 : ℚ) : Cost), hW bg27 (cW (k + d))) := by
  rw [get_successor]
  dsimp only
  have hpos : (cW k).add ⟨d, 0, 0⟩ = cW (k + d) := by
    rw [IVec3.add, cW, cW]
    norm_num
  rw [hpos]
  have hair : W27 (cW (k + d)) = ((0 : ℚ) : Cost) := W27_air ⟨rfl, rfl, h0, h27⟩
  rw [hair, if_neg (by simp)]
  rw [gsLoop]
  dsimp only
  have hbelow : W27 ((cW (k + d)).offsetY (-(((0 : ℕ) : ℤ) + 1))) = ⊤ := W27_top (by
    intro hcon
    have hy := hcon.1
    rw [cW, IVec3.offsetY] at hy
    norm_num at hy)
  rw [hbelow, if_pos rfl]
  have hoff : (cW (k + d)).offsetY (-((0 : ℕ) : ℤ)) = cW (k + d) := by
    rw [cW, IVec3.offsetY]
    norm_num
  rw [hoff]
  have hcost : ((0 : ℚ) : Cost) + (((0 : ℕ) : ℚ) : Cost) = ((0 : ℚ) : Cost) := by
    rw [Nat.cast_zero]
    exact coe_zero_add_zero
  rw [hcost]

lemma gsucc_top (k : ℤ) (off : IVec3) (hoy : off.y = 0)
    (htop : W27 ((cW k).add off) = ⊤) :
    (get_successor W27 bg27 (cW k) 0 off).2.1 = ⊤ := by
  rw [get_successor]
  dsimp only
  rw [htop, if_neg (by simp)]
  rw [gsLoop]
  dsimp only
  have hbelow : W27 (((cW k).add off).offsetY (-(((0 : ℕ) : ℤ) + 1))) = ⊤ := W27_top (by
    intro hcon
    have hy := hcon.1
    rw [IVec3.add, cW, IVec3.offsetY] at hy
    dsimp only at hy
    omega)
  rw [hbelow, if_pos rfl]
  dsimp only
  exact top_add _

end Pathfinding

end FMC

namespace FMC

namespace Pathfinding

lemma W27_zoff (k : ℤ) (off : IVec3) (hz : off.z ≠ 0) :
    W27 ((cW k).add off) = ⊤ := by
  apply W27_top
  intro hcon
  have := hcon.2.1
  rw [IVec3.add, cW] at this
  dsimp only at this
  omega

lemma corridor_above (k : ℤ) : W27 ((cW k).offsetY 1) = ⊤ := by
  apply W27_top
  intro hcon
  have := hcon.1
  rw [cW, IVec3.offsetY] at this
  norm_num at this

lemma corridor_gps (k : ℤ) (h1 : 1 ≤ k) (h26 : k ≤ 26) :
    get_potential_successors W27 bg27 (cW k)
      = [(cW (k + 1), ((0 : ℚ) : Cost), hW bg27 (cW (k + 1))),
         (cW (k + -1), ((0 : ℚ) : Cost), hW bg27 (cW (k + -1)))] := by
  have e1 : (get_successor W27 bg27 (cW k) 0 ⟨0, 0, 1⟩).2.1 = ⊤ :=
    gsucc_top k _ rfl (W27_zoff k _ (by norm_num))
  have e2 : (get_successor W27 bg27 (cW k) 0 ⟨0, 0, -1⟩).2.1 = ⊤ :=
    gsucc_top k _ rfl (W27_zoff k _ (by norm_num))
  have e3 : (get_successor W27 bg27 (cW k) 0 ⟨1, 0, 1⟩).2.1 = ⊤ :=
    gsucc_top k _ rfl (W27_zoff k _ (by norm_num))
  have e4 : (get_successor W27 bg27 (cW k) 0 ⟨1, 0, -1⟩).2.1 = ⊤ :=
    gsucc_top k _ rfl (W27_zoff k _ (by norm_num))
  have e5 : (get_successor W27 bg27 (cW k) 0 ⟨-1, 0, 1⟩).2.1 = ⊤ :=
    gsucc_top k _ rfl (W27_zoff k _ (by norm_num))
  have e6 : (get_successor W27 bg27 (cW k) 0 ⟨-1, 0, -1⟩).2.1 = ⊤ :=
    gsucc_top k _ rfl (W27_zoff k _ (by norm_num))
  rw [get_potential_successors]
  rw [corridor_above, if_pos rfl]
  rw [List.map_cons, List.map_cons, List.map_cons, List.map_cons, List.map_cons,
    List.map_cons, List.map_cons, List.map_cons, List.map_nil]
  rw [gsucc_air k 1 (by omega) (by omega), gsucc_air k (-1) (by omega) (by omega)]
  simp only [List.filter_cons, List.filter_nil]
  rw [e1, e2, e3, e4, e5, e6]
  simp

lemma corridor_gps0 :
    get_potential_successors W27 bg27 (cW 0)
      = [(cW (0 + 1), ((0 : ℚ) : Cost), hW bg27 (cW (0 + 1)))] := by
  have e0 : (get_successor W27 bg27 (cW 0) 0 ⟨-1, 0, 0⟩).2.1 = ⊤ := by
    refine gsucc_top 0 _ rfl (W27_top ?_)
    intro hcon
    have := hcon.2.2.1
    rw [IVec3.add, cW] at this
    dsimp only at this
    omega
  have e1 : (get_successor W27 bg27 (cW 0) 0 ⟨0, 0, 1⟩).2.1 = ⊤ :=
    gsucc_top 0 _ rfl (W27_zoff 0 _ (by norm_num))
  have e2 : (get_successor W27 bg27 (cW 0) 0 ⟨0, 0, -1⟩).2.1 = ⊤ :=
    gsucc_top 0 _ rfl (W27_zoff 0 _ (by norm_num))
  have e3 : (get_successor W27 bg27 (cW 0) 0 ⟨1, 0, 1⟩).2.1 = ⊤ :=
    gsucc_top 0 _ rfl (W27_zoff 0 _ (by norm_num))
  have e4 : (get_successor W27 bg27 (cW 0) 0 ⟨1, 0, -1⟩).2.1 = ⊤ :=
    gsucc_top 0 _ rfl (W27_zoff 0 _ (by norm_num))
  have e5 : (get_successor W27 bg27 (cW 0) 0 ⟨-1, 0, 1⟩).2.1 = ⊤ :=
    gsucc_top 0 _ rfl (W27_zoff 0 _ (by norm_num))
  have e6 : (get_successor W27 bg27 (cW 0) 0 ⟨-1, 0, -1⟩).2.1 = ⊤ :=
    gsucc_top 0 _ rfl (W27_zoff 0 _ (by norm_num))
  rw [get_potential_successors]
  rw [corridor_above, if_pos rfl]
  rw [List.map_cons, List.map_cons, List.map_cons, List.map_cons, List.map_cons,
    List.map_cons, List.map_cons, List.map_cons, List.map_nil]
  rw [gsucc_air 0 1 (by omega) (by omega)]
  simp only [List.filter_cons, List.filter_nil]
  rw [e0, e1, e2, e3, e4, e5, e6]
  simp

end Pathfinding

end FMC

namespace FMC

namespace Pathfinding

lemma nodeW_pos {k : ℕ} (h : 1 ≤ k) : nodeW k = ⟨some (k - 1), hW bg27 (cW k)⟩ := by
  rw [nodeW, if_neg (by omega)]

lemma cW_pred {k : ℕ} (h : 1 ≤ k) : cW ((k : ℤ) + -1) = cW ((k - 1 : ℕ) : ℤ) := by
  rw [cW, cW]
  congr 1 <;> omega

lemma cW_succ (k : ℕ) : cW ((k : ℤ) + 1) = cW ((k + 1 : ℕ) : ℤ) := by
  rw [cW, cW]
  congr 1 <;> omega

lemma hW_lt_fMAX (m : ℤ) (h0 : 0 ≤ m) (h27 : m ≤ 27) :
    hW bg27 (cW m) < ((fMAX : ℚ) : Cost) := by
  rw [hW_cW, WithTop.coe_lt_coe]
  have h1 : ((m - 27) ^ 2 : ℤ) ≤ 729 := by nlinarith
  have h2 : (((m - 27) ^ 2 : ℤ) : ℚ) ≤ 729 := by exact_mod_cast h1
  have h3 : (729 : ℚ) < fMAX := by norm_num [fMAX]
  linarith

lemma hW_strict {k : ℤ} (h1 : 1 ≤ k) (h27 : k ≤ 27) :
    hW bg27 (cW k) < hW bg27 (cW (k - 1)) := by
  rw [hW_cW, hW_cW, WithTop.coe_lt_coe]
  have : ((k - 27) ^ 2 : ℤ) < (k - 1 - 27) ^ 2 := by nlinarith
  exact_mod_cast this

end Pathfinding

end FMC

namespace FMC

namespace Pathfinding

lemma corridor_step (k : ℕ) (h1 : 1 ≤ k) (h25 : k ≤ 25) :
    aStep W27 goal27 bg27 0 (SK k) = .next (SK (k + 1)) := by
  have hpop : popMin (SK k).queue
      = some (⟨k, ((0 : ℚ) : Cost), hW bg27 (cW k)⟩, []) := by
    rw [SK, popMin]
    dsimp only
    rw [List.argmin_singleton]
    dsimp only
    rw [List.erase_cons_head]
  have hnd : (SK k).node_map.get? k = some (cW (k : ℕ), nodeW k) := by
    rw [SK]
    exact NM_get (le_refl k)
  have hstep : aStep W27 goal27 bg27 0 (SK k) =
      (let s : Successor := ⟨k, ((0 : ℚ) : Cost), hW bg27 (cW k)⟩
       let improved := decide (s.cost < (SK k).best_node_cost)
       let best_node_cost := if improved then s.cost else (SK k).best_node_cost
       let best_node_index := if improved then s.node_index else (SK k).best_node_index
       let roundabout_limit := if improved then (SK k).roundabout_limit
         else (SK k).roundabout_limit + 1
       if 25 < roundabout_limit then
         .finished (set_path 0 best_node_index (SK k).node_map none)
       else if (nodeW k).cost < s.cost ∧ (nodeW k).parent_index ≠ none then
         .next { queue := [], node_map := (SK k).node_map,
                 roundabout_limit := roundabout_limit,
                 best_node_index := best_node_index, best_node_cost := best_node_cost }
       else
         match expandFold 0 bg27 goal27 s
             (get_potential_successors W27 bg27 (cW (k : ℕ))) (SK k).node_map [] with
         | .error path => .finished path
         | .ok (nm, q) =>
           .next ⟨q, nm, roundabout_limit, best_node_index, best_node_cost⟩) := by
    rw [aStep, hpop]
    dsimp only
    rw [hnd]
  rw [hstep]
  have hcost : (⟨k, ((0 : ℚ) : Cost), hW bg27 (cW k)⟩ : Successor).cost
      = hW bg27 (cW k) := by
    rw [Successor.cost]
    exact coe_zero_add _
  have himp : (⟨k, ((0 : ℚ) : Cost), hW bg27 (cW k)⟩ : Successor).cost
      < (SK k).best_node_cost := by
    rw [hcost, SK]
    dsimp only
    by_cases hk1 : k = 1
    · rw [if_pos hk1, hk1]
      exact hW_lt_fMAX 1 (by omega) (by omega)
    · rw [if_neg hk1]
      have := hW_strict (k := (k : ℤ)) (by omega) (by omega)
      rwa [show ((k : ℤ) - 1) = ((k - 1 : ℕ) : ℤ) by omega] at this
  dsimp only
  simp only [himp, decide_True, if_true]
  rw [show (SK k).roundabout_limit = 1 from rfl]
  rw [if_neg (by norm_num)]
  rw [if_neg (by
    intro hcon
    rw [nodeW_pos h1] at hcon
    exact absurd (hcost ▸ hcon.1) (lt_irrefl _))]
  rw [show (SK k).node_map = NM k from rfl]
  rw [corridor_gps (k : ℤ) (by omega) (by omega)]
  rw [expandFold]
  dsimp only
  rw [NM_findIdx_none (show (k : ℤ) < (k : ℤ) + 1 by omega)]
  dsimp only
  rw [if_neg (show ¬ cW ((k : ℤ) + 1) = bg27 by
    intro hcon
    rw [cW, bg27, IVec3.mk.injEq] at hcon
    omega)]
  have hnode : (⟨some k, (⟨k, ((0 : ℚ) : Cost), hW bg27 (cW k)⟩ : Successor).move_cost
      + ((0 : ℚ) : Cost) + hW bg27 (cW ((k : ℤ) + 1))⟩ : PathNode)
      = nodeW (k + 1) := by
    rw [nodeW_pos (by omega : 1 ≤ k + 1)]
    dsimp only
    rw [coe_zero_add_zero, coe_zero_add, cW_succ]
    congr 1
  have hnm : NM k ++ [(cW ((k : ℤ) + 1),
      ⟨some k, (⟨k, ((0 : ℚ) : Cost), hW bg27 (cW k)⟩ : Successor).move_cost
        + ((0 : ℚ) : Cost) + hW bg27 (cW ((k : ℤ) + 1))⟩)] = NM (k + 1) := by
    rw [hnode, NM_succ, cW_succ]
  rw [hnm]
  rw [expandFold]
  dsimp only
  rw [cW_pred h1, NM_findIdx_some (k + 1) (k - 1) (by omega)]
  dsimp only
  rw [NM_get (show k - 1 ≤ k + 1 by omega)]
  dsimp only
  rw [if_neg (show ¬ (⟨k, ((0 : ℚ) : Cost), hW bg27 (cW k)⟩ : Successor).move_cost
      + ((0 : ℚ) : Cost) + hW bg27 (cW ((k - 1 : ℕ) : ℤ)) < (nodeW (k - 1)).cost by
    dsimp only
    rw [coe_zero_add_zero, coe_zero_add]
    by_cases hk1 : k = 1
    · subst hk1
      rw [show (1 - 1 : ℕ) = 0 from rfl, nodeW]
      rw [if_pos rfl]
      rw [hW_cW, WithTop.coe_lt_coe]
      intro hcon
      norm_num at hcon
    · rw [nodeW_pos (by omega : 1 ≤ k - 1)]
      exact lt_irrefl _)]
  rw [expandFold]
  rw [SK]
  dsimp only
  rw [if_neg (by omega : ¬ k + 1 = 1)]
  congr 1
  refine AState.mk.injEq .. ▸ ?_
  refine ⟨?_, rfl, rfl, rfl, ?_⟩
  · rw [List.nil_append, NM_length, coe_zero_add_zero, cW_succ]
  · rw [hcost]
    rw [show (k + 1 - 1 : ℕ) = k from by omega]
    rw [if_neg (by omega : ¬ k + 1 = 1)]

end Pathfinding

end FMC

namespace FMC

namespace Pathfinding

/-- The best-effort 27-node corridor path committed by the search. -/
def path27 : List Vec3 := set_path 0 27 (NM 27) (some goal27)

lemma corridor_final : aStep W27 goal27 bg27 0 (SK 26) = .finished path27 := by
  have hpop : popMin (SK 26).queue
      = some (⟨26, ((0 : ℚ) : Cost), hW bg27 (cW 26)⟩, []) := by
    rw [SK, popMin]
    dsimp only
    rw [List.argmin_singleton]
    dsimp only
    rw [List.erase_cons_head]
    rfl
  have hnd : (SK 26).node_map.get? 26 = some (cW (26 : ℕ), nodeW 26) := by
    rw [SK]
    exact NM_get (le_refl 26)
  have hstep : aStep W27 goal27 bg27 0 (SK 26) =
      (let s : Successor := ⟨26, ((0 : ℚ) : Cost), hW bg27 (cW 26)⟩
       let improved := decide (s.cost < (SK 26).best_node_cost)
       let best_node_cost := if improved then s.cost else (SK 26).best_node_cost
       let best_node_index := if improved then s.node_index else (SK 26).best_node_index
       let roundabout_limit := if improved then (SK 26).roundabout_limit
         else (SK 26).roundabout_limit + 1
       if 25 < roundabout_limit then
         .finished (set_path 0 best_node_index (SK 26).node_map none)
       else if (nodeW 26).cost < s.cost ∧ (nodeW 26).parent_index ≠ none then
         .next { queue := [], node_map := (SK 26).node_map,
                 roundabout_limit := roundabout_limit,
                 best_node_index := best_node_index, best_node_cost := best_node_cost }
       else
         match expandFold 0 bg27 goal27 s
             (get_potential_successors W27 bg27 (cW (26 : ℕ))) (SK 26).node_map [] with
         | .error path => .finished path
         | .ok (nm, q) =>
           .next ⟨q, nm, roundabout_limit, best_node_index, best_node_cost⟩) := by
    rw [aStep, hpop]
    dsimp only
    rw [hnd]
  rw [hstep]
  have hcost : (⟨26, ((0 : ℚ) : Cost), hW bg27 (cW 26)⟩ : Successor).cost
      = hW bg27 (cW 26) := by
    rw [Successor.cost]
    exact coe_zero_add _
  have himp : (⟨26, ((0 : ℚ) : Cost), hW bg27 (cW 26)⟩ : Successor).cost
      < (SK 26).best_node_cost := by
    rw [hcost, SK]
    dsimp only
    rw [if_neg (by omega)]
    have := hW_strict (k := (26 : ℤ)) (by omega) (by omega)
    rwa [show ((26 : ℤ) - 1) = ((25 : ℕ) : ℤ) by omega] at this
  dsimp only
  simp only [himp, decide_True, if_true]
  rw [show (SK 26).roundabout_limit = 1 from rfl]
  rw [if_neg (by norm_num)]
  rw [if_neg (by
    intro hcon
    rw [nodeW_pos (by omega : 1 ≤ 26)] at hcon
    exact absurd (hcost ▸ hcon.1) (lt_irrefl _))]
  rw [show (SK 26).node_map = NM 26 from rfl]
  rw [show cW ((26 : ℕ) : ℤ) = cW (26 : ℤ) from rfl]
  rw [corridor_gps (26 : ℤ) (by omega) (by omega)]
  rw [expandFold]
  dsimp only
  rw [NM_findIdx_none (show ((26 : ℕ) : ℤ) < (26 : ℤ) + 1 by omega)]
  dsimp only
  rw [if_pos (show cW ((26 : ℤ) + 1) = bg27 by rw [cW, bg27]; norm_num)]
  have hnode : (⟨some 26, (⟨26, ((0 : ℚ) : Cost), hW bg27 (cW 26)⟩ : Successor).move_cost
      + ((0 : ℚ) : Cost) + hW bg27 (cW ((26 : ℤ) + 1))⟩ : PathNode)
      = nodeW 27 := by
    rw [nodeW_pos (by omega : 1 ≤ 27)]
    dsimp only
    rw [coe_zero_add_zero, coe_zero_add]
    rfl
  have hnm : NM 26 ++ [(cW ((26 : ℤ) + 1),
      ⟨some 26, (⟨26, ((0 : ℚ) : Cost), hW bg27 (cW 26)⟩ : Successor).move_cost
        + ((0 : ℚ) : Cost) + hW bg27 (cW ((26 : ℤ) + 1))⟩)] = NM 27 := by
    rw [hnode]
    rw [show cW ((26 : ℤ) + 1) = cW ((27 : ℕ) : ℤ) from rfl]
    exact (NM_succ 26).symm
  rw [hnm]
  rw [path27]
  rw [show (NM 26).length = 27 from by rw [NM_length]]

end Pathfinding

end FMC

namespace FMC

namespace Pathfinding

/-- The initial A* state of the corridor search. -/
def S0 : AState :=
  ⟨[⟨0, ((0 : ℚ) : Cost), ((fMAX : ℚ) : Cost)⟩], NM 0, 0, 0, ((fMAX : ℚ) : Cost)⟩

lemma corridor_start : aStep W27 goal27 bg27 0 S0 = .next (SK 1) := by
  have hpop : popMin S0.queue
      = some (⟨0, ((0 : ℚ) : Cost), ((fMAX : ℚ) : Cost)⟩, []) := by
    rw [S0, popMin]
    dsimp only
    rw [List.argmin_singleton]
    dsimp only
    rw [List.erase_cons_head]
  have hnd : S0.node_map.get? 0 = some (cW (0 : ℕ), nodeW 0) := by
    rw [S0]
    exact NM_get (le_refl 0)
  have hstep : aStep W27 goal27 bg27 0 S0 =
      (let s : Successor := ⟨0, ((0 : ℚ) : Cost), ((fMAX : ℚ) : Cost)⟩
       let improved := decide (s.cost < S0.best_node_cost)
       let best_node_cost := if improved then s.cost else S0.best_node_cost
       let best_node_index := if improved then s.node_index else S0.best_node_index
       let roundabout_limit := if improved then S0.roundabout_limit
         else S0.roundabout_limit + 1
       if 25 < roundabout_limit then
         .finished (set_path 0 best_node_index S0.node_map none)
       else if (nodeW 0).cost < s.cost ∧ (nodeW 0).parent_index ≠ none then
         .next { queue := [], node_map := S0.node_map,
                 roundabout_limit := roundabout_limit,
                 best_node_index := best_node_index, best_node_cost := best_node_cost }
       else
         match expandFold 0 bg27 goal27 s
             (get_potential_successors W27 bg27 (cW (0 : ℕ))) S0.node_map [] with
         | .error path => .finished path
         | .ok (nm, q) =>
           .next ⟨q, nm, roundabout_limit, best_node_index, best_node_cost⟩) := by
    rw [aStep, hpop]
    dsimp only
    rw [hnd]
  rw [hstep]
  have hni : ¬ (⟨0, ((0 : ℚ) : Cost), ((fMAX : ℚ) : Cost)⟩ : Successor).cost
      < S0.best_node_cost := by
    rw [Successor.cost]
    dsimp only
    rw [coe_zero_add]
    exact lt_irrefl _
  dsimp only
  simp only [hni, decide_False, Bool.false_eq_true, if_false]
  rw [show S0.roundabout_limit = 0 from rfl]
  rw [if_neg (by norm_num)]
  rw [if_neg (by
    intro hcon
    apply hcon.2
    rw [nodeW, if_pos rfl])]
  rw [show S0.node_map = NM 0 from rfl]
  rw [show cW ((0 : ℕ) : ℤ) = cW (0 : ℤ) from rfl]
  rw [corridor_gps0]
  rw [expandFold]
  dsimp only
  rw [NM_findIdx_none (show ((0 : ℕ) : ℤ) < (0 : ℤ) + 1 by omega)]
  dsimp only
  rw [if_neg (show ¬ cW ((0 : ℤ) + 1) = bg27 by
    intro hcon
    rw [cW, bg27, IVec3.mk.injEq] at hcon
    omega)]
  have hnode : (⟨some 0, (⟨0, ((0 : ℚ) : Cost), ((fMAX : ℚ) : Cost)⟩ : Successor).move_cost
      + ((0 : ℚ) : Cost) + hW bg27 (cW ((0 : ℤ) + 1))⟩ : PathNode)
      = nodeW 1 := by
    rw [nodeW_pos (le_refl 1)]
    dsimp only
    rw [coe_zero_add_zero, coe_zero_add]
    rfl
  have hnm : NM 0 ++ [(cW ((0 : ℤ) + 1),
      ⟨some 0, (⟨0, ((0 : ℚ) : Cost), ((fMAX : ℚ) : Cost)⟩ : Successor).move_cost
        + ((0 : ℚ) : Cost) + hW bg27 (cW ((0 : ℤ) + 1))⟩)] = NM 1 := by
    rw [hnode]
    rw [show cW ((0 : ℤ) + 1) = cW ((1 : ℕ) : ℤ) from rfl]
    exact (NM_succ 0).symm
  rw [hnm]
  rw [expandFold]
  rw [SK]
  dsimp only
  rw [if_pos rfl]
  congr 1
  refine AState.mk.injEq .. ▸ ?_
  refine ⟨?_, rfl, rfl, rfl, rfl⟩
  rw [List.nil_append, coe_zero_add_zero]
  rw [show (NM 0).length = 1 from by rw [NM_length]]
  rw [show cW ((0 : ℤ) + 1) = cW ((1 : ℕ) : ℤ) from rfl]

lemma corridor_run : ∀ (m k : ℕ), k + m = 26 → 1 ≤ k →
    aRun W27 goal27 bg27 0 (m + 2) (SK k) = some path27 := by
  intro m
  induction m with
  | zero =>
    intro k hk h1
    have hk26 : k = 26 := by omega
    subst hk26
    rw [aRun, corridor_final]
  | succ m ih =>
    intro k hk h1
    rw [show m + 1 + 2 = (m + 2) + 1 from rfl, aRun, corridor_step k h1 (by omega)]
    exact ih (k + 1) (by omega) (by omega)

lemma chainWalk_NM_len (off : Vec3) : ∀ (fuel i : ℕ), i ≤ 27 → i < fuel →
    (chainWalk (NM 27) off fuel (some i)).length = i + 1 := by
  intro fuel
  induction fuel with
  | zero => intro i _ h; omega
  | succ f ih =>
    intro i hi27 hif
    rw [chainWalk, NM_get hi27]
    by_cases hi0 : i = 0
    · subst hi0
      rw [nodeW, if_pos rfl]
      dsimp only
      rw [chainWalk]
      rfl
    · rw [nodeW_pos (by omega)]
      dsimp only
      rw [List.length_cons, ih (i - 1) (by omega) (by omega)]
      omega

lemma path27_len : path27.length = 27 := by
  rw [path27, set_path]
  rw [List.length_dropLast, List.length_set]
  rw [NM_length]
  rw [chainWalk_NM_len _ (27 + 1 + 1) 27 (le_refl 27) (by omega)]

end Pathfinding

end FMC

namespace FMC

namespace Pathfinding

lemma corridor_floor_start : start27.floor = cW 0 := by
  rw [start27, Vec3.floor, cW]
  norm_num

lemma corridor_floor_goal : goal27.floor = bg27 := by
  rw [goal27, Vec3.floor, bg27]
  norm_num

/-- The direct walk in the corridor world fails on its first iteration:
the head-height block above `(1, 0, 0)` is solid. -/
lemma corridor_dda : find_direct_path W27 start27 goal27 2 = some ([], 1) := by
  rw [find_direct_path, corridor_floor_start, corridor_floor_goal]
  have hd : goal27.sub start27 = ⟨27, 0, 0⟩ := by
    rw [goal27, start27, Vec3.sub]
    norm_num
  rw [hd]
  dsimp only [start27]
  norm_num [fract]
  rw [ddaLoop]
  norm_num [ominO, cW, bg27, W27, IVec3.offsetY, IVec3.mk.injEq]

lemma corridor_findPath :
    findPath W27 0 (cW 0) [] start27 goal27 2 28 = some path27 := by
  rw [findPath]
  rw [corridor_floor_start, corridor_floor_goal]
  rw [if_pos ⟨by
      intro hcon
      rw [cW, bg27, IVec3.mk.injEq] at hcon
      omega,
    by
      intro hcon
      rw [cW, bg27, IVec3.mk.injEq] at hcon
      omega⟩]
  rw [corridor_dda]
  dsimp only
  rw [if_neg (by simp)]
  rw [show ([(cW 0, (⟨none, ((0 : ℚ) : Cost)⟩ : PathNode))]) = NM 0 from by
    rw [NM]
    simp [List.range_succ, nodeW]]
  rw [show (28 : ℕ) = 27 + 1 from rfl, aRun]
  rw [show (⟨[⟨0, ((0 : ℚ) : Cost), ((fMAX : ℚ) : Cost)⟩], NM 0, 0, 0,
      ((fMAX : ℚ) : Cost)⟩ : AState) = S0 from rfl]
  rw [corridor_start]
  exact corridor_run 25 1 rfl (le_refl 1)

end Pathfinding

end FMC

namespace FMC

open Pathfinding in
/-- C4 (counterexample): in the head-blocked corridor world the direct
walk dies on its first iteration (length 1), yet `find_path` — whose pops
all improve the best cost, so the roundabout counter never passes 1 —
commits a 27-node path when the goal is inserted: the claimed bound
`path length ≤ 25 + direct-walk length` is violated, `27 > 25 + 1`. -/
theorem C4_counterexample :
    findPath W27 0 (cW 0) [] start27 goal27 2 28 = some path27 ∧
    path27.length = 27 ∧
    find_direct_path W27 start27 goal27 2 = some ([], 1) ∧
    ¬ (27 ≤ 25 + 1) :=
  ⟨corridor_findPath, path27_len, corridor_dda, by norm_num⟩

end FMC
